import Mathlib

/-!
# abt-feed-parser: a shallow embedding of `main.go`

Go strings are modelled as `String` (well-formed UTF-8 text, which is what
`encoding/xml` and the `utf8mb4` store connection deliver); `len(s)` is the
number of bytes of the UTF-8 encoding. The functions of Go's `time`,
`strings` and `unicode` packages that `main.go` calls are modelled after the
standard library (`time/format.go`, `time/time.go`, `strings/strings.go`).
-/

namespace AbtFeed

/-! ## Go strings -/

/-- Go's `len(s)` for a string: the number of bytes of its UTF-8 encoding. -/
def goLen (s : String) : Nat := s.utf8ByteSize

/-- Number of characters (runes) of a string, `utf8.RuneCountInString`. -/
def runeCount (s : String) : Nat := s.length

/-! ## `time`: calendar arithmetic (`time/time.go`) -/

/-- A `time.Time` instant: seconds since the Unix epoch. The location is not
kept because `main.go` reads every time through `.UTC()`, and the sub-second
part is not kept because the only layout that is printed has no fraction. -/
structure Time where
  unix : Int
deriving DecidableEq, Repr

def secondsPerDay : Nat := 86400
def daysPer400Years : Nat := 365 * 400 + 97
def daysPer100Years : Nat := 365 * 100 + 24
def daysPer4Years : Nat := 365 * 4 + 1

/-- The year of the absolute epoch of `time.Time`, `absoluteZeroYear`. -/
def absoluteZeroYear : Int := -292277022399

/-- Seconds from the absolute epoch to the Unix epoch,
`unixToInternal + internalToAbsolute`. -/
def unixToAbsolute : Int := 62135596800 + 9223371966579724800

/-- The `daysBefore` table: days in a non-leap year before month `m+1`. -/
def daysBefore : List Nat :=
  [0, 31, 59, 90, 120, 151, 181, 212, 243, 273, 304, 334, 365]

def isLeap (year : Int) : Bool :=
  year % 4 == 0 && (year % 100 != 0 || year % 400 == 0)

/-- The function `daysIn(m, year)`. -/
def daysIn (m : Nat) (year : Int) : Nat :=
  if m == 2 && isLeap year then 29
  else daysBefore.getD m 0 - daysBefore.getD (m - 1) 0

/-- The function `norm(hi, lo, base)`. -/
def norm (hi lo base : Int) : Int × Int :=
  let (hi, lo) :=
    if lo < 0 then
      let n := Int.tdiv (-lo - 1) base + 1
      (hi - n, lo + n * base)
    else (hi, lo)
  if lo ≥ base then
    let n := Int.tdiv lo base
    (hi + n, lo - n * base)
  else (hi, lo)

/-- The function `daysSinceEpoch(year)`: days from the absolute epoch to the
start of `year` (unsigned 64-bit arithmetic). -/
def daysSinceEpoch (year : Int) : Nat :=
  let y := ((year - absoluteZeroYear) % 2 ^ 64).toNat
  let n := y / 400
  let y := y - 400 * n
  let d := daysPer400Years * n
  let n := y / 100
  let y := y - 100 * n
  let d := d + daysPer100Years * n
  let n := y / 4
  let y := y - 4 * n
  let d := d + daysPer4Years * n
  d + 365 * y

/-- The conversion to `int64`, and the result of `int64` arithmetic: the
number in the range from `-2^63` to `2^63 - 1` that differs by a multiple of
`2^64`. -/
def toInt64 (x : Int) : Int := (x + 2 ^ 63) % 2 ^ 64 - 2 ^ 63

/-- The function `time.Date(year, month, day, hour, min, sec, 0, time.UTC)`.
The days and seconds are `uint64` arithmetic, the Unix time is
`int64(abs) + (absoluteToInternal + internalToUnix)` in `int64`. -/
def Date (year month day hour min sec : Int) : Time :=
  let m := month - 1
  let (year, m) := norm year m 12
  let month := m + 1
  let (min, sec) := norm min sec 60
  let (hour, min) := norm hour min 60
  let (day, hour) := norm day hour 24
  let d : Int := daysSinceEpoch year
  let d := d + (daysBefore.getD (month - 1).toNat 0 : Nat)
  let d := if isLeap year && month ≥ 3 then d + 1 else d
  let d := (d + (day - 1)) % 2 ^ 64
  let abs := (d * 86400 + (hour * 3600 + min * 60 + sec)) % 2 ^ 64
  ⟨toInt64 (toInt64 abs - unixToAbsolute)⟩

/-- The method `t.abs()` for a UTC time: seconds since the absolute epoch as
an unsigned 64-bit number. -/
def Time.abs (t : Time) : Nat := ((t.unix + unixToAbsolute) % 2 ^ 64).toNat

/-- The function `absDate(abs, true)`: year, month and day of month. -/
def absDate (abs : Nat) : Int × Nat × Nat :=
  let d := abs / secondsPerDay
  let n := d / daysPer400Years
  let y := 400 * n
  let d := d - daysPer400Years * n
  let n := d / daysPer100Years
  let n := n - n / 4
  let y := y + 100 * n
  let d := d - daysPer100Years * n
  let n := d / daysPer4Years
  let y := y + 4 * n
  let d := d - daysPer4Years * n
  let n := d / 365
  let n := n - n / 4
  let y := y + n
  let d := d - 365 * n
  let y64 : Int := if y < 2 ^ 63 then (y : Int) else (y : Int) - 2 ^ 64
  let year : Int := y64 + absoluteZeroYear
  let day := d
  if isLeap year && day == 31 + 29 - 1 then (year, 2, 29)
  else
    let day := if isLeap year && day > 31 + 29 - 1 then day - 1 else day
    let month := day / 31
    let endDay := daysBefore.getD (month + 1) 0
    if day ≥ endDay then (year, month + 2, day - endDay + 1)
    else (year, month + 1, day - daysBefore.getD month 0 + 1)

/-- The function `absClock(abs)`: hour, minute and second of the day. -/
def absClock (abs : Nat) : Nat × Nat × Nat :=
  let sec := abs % secondsPerDay
  let hour := sec / 3600
  let sec := sec - hour * 3600
  let min := sec / 60
  let sec := sec - min * 60
  (hour, min, sec)

/-- The function `appendInt(b, x, width)` without the buffer: an optional
minus sign, then the decimal digits of the magnitude of `x`, zero-padded to
`width`. The digits are assembled from the least significant one, in a
buffer of twenty bytes. -/
def decimalDigits : Nat → Nat → List Char → List Char
  | 0, _, acc => acc
  | fuel + 1, u, acc =>
    if u ≥ 10 then decimalDigits fuel (u / 10) (Char.ofNat (48 + u % 10) :: acc)
    else Char.ofNat (48 + u) :: acc

def appendInt (x : Int) (width : Nat) : List Char :=
  let sign := if x < 0 then ['-'] else []
  let digits := decimalDigits 20 x.natAbs []
  sign ++ List.replicate (width - digits.length) '0' ++ digits

/-- The method `t.UTC().Format("2006-01-02 15:04:05")`. -/
def Time.formatUTC (t : Time) : String :=
  let (year, month, day) := absDate t.abs
  let (hour, min, sec) := absClock t.abs
  String.mk (appendInt year 4 ++ ['-'] ++ appendInt month 2 ++ ['-'] ++ appendInt day 2
    ++ [' '] ++ appendInt hour 2 ++ [':'] ++ appendInt min 2 ++ [':'] ++ appendInt sec 2)

/-! ## `time.Parse` (`time/format.go`)

The parser follows the current releases of the standard library (Go 1.20
and later): a comma or a period starts a fractional second, more than nine
fractional digits are cut off, and a numeric zone of more than 24 hours or
more than 60 minutes is out of range. The value is read character by
character; every element of a layout matches ASCII text only, so a character
beyond ASCII fails the element at which Go's byte-wise parser fails. -/

/-- The elements of a layout that `main.go` uses, as `nextStdChunk` cuts
them: literal text and the standard chunks. -/
inductive Chunk
  | lit (text : List Char)
  | stdWeekDay
  | stdMonth
  | stdZeroMonth
  | stdDay
  | stdZeroDay
  | stdLongYear
  | stdHour
  | stdZeroMinute
  | stdZeroSecond
  | stdNumTZ
  | stdNumColonTZ
  | stdTZ
deriving DecidableEq, Repr

/-- Layout `"Mon, 02 Jan 2006 15:04:05 -0700"`. -/
def layoutRFC1123Z : List Chunk :=
  [.stdWeekDay, .lit [',', ' '], .stdZeroDay, .lit [' '], .stdMonth, .lit [' '],
   .stdLongYear, .lit [' '], .stdHour, .lit [':'], .stdZeroMinute, .lit [':'],
   .stdZeroSecond, .lit [' '], .stdNumTZ]

/-- Layout `"Mon, 2 Jan 2006 15:04:05 -0700"`. -/
def layoutRFC1123ZShortDay : List Chunk :=
  [.stdWeekDay, .lit [',', ' '], .stdDay, .lit [' '], .stdMonth, .lit [' '],
   .stdLongYear, .lit [' '], .stdHour, .lit [':'], .stdZeroMinute, .lit [':'],
   .stdZeroSecond, .lit [' '], .stdNumTZ]

/-- Layout `"Mon, 02 Jan 2006 15:04:05 MST"`. -/
def layoutRFC1123 : List Chunk :=
  [.stdWeekDay, .lit [',', ' '], .stdZeroDay, .lit [' '], .stdMonth, .lit [' '],
   .stdLongYear, .lit [' '], .stdHour, .lit [':'], .stdZeroMinute, .lit [':'],
   .stdZeroSecond, .lit [' '], .stdTZ]

/-- Layout `"2006-01-02T15:04:05-07:00"`. -/
def layoutYouTube : List Chunk :=
  [.stdLongYear, .lit ['-'], .stdZeroMonth, .lit ['-'], .stdZeroDay, .lit ['T'],
   .stdHour, .lit [':'], .stdZeroMinute, .lit [':'], .stdZeroSecond, .stdNumColonTZ]

def isDigitChar (c : Char) : Bool := 48 ≤ c.toNat && c.toNat ≤ 57

def digitVal (c : Char) : Nat := c.toNat - 48

/-- The function `isDigit(s, i)`. -/
def isDigit (s : List Char) (i : Nat) : Bool :=
  match s.get? i with
  | some c => isDigitChar c
  | none => false

/-- The function `getnum(s, fixed)`: a one- or two-digit number, exactly two
digits when `fixed`. -/
def getnum (s : List Char) (fixed : Bool) : Option (Nat × List Char) :=
  match s with
  | [] => none
  | c0 :: rest =>
    if !isDigitChar c0 then none
    else
      match rest with
      | c1 :: rest1 =>
        if isDigitChar c1 then some (digitVal c0 * 10 + digitVal c1, rest1)
        else if fixed then none else some (digitVal c0, rest)
      | [] => if fixed then none else some (digitVal c0, rest)

def cutspace (s : List Char) : List Char := s.dropWhile (fun c => c == ' ')

/-- The loop of `skip(value, prefix)`: a space of the layout stands for any
run of spaces of the value (or its end), any other character for itself.
Every turn shortens the prefix, which bounds the loop. -/
def skipLoop : Nat → List Char → List Char → Option (List Char)
  | _, value, [] => some value
  | 0, _, _ :: _ => none
  | fuel + 1, value, p :: ps =>
    if p == ' ' then
      match value with
      | v :: _ =>
        if v != ' ' then none
        else skipLoop fuel (cutspace value) (cutspace (p :: ps))
      | [] => skipLoop fuel (cutspace value) (cutspace (p :: ps))
    else
      match value with
      | v :: vs => if v != p then none else skipLoop fuel vs ps
      | [] => none

/-- The function `skip(value, prefix)`. -/
def skip (value pre : List Char) : Option (List Char) :=
  skipLoop pre.length value pre

/-- The function `match(s1, s2)`: equality of two strings of the same length
up to the case of ASCII letters. -/
def matchFold : List Char → List Char → Bool
  | c1 :: s1, c2 :: s2 =>
    if c1 != c2 then
      let l1 := c1.toNat ||| 32
      let l2 := c2.toNat ||| 32
      if l1 != l2 || l1 < 97 || l1 > 122 then false else matchFold s1 s2
    else matchFold s1 s2
  | _, _ => true

/-- The function `lookup(tab, val)`: index of the first name of the table
that `val` starts with, and the rest of `val`. -/
def lookup (tab : List (List Char)) (val : List Char) : Option (Nat × List Char) :=
  let rec go : List (List Char) → Nat → Option (Nat × List Char)
    | [], _ => none
    | v :: tab, i =>
      if val.length ≥ v.length && matchFold (val.take v.length) v then
        some (i, val.drop v.length)
      else go tab (i + 1)
  go tab 0

def shortDayNames : List (List Char) :=
  ["Sun".toList, "Mon".toList, "Tue".toList, "Wed".toList, "Thu".toList, "Fri".toList,
   "Sat".toList]

def shortMonthNames : List (List Char) :=
  ["Jan".toList, "Feb".toList, "Mar".toList, "Apr".toList, "May".toList, "Jun".toList,
   "Jul".toList, "Aug".toList, "Sep".toList, "Oct".toList, "Nov".toList, "Dec".toList]

/-- The function `leadingInt(s)`: the leading decimal digits of `s` as an
unsigned 64-bit number and the rest; `none` on overflow. -/
def leadingInt (s : List Char) : Option (Nat × List Char) :=
  let rec go : List Char → Nat → Option (Nat × List Char)
    | [], x => some (x, [])
    | c :: cs, x =>
      if !isDigitChar c then some (x, c :: cs)
      else if x > 2 ^ 63 / 10 then none
      else
        let x := x * 10 + digitVal c
        if x > 2 ^ 63 then none else go cs x
  go s 0

/-- The function `atoi(s)`: a signed decimal number that fills all of `s`. -/
def atoi (s : List Char) : Option Int :=
  let (neg, s) :=
    match s with
    | c :: cs => if c == '-' || c == '+' then (c == '-', cs) else (false, s)
    | [] => (false, s)
  match leadingInt s with
  | some (q, []) =>
    let x : Int := if q < 2 ^ 63 then (q : Int) else (q : Int) - 2 ^ 64
    some (if neg then -x else x)
  | _ => none

/-- The function `parseSignedOffset(value)`: length of a sign followed by an
hour of at most 23, zero when there is none. -/
def parseSignedOffset (value : List Char) : Nat :=
  match value with
  | [] => 0
  | sign :: rest =>
    if sign != '-' && sign != '+' then 0
    else
      match leadingInt rest with
      | none => 0
      | some (x, rem) =>
        if rest.length == rem.length then 0
        else if x > 23 then 0
        else value.length - rem.length

/-- The function `parseGMT(value)`, for a value that starts with `GMT`. -/
def parseGMT (value : List Char) : Nat :=
  let value := value.drop 3
  if value.length == 0 then 3 else 3 + parseSignedOffset value

def isUpperChar (c : Char) : Bool := 65 ≤ c.toNat && c.toNat ≤ 90

/-- The function `parseTimeZone(value)`: the length of the zone abbreviation
that `value` starts with, if it starts with one. -/
def parseTimeZone (value : List Char) : Option Nat :=
  if value.length < 3 then none
  else if value.length ≥ 4 && (value.take 4 == "ChST".toList || value.take 4 == "MeST".toList)
  then some 4
  else if value.take 3 == "GMT".toList then some (parseGMT value)
  else if value.head? == some '+' || value.head? == some '-' then
    let length := parseSignedOffset value
    if length > 0 then some length else none
  else
    let nUpper := ((value.take 6).takeWhile isUpperChar).length
    match nUpper with
    | 5 => if value.get? 4 == some 'T' then some 5 else none
    | 4 => if value.get? 3 == some 'T' || value.take 4 == "WITA".toList then some 4 else none
    | 3 => some 3
    | _ => none

/-- The variables that `Parse` fills while it walks the layout. -/
structure Fields where
  year : Int := 0
  month : Int := -1
  day : Int := -1
  hour : Int := 0
  min : Int := 0
  sec : Int := 0
  /-- The location `z` is set, and is `UTC`. -/
  zUTC : Bool := false
  zoneOffset : Int := -1
  zoneName : List Char := []
deriving DecidableEq, Repr

/-- The seconds element with the special case of a fractional second that
the layout does not have: a comma or period followed by digits is consumed. -/
def dropFraction (value : List Char) : List Char :=
  match value with
  | c :: d :: rest =>
    if (c == '.' || c == ',') && isDigitChar d then (d :: rest).dropWhile isDigitChar
    else value
  | _ => value

/-- The numeric zone elements `-0700` and `-07:00`, from the sign and the two
pairs of digits. -/
def numericZone (sign : Char) (hour min : List Char) : Option Int :=
  match getnum hour true with
  | none => none
  | some (hr, _) =>
    match getnum min true with
    | none => none
    | some (mm, _) =>
      if hr > 24 || mm > 60 then none
      else
        let zoneOffset : Int := (hr * 60 + mm) * 60
        if sign == '+' then some zoneOffset
        else if sign == '-' then some (-zoneOffset)
        else none

/-- One turn of the loop of `Parse` for a chunk of the layout: the fields
and the rest of the value, `none` for a value that does not fit. -/
def parseChunk (c : Chunk) (f : Fields) (value : List Char) : Option (Fields × List Char) :=
  match c with
  | .lit text => (skip value text).map (fun v => (f, v))
  | .stdWeekDay => (lookup shortDayNames value).map (fun r => (f, r.2))
  | .stdMonth =>
    (lookup shortMonthNames value).map (fun r => ({ f with month := r.1 + 1 }, r.2))
  | .stdZeroMonth =>
    match getnum value true with
    | none => none
    | some (month, v) =>
      if month == 0 || 12 < month then none else some ({ f with month := month }, v)
  | .stdDay => (getnum value false).map (fun r => ({ f with day := r.1 }, r.2))
  | .stdZeroDay => (getnum value true).map (fun r => ({ f with day := r.1 }, r.2))
  | .stdLongYear =>
    if value.length < 4 || !isDigit value 0 then none
    else (atoi (value.take 4)).map (fun y => ({ f with year := y }, value.drop 4))
  | .stdHour =>
    match getnum value false with
    | none => none
    | some (hour, v) => if 24 ≤ hour then none else some ({ f with hour := hour }, v)
  | .stdZeroMinute =>
    match getnum value true with
    | none => none
    | some (min, v) => if 60 ≤ min then none else some ({ f with min := min }, v)
  | .stdZeroSecond =>
    match getnum value true with
    | none => none
    | some (sec, v) =>
      if 60 ≤ sec then none else some ({ f with sec := sec }, dropFraction v)
  | .stdNumTZ =>
    if value.length < 5 then none
    else
      (numericZone (value.headD ' ') ((value.drop 1).take 2) ((value.drop 3).take 2)).map
        (fun off => ({ f with zoneOffset := off }, value.drop 5))
  | .stdNumColonTZ =>
    if value.length < 6 then none
    else if value.get? 3 != some ':' then none
    else
      (numericZone (value.headD ' ') ((value.drop 1).take 2) ((value.drop 4).take 2)).map
        (fun off => ({ f with zoneOffset := off }, value.drop 6))
  | .stdTZ =>
    if value.length ≥ 3 && value.take 3 == "UTC".toList then
      some ({ f with zUTC := true }, value.drop 3)
    else
      (parseTimeZone value).map
        (fun n => ({ f with zoneName := value.take n }, value.drop n))

/-- The loop of `Parse` over the chunks of the layout; at the end of the
layout no text may be left. -/
def parseChunks : List Chunk → Fields → List Char → Option Fields
  | [], f, value => if value.length != 0 then none else some f
  | c :: cs, f, value =>
    match parseChunk c f value with
    | none => none
    | some (f, value) => parseChunks cs f value

/-- The fields that `Parse` reads from `value` under `layout`, after the
defaults for a missing month and day and the check of the day of month. -/
def parseFields (layout : List Chunk) (value : String) : Option Fields :=
  match parseChunks layout {} value.toList with
  | none => none
  | some f =>
    let f := if f.month < 0 then { f with month := 1 } else f
    let f := if f.day < 0 then { f with day := 1 } else f
    if f.day < 1 || f.day > daysIn f.month.toNat f.year then none else some f

/-- The end of `Parse`: the instant that the fields stand for. `lookupName`
is the zone table of the local location, `local.lookupName`: the offset of an
abbreviation at an instant, when the location knows it. For an abbreviation
that the location does not know, `Parse` leaves the instant as it was read
and only attaches a made-up zone (of `N` hours for `GMT+N`); the zone is lost
with `.UTC()`. The subtraction is `addSec`, which is exact as long as the sum
stays an `int64`: the dates that `Parse` reads are of the years 0000 to 9999,
a numeric zone is at most 25 hours, and the offsets of a zone table are of
that size. -/
def fieldsTime (lookupName : String → Int → Option Int) (f : Fields) : Time :=
  let t := Date f.year f.month f.day f.hour f.min f.sec
  if f.zUTC then t
  else if f.zoneOffset != -1 then ⟨t.unix - f.zoneOffset⟩
  else if f.zoneName != [] then
    match lookupName (String.mk f.zoneName) t.unix with
    | some offset => ⟨t.unix - offset⟩
    | none => t
  else t

/-- The function `time.Parse(layout, value)`; `none` stands for an error. -/
def Parse (lookupName : String → Int → Option Int) (layout : List Chunk) (value : String) :
    Option Time :=
  (parseFields layout value).map (fieldsTime lookupName)

/-! ## The data model of `main.go` -/

structure Post where
  postTitle : String := ""
  pubDate : String := ""
  link : String := ""
  description : String := ""
  content : String := ""
  categories : List String := []
  MediaIds : List Int := []
deriving DecidableEq, Repr

structure Site where
  siteId : Int := 0
  feedName : String := ""
  feedUrl : String := ""
  siteType : String := ""
  active : Int := 0
  altName : String := ""
  created : String := ""
  modified : String := ""
  lastChecked : String := ""
  daysSinceLastPost : Int := 0
  posts : List Post := []
deriving DecidableEq, Repr

structure RssItem where
  Title : String := ""
  Link : String := ""
  PubDate : String := ""
  Description : String := ""
  Content : String := ""
  Categories : List String := []
deriving DecidableEq, Repr

structure RssChannel where
  Title : String := ""
  Items : List RssItem := []
deriving DecidableEq, Repr

structure RssDoc where
  Channel : RssChannel := {}
deriving DecidableEq, Repr

structure YouTubeEntryLink where
  Href : String := ""
deriving DecidableEq, Repr

structure YouTubeEntryMediaGroup where
  Description : String := ""
deriving DecidableEq, Repr

structure YouTubeEntry where
  Title : String := ""
  Published : String := ""
  Link : YouTubeEntryLink := {}
  MediaGroup : YouTubeEntryMediaGroup := {}
deriving DecidableEq, Repr

structure YouTubeFeed where
  Title : String := ""
  Entries : List YouTubeEntry := []
deriving DecidableEq, Repr

structure SiteResponse where
  site : Site := {}
  hasRssDoc : Bool := false
  rssDoc : RssDoc := {}
  youTubeFeed : YouTubeFeed := {}
deriving DecidableEq, Repr

structure MediaItem where
  MediaID : Int
  Title : String
deriving DecidableEq, Repr

/-- What a run reads from outside the program: the clock (`time.Now()`; it
is read anew for every unparseable date, and one reading stands for all of
them), the zone table of the local location, and the XML decoder
(`xml.Unmarshal`, which gives the document it has filled and whether it
reports an error). -/
structure Env where
  now : Time
  lookupName : String → Int → Option Int
  unmarshalRss : String → RssDoc × Bool
  unmarshalYouTube : String → YouTubeFeed × Bool

/-! ## `updateSiteData` -/

/-- The publish date of an entry of the video dialect (lines 170-173): one
layout, the clock when the string does not parse. -/
def youTubePubDate (env : Env) (published : String) : Time :=
  match Parse env.lookupName layoutYouTube published with
  | some t => t
  | none => env.now

/-- The publish date of an item of the syndication dialect (lines 188-200):
three layouts in order, the clock when none parses. -/
def rssPubDate (env : Env) (pubDate : String) : Time :=
  match Parse env.lookupName layoutRFC1123Z pubDate with
  | some t => t
  | none =>
    match Parse env.lookupName layoutRFC1123ZShortDay pubDate with
    | some t => t
    | none =>
      match Parse env.lookupName layoutRFC1123 pubDate with
      | some t => t
      | none => env.now

/-- The post built from an entry of the video dialect (lines 175-180). -/
def youTubePost (env : Env) (entry : YouTubeEntry) : Post :=
  { postTitle := entry.Title
    pubDate := (youTubePubDate env entry.Published).formatUTC
    link := entry.Link.Href
    description := entry.MediaGroup.Description }

/-- The post built from an item of the syndication dialect (lines 202-209). -/
def rssPost (env : Env) (item : RssItem) : Post :=
  { postTitle := item.Title
    pubDate := (rssPubDate env item.PubDate).formatUTC
    link := item.Link
    description := item.Description
    content := item.Content
    categories := item.Categories }

/-- The function `updateSiteData`: the feed name and the posts of the
document, appended in document order. -/
def updateSiteData (env : Env) (parsedFeed : SiteResponse) : SiteResponse :=
  if parsedFeed.site.siteType == "Anitube" then
    let parsedFeed :=
      { parsedFeed with site := { parsedFeed.site with feedName := parsedFeed.youTubeFeed.Title } }
    parsedFeed.youTubeFeed.Entries.foldl
      (fun pf entry =>
        let post := youTubePost env entry
        { pf with site := { pf.site with posts := pf.site.posts ++ [post] } })
      parsedFeed
  else
    let parsedFeed :=
      { parsedFeed with
        site := { parsedFeed.site with feedName := parsedFeed.rssDoc.Channel.Title } }
    parsedFeed.rssDoc.Channel.Items.foldl
      (fun pf item =>
        let post := rssPost env item
        if goLen post.postTitle > 150 then pf
        else { pf with site := { pf.site with posts := pf.site.posts ++ [post] } })
      parsedFeed

/-! ## `matchMediaToPost` -/

/-- The result of `strings.Index(s, substr)`: the first position at which
`substr` occurs in `s`, or `-1`. Text is compared character by character;
for well-formed UTF-8 an occurrence of bytes is an occurrence of characters. -/
def stringsIndexFrom (substr : List Char) : List Char → Int → Int
  | [], i => if substr.isPrefixOf [] then i else -1
  | c :: s, i => if substr.isPrefixOf (c :: s) then i else stringsIndexFrom substr s (i + 1)

/-- The function `strings.Contains(s, substr)`. -/
def stringsContains (s substr : String) : Bool :=
  decide (stringsIndexFrom substr.toList s.toList 0 ≥ 0)

/-- A Go `map[int64]string` as the list of its entries, one per key. -/
abbrev MediaMap := List (Int × String)

/-- The assignment `m[k] = v`. -/
def mapSet : MediaMap → Int → String → MediaMap
  | [], k, v => [(k, v)]
  | (k', v') :: rest, k, v =>
    if k' = k then (k, v) :: rest else (k', v') :: mapSet rest k v

/-- The keys of a map. -/
def mapKeys (m : MediaMap) : List Int := m.map Prod.fst

structure MediaMatched where
  SiteKey : Nat
  PostKey : Nat
  Post : Post
  MediaItems : MediaMap
deriving DecidableEq, Repr

/-- The strings of a post that are searched (lines 667-672): title,
description and every category. -/
def postStrings (post : Post) : List String :=
  [post.postTitle, post.description] ++ post.categories

/-- The function `matchMediaToPost`: the container it sends to the channel. -/
def matchMediaToPost (mediaTitles : List MediaItem) (container : MediaMatched) :
    MediaMatched :=
  let postStrings := postStrings container.Post
  mediaTitles.foldl
    (fun container mediaItem =>
      postStrings.foldl
        (fun container postString =>
          if stringsContains postString mediaItem.Title then
            { container with
              MediaItems := mapSet container.MediaItems mediaItem.MediaID mediaItem.Title }
          else container)
        container)
    container

/-- A string occurs in another, as a run of consecutive characters. -/
def IsSubstring (t s : String) : Prop := t.toList <:+: s.toList

/-- The entries that `matchMediaToPost` leaves in the map of a container,
as a function of the catalog, the searched strings and the map it starts
from. -/
def matchItems (mediaTitles : List MediaItem) (strings : List String) (m : MediaMap) :
    MediaMap :=
  mediaTitles.foldl
    (fun m mediaItem =>
      strings.foldl
        (fun m postString =>
          if stringsContains postString mediaItem.Title then
            mapSet m mediaItem.MediaID mediaItem.Title
          else m)
        m)
    m

/-- The function `unicode.ToLower(r)`: letters `A` to `Z` are moved to lower
case, other ASCII characters are kept, and a character beyond ASCII is looked
up in the case tables of the `unicode` package, `table`. -/
def unicodeToLower (table : Char → Char) (r : Char) : Char :=
  if r.toNat ≤ 127 then
    if 65 ≤ r.toNat && r.toNat ≤ 90 then Char.ofNat (r.toNat + 32) else r
  else table r

/-- The function `strings.ToLower(s)`: `unicode.ToLower` on every character. -/
def stringsToLower (table : Char → Char) (s : String) : String :=
  String.mk (s.toList.map (unicodeToLower table))

/-- The function `unicode.IsSpace(r)`: the characters with the property
`White_Space`. -/
def unicodeIsSpace (r : Char) : Bool :=
  let c := r.toNat
  c == 9 || c == 10 || c == 11 || c == 12 || c == 13 || c == 32 || c == 0x85 || c == 0xA0
    || c == 0x1680 || (0x2000 ≤ c && c ≤ 0x200A) || c == 0x2028 || c == 0x2029
    || c == 0x202F || c == 0x205F || c == 0x3000

/-- The function `strings.TrimSpace(s)`: `s` without its leading and trailing
white space. -/
def stringsTrimSpace (s : String) : String :=
  String.mk ((s.toList.dropWhile unicodeIsSpace).rdropWhile unicodeIsSpace)

/-- The tag text of a category (line 430):
`strings.TrimSpace(strings.ToLower(category))`. -/
def lowerTag (table : Char → Char) (category : String) : String :=
  stringsTrimSpace (stringsToLower table category)

/-! ## The persisted store -/

structure SiteRow where
  pkSiteId : Int
  feedName : String := ""
  feedUrl : String := ""
  siteType : String := ""
  active : Int := 1
  altName : String := ""
  created : String := ""
  modified : String := ""
  lastChecked : String := ""
  daysSinceLastPost : Int := 0
deriving DecidableEq, Repr

structure PostRow where
  pkPostId : Int
  fkSiteId : Int
  postTitle : String
  pubDate : String
  link : String
  description : String
  content : String
deriving DecidableEq, Repr

structure TagRow where
  pkTagId : Int
  tag : String
deriving DecidableEq, Repr

structure PostTagRow where
  fkPostId : Int
  fkTagId : Int
deriving DecidableEq, Repr

structure PostMediaRow where
  fkPostId : Int
  fkMediaId : Int
deriving DecidableEq, Repr

structure MediaRow where
  pkMediaId : Int
  autoIndex : Int
deriving DecidableEq, Repr

structure MediaTitleRow where
  fkMediaId : Int
  title : String
deriving DecidableEq, Repr

/-- The store behind `*sql.DB`: the tables that `main.go` reads and writes,
the counters of the two `AUTO_INCREMENT` keys it reads back, and the outcome
of the calls to come: every call to the store takes the head of `faults`, and
fails when it is `true`; a spent list means success. -/
structure Db where
  sites : List SiteRow := []
  posts : List PostRow := []
  tags : List TagRow := []
  postTags : List PostTagRow := []
  postMedia : List PostMediaRow := []
  media : List MediaRow := []
  mediaTitles : List MediaTitleRow := []
  nextPostId : Int := 1
  nextTagId : Int := 1
  faults : List Bool := []
deriving DecidableEq, Repr

/-- One call to the store: whether it fails, and the store with the outcome
consumed. -/
def Db.call (db : Db) : Bool × Db :=
  match db.faults with
  | [] => (false, db)
  | failed :: rest => (failed, { db with faults := rest })

/-- The function `alreadyInsertdPost`: the number of post rows with the link
of the post, `-1` when the query fails. -/
def alreadyInsertdPost (db : Db) (post : Post) : Int × Db :=
  let (failed, db) := db.call
  if failed then (-1, db)
  else (((db.posts.filter (fun row => row.link == post.link)).length : Nat), db)

/-- The lookup-or-create of a tag (lines 429-474): the id of the first tag
row with the text, or of a row inserted for it; `none` where the function
returns early. -/
def resolveTag (db : Db) (lowerTag : String) : Db × Option Int :=
  let (failed, db) := db.call
  if failed then (db, none)
  else
    let tagId : Int :=
      match db.tags.find? (fun row => row.tag == lowerTag) with
      | some row => row.pkTagId
      | none => 0
    if tagId == 0 then
      let (failed, db) := db.call
      if failed then (db, none)
      else
        let (failed, db) := db.call
        if failed then (db, none)
        else
          let tagId := db.nextTagId
          let db :=
            { db with tags := db.tags ++ [(⟨tagId, lowerTag⟩ : TagRow)]
                      nextTagId := db.nextTagId + 1 }
          let (failed, db) := db.call
          if failed then (db, none) else (db, some tagId)
    else (db, some tagId)

/-- The loop of `insertPostTags` over the categories of the post. -/
def insertPostTagsLoop (table : Char → Char) (postId : Int) : List String → Db → Db
  | [], db => db
  | category :: rest, db =>
    match resolveTag db (lowerTag table category) with
    | (db, none) => db
    | (db, some tagId) =>
      let (failed, db) := db.call
      if failed then db
      else
        let (failed, db) := db.call
        if failed then db
        else
          let db :=
            { db with postTags := db.postTags ++ [(⟨postId, tagId⟩ : PostTagRow)] }
          insertPostTagsLoop table postId rest db

/-- The function `insertPostTags`. -/
def insertPostTags (table : Char → Char) (db : Db) (post : Post) (postId : Int) : Db :=
  if post.categories.length > 0 then insertPostTagsLoop table postId post.categories db
  else db

/-- The function `insertMediaRelations`, as the loop over the media ids of
the post. -/
def insertMediaRelations (db : Db) (postId : Int) : List Int → Db
  | [] => db
  | pkMediaId :: rest =>
    let (failed, db) := db.call
    if failed then db
    else
      let (failed, db) := db.call
      if failed then db
      else
        insertMediaRelations
          { db with postMedia := db.postMedia ++ [(⟨postId, pkMediaId⟩ : PostMediaRow)] }
          postId rest

/-- The function `insertSitePost`. -/
def insertSitePost (table : Char → Char) (db : Db) (post : Post) (response : SiteResponse) :
    Db :=
  let (postsWithLink, db) := alreadyInsertdPost db post
  if postsWithLink == 0 then
    let (failed, db) := db.call
    if failed then db
    else
      let (failed, db) := db.call
      if failed then db
      else
        let postId := db.nextPostId
        let row : PostRow :=
          { pkPostId := postId
            fkSiteId := response.site.siteId
            postTitle := post.postTitle
            pubDate := post.pubDate
            link := post.link
            description := post.description
            content := post.content }
        let db := { db with posts := db.posts ++ [row], nextPostId := db.nextPostId + 1 }
        let (failed, db) := db.call
        if failed then db
        else
          let db := insertPostTags table db post postId
          insertMediaRelations db postId post.MediaIds
  else db

/-- The function `updateSitePosts`. -/
def updateSitePosts (table : Char → Char) (db : Db) (response : SiteResponse) : Db :=
  response.site.posts.foldl (fun db post => insertSitePost table db post response) db

/-- The function `updateSiteInfo`: the feed name and the time of the check of
the site row, and whether exactly one row was affected. -/
def updateSiteInfo (env : Env) (db : Db) (response : SiteResponse) : Bool × Db :=
  let (failed, db) := db.call
  if failed then (false, db)
  else
    let (failed, db) := db.call
    if failed then (false, db)
    else
      let sites' := db.sites.map (fun row =>
        if row.pkSiteId == response.site.siteId then
          { row with feedName := response.site.feedName, lastChecked := env.now.formatUTC }
        else row)
      let rowsAffected := ((db.sites.zip sites').filter (fun p => p.1 != p.2)).length
      let db := { db with sites := sites' }
      let (failed, db) := db.call
      if failed then (false, db) else (rowsAffected == 1, db)

/-- Layout `"2006-01-02 15:04:05"`. -/
def layoutDateTime : List Chunk :=
  [.stdLongYear, .lit ['-'], .stdZeroMonth, .lit ['-'], .stdZeroDay, .lit [' '],
   .stdHour, .lit [':'], .stdZeroMinute, .lit [':'], .stdZeroSecond]

/-- The first value of `ORDER BY pub_date DESC`: the greatest publish date,
in the order of the characters, which for timestamps of one form is the
order of time. -/
def latestPubDate : List String → Option String
  | [] => none
  | d :: rest =>
    match latestPubDate rest with
    | none => some d
    | some m => if m < d then some d else some m

/-- The value `math.Round(float64(seconds) / 86400)`: the nearest whole
number of days, halves away from zero. The quotient is taken exactly, which
is what the floating-point division gives for every span of seconds that a
pair of timestamps can have. -/
def roundDays (seconds : Int) : Int :=
  if seconds ≥ 0 then (seconds + 43200) / 86400 else -((-seconds + 43200) / 86400)

/-- The function `updateSiteDaysSinceStat`. -/
def updateSiteDaysSinceStat (env : Env) (db : Db) (response : SiteResponse) : Bool × Db :=
  let (failed, db) := db.call
  if failed then (false, db)
  else
    let dates := (db.posts.filter (fun row => row.fkSiteId == response.site.siteId)).map
      (fun row => row.pubDate)
    match latestPubDate dates with
    | none => (false, db)
    | some latestPost =>
      match Parse env.lookupName layoutDateTime latestPost with
      | none => (false, db)
      | some latestPostDate =>
        let secondsSinceLastPost := env.now.unix - latestPostDate.unix
        let daysSinceLastPost := roundDays secondsSinceLastPost
        let (failed, db) := db.call
        if failed then (false, db)
        else
          let (failed, db) := db.call
          if failed then (false, db)
          else
            (true,
             { db with
               sites := db.sites.map (fun row =>
                 if row.pkSiteId == response.site.siteId then
                   { row with daysSinceLastPost := daysSinceLastPost }
                 else row) })

/-! ## `associateWithMedia` -/

/-- The rows of the catalog query (line 579): the titles of the media that
are flagged for automatic indexing, ordered by title. -/
def catalogRows (db : Db) : List MediaItem :=
  List.insertionSort (fun a b : MediaItem => a.Title ≤ b.Title)
    (db.mediaTitles.flatMap (fun t =>
      (db.media.filter (fun m => m.pkMediaId == t.fkMediaId && m.autoIndex == 1)).map
        (fun _ => (⟨t.fkMediaId, t.title⟩ : MediaItem))))

/-- The loop over the rows of the catalog query (lines 593-610): every row
is scanned; `none` where a scan fails and the function returns. -/
def scanCatalog : List MediaItem → Db → List MediaItem → Db × Option (List MediaItem)
  | [], db, acc => (db, some acc)
  | row :: rest, db, acc =>
    let (failed, db) := db.call
    if failed then (db, none) else scanCatalog rest db (acc ++ [row])

/-- The loop over the posts of one site (lines 617-626), from position
`postKey` on: a post is taken when `alreadyInsertdPost` gives `0`. -/
def collectPosts (siteKey : Nat) :
    List Post → Nat → Db → List MediaMatched → Db × List MediaMatched
  | [], _, db, acc => (db, acc)
  | post :: rest, postKey, db, acc =>
    let (postsWithLink, db) := alreadyInsertdPost db post
    if postsWithLink == 0 then
      collectPosts siteKey rest (postKey + 1) db
        (acc ++ [(⟨siteKey, postKey, post, []⟩ : MediaMatched)])
    else collectPosts siteKey rest (postKey + 1) db acc

/-- The loop over the sites (lines 614-628), from position `siteKey` on. -/
def collectSites :
    List SiteResponse → Nat → Db → List MediaMatched → Db × List MediaMatched
  | [], _, db, acc => (db, acc)
  | siteResponse :: rest, siteKey, db, acc =>
    if siteResponse.hasRssDoc then
      let (db, acc) := collectPosts siteKey siteResponse.site.posts 0 db acc
      collectSites rest (siteKey + 1) db acc
    else collectSites rest (siteKey + 1) db acc

/-- The list with the element at a position replaced by its image; a
position beyond the list changes nothing. -/
def modifyAt {α : Type} (f : α → α) : Nat → List α → List α
  | _, [] => []
  | 0, a :: l => f a :: l
  | n + 1, a :: l => a :: modifyAt f n l

/-- The statement at line 653:
`sites[siteKey].site.posts[postKey].MediaIds = append(..., mediaId)`. -/
def appendMediaId (sites : List SiteResponse) (siteKey postKey : Nat) (mediaId : Int) :
    List SiteResponse :=
  modifyAt
    (fun r =>
      { r with
        site :=
          { r.site with
            posts := modifyAt (fun p => { p with MediaIds := p.MediaIds ++ [mediaId] })
              postKey r.site.posts } })
    siteKey sites

/-- The merge loop (lines 648-656) over the containers in the order in which
they are received. The entries of a map are visited in the order of the
list that stands for it. -/
def mergeMatches (sites : List SiteResponse) (drained : List MediaMatched) :
    List SiteResponse :=
  drained.foldl
    (fun sites container =>
      if container.MediaItems.length > 0 then
        container.MediaItems.foldl
          (fun sites entry => appendMediaId sites container.SiteKey container.PostKey entry.1)
          sites
      else sites)
    sites

/-- The order in which the tasks of the two stages deliver their results:
for each stage a rearrangement of the results in the order of submission. -/
structure Schedule where
  fetchOrder : List SiteResponse → List SiteResponse
  matchOrder : List MediaMatched → List MediaMatched

/-- The function `associateWithMedia`: the store with the calls consumed and
the site responses with the matched media ids merged in. -/
def associateWithMedia (sched : Schedule) (db : Db) (sites : List SiteResponse) :
    Db × List SiteResponse :=
  let (failed, db) := db.call
  if failed then (db, sites)
  else
    let ttlMediaTitles := db.mediaTitles.length
    if ttlMediaTitles > 0 then
      let (failed, db) := db.call
      if failed then (db, sites)
      else
        match scanCatalog (catalogRows db) db [] with
        | (db, none) => (db, sites)
        | (db, some mediaTitles) =>
          let (db, postsToCheck) := collectSites sites 0 db []
          if postsToCheck.length > 0 then
            let results := postsToCheck.map (matchMediaToPost mediaTitles)
            (db, mergeMatches sites (sched.matchOrder results))
          else (db, sites)
    else (db, sites)

/-! ## `getSiteFeed` and `start` -/

/-- What the network gives for one request. -/
inductive HttpOutcome
  /-- The request cannot be built: `http.NewRequest` fails. -/
  | requestError
  /-- The request fails or runs out of time: `httpClient.Do` fails. -/
  | doError
  /-- A response with a status code; `body` is what `ioutil.ReadAll` has
  read of it, `readFailed` whether it reports an error. -/
  | response (status : Nat) (body : String) (readFailed : Bool)
deriving DecidableEq, Repr

/-- The function `getSiteFeed`: the response it sends to the channel. -/
def getSiteFeed (env : Env) (site : Site) (outcome : HttpOutcome) : SiteResponse :=
  let parsedFeed : SiteResponse := { site := site, hasRssDoc := false }
  match outcome with
  | .requestError => parsedFeed
  | .doError => parsedFeed
  | .response status httpBody _ =>
    if status == 200 && status < 300 then
      let parsedFeed :=
        if site.siteType == "Anitube" then
          { parsedFeed with youTubeFeed := (env.unmarshalYouTube httpBody).1 }
        else { parsedFeed with rssDoc := (env.unmarshalRss httpBody).1 }
      let parsedFeed := { parsedFeed with hasRssDoc := true }
      updateSiteData env parsedFeed
    else parsedFeed

/-- The function `getFeeds`: the active sites; `none` where it panics, which
is when the query fails or a row cannot be scanned. After a complete
iteration the rows are closed already and the deferred `Close` gives no
error. -/
def getFeeds (db : Db) : Option (List Site) × Db :=
  let (failed, db) := db.call
  if failed then (none, db)
  else
    let rows := db.sites.filter (fun row => row.active == 1)
    let rec scan : List SiteRow → Db → List Site → Option (List Site) × Db
      | [], db, acc => (some acc, db)
      | row :: rest, db, acc =>
        let (failed, db) := db.call
        if failed then (none, db)
        else
          scan rest db (acc ++ [({ siteId := row.pkSiteId
                                   feedName := row.feedName
                                   feedUrl := row.feedUrl
                                   siteType := row.siteType
                                   active := row.active
                                   altName := row.altName
                                   created := row.created
                                   modified := row.modified
                                   lastChecked := row.lastChecked
                                   daysSinceLastPost := row.daysSinceLastPost } : Site)])
    scan rows db []

/-- The body of the loop of `start` over the responses (lines 768-774). -/
def persistResponse (env : Env) (table : Char → Char) (db : Db) (siteResponse : SiteResponse) :
    Db :=
  if siteResponse.hasRssDoc then
    let db := (updateSiteInfo env db siteResponse).2
    let db := updateSitePosts table db siteResponse
    (updateSiteDaysSinceStat env db siteResponse).2
  else db

/-- One round, the function `start` from the open store on: the store it
leaves. `network` is what each request meets. A panic of `getFeeds` is
recovered and ends the round. The call of `updateSolr` that ends the round is
a request to the index and touches no table. -/
def start (env : Env) (table : Char → Char) (sched : Schedule) (network : Site → HttpOutcome)
    (db : Db) : Db :=
  match getFeeds db with
  | (none, db) => db
  | (some sitesToFetch, db) =>
    if sitesToFetch.length > 0 then
      let responses :=
        sched.fetchOrder (sitesToFetch.map (fun site => getSiteFeed env site (network site)))
      let (db, responses) := associateWithMedia sched db responses
      responses.foldl (persistResponse env table) db
    else db

/-- No call to the store fails. -/
def NoFaults (db : Db) : Prop := ∀ b ∈ db.faults, b = false

instance (db : Db) : Decidable (NoFaults db) :=
  inferInstanceAs (Decidable (∀ b ∈ db.faults, b = false))

/-- The number of post rows with a link. -/
def linkCount (db : Db) (link : String) : Nat :=
  (db.posts.filter (fun row => row.link == link)).length

/-- The store after the `INSERT INTO posts` of `insertSitePost`. -/
def withPostRow (db : Db) (post : Post) (response : SiteResponse) : Db :=
  { db with
    posts := db.posts ++
      [({ pkPostId := db.nextPostId
          fkSiteId := response.site.siteId
          postTitle := post.postTitle
          pubDate := post.pubDate
          link := post.link
          description := post.description
          content := post.content } : PostRow)]
    nextPostId := db.nextPostId + 1 }

/-! ## Tag normalisation: the terms of the claim -/

/-- What the tag normalisation needs of the case tables of the `unicode`
package beyond ASCII: the lower-case form of a character is its own
lower-case form, and the lower-case form of white space is white space. -/
def CaseTableOk (table : Char → Char) : Prop :=
  (∀ c : Char, 127 < c.toNat → unicodeToLower table (table c) = table c) ∧
  (∀ c : Char, 127 < c.toNat → unicodeIsSpace c = true → unicodeIsSpace (table c) = true)

/-- Two characters are one letter in its two cases, or one character. For
the letters `A` to `Z` the small letter is 32 code points above the capital;
beyond ASCII a character is paired with its entry in the lower-case table of
the `unicode` package. -/
def CasePair (table : Char → Char) (c d : Char) : Prop :=
  c = d ∨
  (65 ≤ c.toNat ∧ c.toNat ≤ 90 ∧ d.toNat = c.toNat + 32) ∨
  (65 ≤ d.toNat ∧ d.toNat ≤ 90 ∧ c.toNat = d.toNat + 32) ∨
  (127 < c.toNat ∧ d = table c) ∨
  (127 < d.toNat ∧ c = table d)

/-- Two categories differ only in surrounding white space and in the case of
letters that have one lower-case form: each is a core between two runs of
white space, and the cores agree character by character up to `CasePair`. -/
def CaseSpaceVariants (table : Char → Char) (a b : String) : Prop :=
  ∃ w1 u w2 w3 v w4 : List Char,
    a.toList = w1 ++ u ++ w2 ∧ b.toList = w3 ++ v ++ w4 ∧
    (∀ c ∈ w1, unicodeIsSpace c = true) ∧ (∀ c ∈ w2, unicodeIsSpace c = true) ∧
    (∀ c ∈ w3, unicodeIsSpace c = true) ∧ (∀ c ∈ w4, unicodeIsSpace c = true) ∧
    List.Forall₂ (CasePair table) u v

/-- The two orbits of `unicode.SimpleFold` that hold two small letters: the
letter s with the long s, and the Greek sigma with the final sigma. The
characters of an orbit are the case variants of one letter
(`strings.EqualFold` holds between them). -/
def foldOrbits : List (List Char) :=
  [['S', 's', 'ſ'], ['Σ', 'σ', 'ς']]

/-- Two strings of one length whose characters are equal or lie in one orbit
of `foldOrbits`: they differ only in letter case. -/
def equalFold (a b : String) : Bool :=
  a.length == b.length &&
    (a.toList.zip b.toList).all (fun p =>
      p.1 == p.2 || foldOrbits.any (fun orbit => orbit.contains p.1 && orbit.contains p.2))

/-- The tag ids of the store are the ids an `AUTO_INCREMENT` key gives: none
is zero, and the next one is positive. -/
def TagIdsOk (db : Db) : Prop :=
  0 < db.nextTagId ∧ ∀ row ∈ db.tags, row.pkTagId ≠ 0

/-- A list without its leading and trailing white space. -/
def trimList (l : List Char) : List Char :=
  (l.dropWhile unicodeIsSpace).rdropWhile unicodeIsSpace

/-! ## The merge loop: the terms of the claim -/

/-- The first half of `absDate`: the year and the day of the year. -/
def yearDay (abs : Nat) : Int × Nat :=
  let d := abs / secondsPerDay
  let n := d / daysPer400Years
  let y := 400 * n
  let d := d - daysPer400Years * n
  let n := d / daysPer100Years
  let n := n - n / 4
  let y := y + 100 * n
  let d := d - daysPer100Years * n
  let n := d / daysPer4Years
  let y := y + 4 * n
  let d := d - daysPer4Years * n
  let n := d / 365
  let n := n - n / 4
  let y := y + n
  let d := d - 365 * n
  let y64 : Int := if y < 2 ^ 63 then (y : Int) else (y : Int) - 2 ^ 64
  (y64 + absoluteZeroYear, d)

/-- The second half of `absDate`: month and day of month from the day of the
year. -/
def monthDay (leap : Bool) (day : Nat) : Nat × Nat :=
  if leap && day == 31 + 29 - 1 then (2, 29)
  else
    let day := if leap && day > 31 + 29 - 1 then day - 1 else day
    let month := day / 31
    let endDay := daysBefore.getD (month + 1) 0
    if day ≥ endDay then (month + 2, day - endDay + 1)
    else (month + 1, day - daysBefore.getD month 0 + 1)

/-- A string of the exact form `YYYY-MM-DD HH:MM:SS`: nineteen characters,
digits and separators in their places, which name a day of the calendar and
a time of day. -/
def isTimestamp (s : String) : Bool :=
  match s.toList with
  | [y1, y2, y3, y4, a, m1, m2, b, d1, d2, c, h1, h2, e, n1, n2, g, s1, s2] =>
    let year : Int :=
      (digitVal y1 * 1000 + digitVal y2 * 100 + digitVal y3 * 10 + digitVal y4 : Nat)
    let month := digitVal m1 * 10 + digitVal m2
    let day := digitVal d1 * 10 + digitVal d2
    let hour := digitVal h1 * 10 + digitVal h2
    let min := digitVal n1 * 10 + digitVal n2
    let sec := digitVal s1 * 10 + digitVal s2
    [y1, y2, y3, y4, m1, m2, d1, d2, h1, h2, n1, n2, s1, s2].all isDigitChar
      && a == '-' && b == '-' && c == ' ' && e == ':' && g == ':'
      && decide (1 ≤ month) && decide (month ≤ 12)
      && decide (1 ≤ day) && decide (day ≤ daysIn month year)
      && decide (hour < 24) && decide (min < 60) && decide (sec < 60)
  | _ => false

/-- The instant lies in the years 0000 to 9999 of the UTC calendar: from
`0000-01-01 00:00:00` to `9999-12-31 23:59:59`. -/
def Time.inFourDigitYears (t : Time) : Prop :=
  -62167219200 ≤ t.unix ∧ t.unix < 253402300800

instance (t : Time) : Decidable t.inFourDigitYears :=
  inferInstanceAs (Decidable (-62167219200 ≤ t.unix ∧ t.unix < 253402300800))

/-! ## Dates written in the offset-numeric pattern: the terms of the claim -/

/-- The two decimal digits of a number below 100. -/
def twoDigits (n : Nat) : List Char :=
  [Char.ofNat (48 + n / 10), Char.ofNat (48 + n % 10)]

/-- The four decimal digits of a number below 10000. -/
def fourDigits (n : Nat) : List Char :=
  [Char.ofNat (48 + n / 1000), Char.ofNat (48 + n / 100 % 10),
   Char.ofNat (48 + n / 10 % 10), Char.ofNat (48 + n % 10)]

/-- The parts of a date written in the pattern
`Mon, 02 Jan 2006 15:04:05 -0700`: the day of the week (0 for Sunday), the
date, the time of day, and the zone as a sign (`east` for `+`), hours and
minutes. -/
structure DateParts where
  weekday : Nat
  day : Nat
  month : Nat
  year : Nat
  hour : Nat
  min : Nat
  sec : Nat
  east : Bool
  zoneHour : Nat
  zoneMin : Nat
deriving DecidableEq, Repr

/-- A leap year of the Gregorian calendar. -/
def leapYear (y : Nat) : Bool := (y % 4 == 0 && y % 100 != 0) || y % 400 == 0

/-- The lengths of the twelve months of a year. -/
def monthLengths (leap : Bool) : List Nat :=
  [31, if leap then 29 else 28, 31, 30, 31, 30, 31, 31, 30, 31, 30, 31]

/-- The parts name a day of the calendar in the years 0000 to 9999, a time of
day, and a zone of at most 24 hours and 60 minutes. -/
def DateParts.WellFormed (p : DateParts) : Prop :=
  p.weekday < 7 ∧ 1 ≤ p.month ∧ p.month ≤ 12 ∧ 1 ≤ p.day ∧
  p.day ≤ (monthLengths (leapYear p.year)).getD (p.month - 1) 0 ∧
  p.year ≤ 9999 ∧ p.hour < 24 ∧ p.min < 60 ∧ p.sec < 60 ∧ p.zoneHour ≤ 24 ∧ p.zoneMin ≤ 60

instance (p : DateParts) : Decidable p.WellFormed :=
  inferInstanceAs (Decidable (p.weekday < 7 ∧ 1 ≤ p.month ∧ p.month ≤ 12 ∧ 1 ≤ p.day ∧
    p.day ≤ (monthLengths (leapYear p.year)).getD (p.month - 1) 0 ∧
    p.year ≤ 9999 ∧ p.hour < 24 ∧ p.min < 60 ∧ p.sec < 60 ∧
    p.zoneHour ≤ 24 ∧ p.zoneMin ≤ 60))

/-- The text from the month on: `Jan 2006 15:04:05 -0700`. -/
def DateParts.renderTail (p : DateParts) : List Char :=
  shortMonthNames.getD (p.month - 1) [] ++ (' ' :: (fourDigits p.year ++ (' ' ::
    (twoDigits p.hour ++ (':' :: (twoDigits p.min ++ (':' :: (twoDigits p.sec ++ (' ' ::
      ((if p.east then '+' else '-') :: (twoDigits p.zoneHour ++ twoDigits p.zoneMin)))))))))))

/-- The date written in the pattern `Mon, 02 Jan 2006 15:04:05 -0700`. -/
def DateParts.render (p : DateParts) : String :=
  String.mk (shortDayNames.getD p.weekday [] ++ (',' :: ' ' ::
    (twoDigits p.day ++ (' ' :: p.renderTail))))

/-- The date written in the pattern `Mon, 2 Jan 2006 15:04:05 -0700`, for a
day below 10. -/
def DateParts.renderShortDay (p : DateParts) : String :=
  String.mk (shortDayNames.getD p.weekday [] ++ (',' :: ' ' ::
    (Char.ofNat (48 + p.day) :: ' ' :: p.renderTail)))

/-- The zone of the parts in seconds east of UTC. -/
def DateParts.offsetSeconds (p : DateParts) : Int :=
  if p.east then ((p.zoneHour * 60 + p.zoneMin) * 60 : Nat)
  else -((p.zoneHour * 60 + p.zoneMin) * 60 : Nat)

/-- The fields that the parts stand for. -/
def DateParts.fields (p : DateParts) : Fields :=
  { year := p.year, month := p.month, day := p.day, hour := p.hour, min := p.min,
    sec := p.sec, zoneOffset := p.offsetSeconds }

/-- The days from 1 January 1970 to the day `d` of the month `m` of the year
`y` in the Gregorian calendar: 365 days for every year since the year 1, one
more for every fourth year but not for every hundredth, one more for every
four-hundredth, the months of the year before `m`, and the days of the month
before `d`; 1 January 1970 is day 719162 of that count. -/
def civilDays (y m d : Nat) : Int :=
  365 * ((y : Int) - 1) + ((y : Int) - 1) / 4 - ((y : Int) - 1) / 100 + ((y : Int) - 1) / 400
    + ((((monthLengths (leapYear y)).take (m - 1)).sum : Nat) : Int) + ((d : Int) - 1) - 719162

/-- The seconds from the start of 1 January 1970 to the date and time of day
of the parts, read in UTC. -/
def DateParts.civilSeconds (p : DateParts) : Int :=
  civilDays p.year p.month p.day * 86400 + p.hour * 3600 + p.min * 60 + p.sec

/-- The instant the parts name: the date and the time of day read in UTC,
with the zone subtracted. -/
def DateParts.instant (p : DateParts) : Time :=
  ⟨p.civilSeconds - p.offsetSeconds⟩

/-- The date and the time of day of the parts written as
`YYYY-MM-DD HH:MM:SS`. -/
def DateParts.timestamp (p : DateParts) : String :=
  String.mk (fourDigits p.year ++ ('-' :: (twoDigits p.month ++ ('-' :: (twoDigits p.day ++
    (' ' :: (twoDigits p.hour ++ (':' :: (twoDigits p.min ++ (':' :: twoDigits p.sec))))))))))

/-- The text starts with a character that is not a space. -/
def startsNonSpace : List Char → Bool
  | c :: _ => c != ' '
  | [] => false

/-- The elements of the three layouts of the syndication dialect from the
month to the seconds. -/
def layoutMiddle : List Chunk :=
  [.stdMonth, .lit [' '], .stdLongYear, .lit [' '], .stdHour, .lit [':'], .stdZeroMinute,
   .lit [':'], .stdZeroSecond, .lit [' ']]

/-! ## Concrete inputs -/

/-- An environment for the concrete runs: the clock at the Unix epoch, a
local location without zone abbreviations, a decoder that rejects every
document and leaves it empty. -/
def sampleEnv : Env :=
  { now := ⟨0⟩
    lookupName := fun _ _ => none
    unmarshalRss := fun _ => ({}, true)
    unmarshalYouTube := fun _ => ({}, true) }

/-- A title of 76 two-byte characters: 76 characters, 152 bytes. -/
def accentedTitle : String := String.mk (List.replicate 76 'é')

/-- A syndication-dialect document with one item, titled `accentedTitle`. -/
def accentedFeed : SiteResponse :=
  { site := { siteType := "rss" }
    rssDoc :=
      { Channel :=
        { Title := "Feed"
          Items :=
            [{ Title := accentedTitle
               Link := "http://x/1"
               PubDate := "Mon, 02 Jan 2006 15:04:05 +0000" }] } } }

/-- The scenario of the specification: one item titled `Pilot Episode`. -/
def pilotItem : RssItem :=
  { Title := "Pilot Episode"
    Link := "http://x/1"
    PubDate := "Mon, 02 Jan 2006 15:04:05 +0000" }

def pilotFeed : SiteResponse :=
  { site := { siteType := "rss" }
    rssDoc := { Channel := { Title := "Feed", Items := [pilotItem] } } }

/-- An item dated in the last hour of the year 9999, one hour west of UTC. -/
def lastHourItem : RssItem :=
  { Title := "Last hour"
    Link := "http://x/2"
    PubDate := "Fri, 31 Dec 9999 23:00:00 -0100" }

def lastHourFeed : SiteResponse :=
  { site := { siteType := "rss" }
    rssDoc := { Channel := { Title := "Feed", Items := [lastHourItem] } } }

/-- The scenario of the specification: a catalog with the title `Alpha`
under id 7 (and a title in lower case under id 8), and a post whose
description holds `Alpha Team`. -/
def alphaCatalog : List MediaItem :=
  [{ MediaID := 7, Title := "Alpha" }, { MediaID := 8, Title := "alpha team" }]

def alphaPost : Post :=
  { postTitle := "Episode 3"
    pubDate := "2006-01-02 15:04:05"
    link := "http://x/3"
    description := "Meet the Alpha Team"
    content := "alpha team" }

def alphaContainer : MediaMatched :=
  { SiteKey := 0, PostKey := 0, Post := alphaPost, MediaItems := [] }

/-- A response with three posts, the first and the last under one link, and
two categories that differ in case and surrounding white space. -/
def sampleResponse : SiteResponse :=
  { site :=
      { siteId := 3
        siteType := "rss"
        feedName := "Feed"
        posts :=
          [{ postTitle := "Pilot Episode"
             pubDate := "2006-01-02 15:04:05"
             link := "http://x/1"
             categories := ["Comedy", " comedy "] },
           { postTitle := "Second"
             pubDate := "2006-01-03 15:04:05"
             link := "http://x/2" },
           { postTitle := "Pilot Episode"
             pubDate := "2006-01-02 15:04:05"
             link := "http://x/1" }] }
    hasRssDoc := true }

/-- A store with the row of site 3 and nothing else. -/
def freshDb : Db :=
  { sites := [{ pkSiteId := 3, feedName := "Old name", lastChecked := "2005-12-31 00:00:00" }] }

/-- A store that holds the post `http://x/2`, and in which the second call
to come fails. -/
def seededDb : Db :=
  { sites := [{ pkSiteId := 3, feedName := "Old name", lastChecked := "2005-12-31 00:00:00" }]
    posts :=
      [{ pkPostId := 1
         fkSiteId := 3
         postTitle := "Second"
         pubDate := "2006-01-03 15:04:05"
         link := "http://x/2"
         description := ""
         content := "" }]
    nextPostId := 2
    faults := [false, true] }

/-- The site of the concrete runs, as `getFeeds` reads it from `freshDb`. -/
def sampleSite : Site :=
  { siteId := 3
    feedName := "Old name"
    feedUrl := "http://x/feed"
    siteType := "rss"
    active := 1
    lastChecked := "2005-12-31 00:00:00" }

/-- A document that breaks off inside its second item. -/
def truncatedBody : String :=
  "<rss><channel><title>Feed</title><item><title>Pilot Episode</title>" ++
  "<link>http://x/1</link><pubDate>Mon, 02 Jan 2006 15:04:05 +0000</pubDate></item><item>"

/-- An environment whose decoder reports an error after it has filled the
channel title and the first item, as on `truncatedBody`. -/
def partialEnv : Env :=
  { now := ⟨0⟩
    lookupName := fun _ _ => none
    unmarshalRss := fun _ => ({ Channel := { Title := "Feed", Items := [pilotItem] } }, true)
    unmarshalYouTube := fun _ => ({}, true) }

/-- Results are delivered in the order of submission. -/
def inOrder : Schedule :=
  { fetchOrder := fun l => l
    matchOrder := fun l => l }

/-- An item dated in the first hour of the year 0000, one hour east of UTC. -/
def firstHourItem : RssItem :=
  { Title := "First hour"
    Link := "http://x/3"
    PubDate := "Sat, 01 Jan 0000 00:00:00 +0100" }

def firstHourFeed : SiteResponse :=
  { site := { siteType := "rss" }
    rssDoc :=
      { Channel :=
        { Title := "Feed"
          Items := [firstHourItem] } } }

/-- The parts of the date `Mon, 2 Jan 2006 15:04:05 +0530`. -/
def halfPastParts : DateParts :=
  { weekday := 1
    day := 2
    month := 1
    year := 2006
    hour := 15
    min := 4
    sec := 5
    east := true
    zoneHour := 5
    zoneMin := 30 }

/-- The parts of the same instant in UTC: `Mon, 02 Jan 2006 09:34:05 +0000`. -/
def halfPastUtcParts : DateParts :=
  { weekday := 1
    day := 2
    month := 1
    year := 2006
    hour := 9
    min := 34
    sec := 5
    east := true
    zoneHour := 0
    zoneMin := 0 }

/-- An item dated with a day of one digit, five and a half hours east of
UTC. -/
def halfPastItem : RssItem :=
  { Title := "Half past"
    Link := "http://x/4"
    PubDate := "Mon, 2 Jan 2006 15:04:05 +0530" }

def halfPastFeed : SiteResponse :=
  { site := { siteType := "rss" }
    rssDoc :=
      { Channel :=
        { Title := "Feed"
          Items := [halfPastItem] } } }

/-- A syndication-dialect document with dates of the years 2006, 2300 and
9999, a date with a named zone, and a string that is no date. -/
def centuriesFeed : SiteResponse :=
  { site := { siteType := "rss" }
    rssDoc :=
      { Channel :=
        { Title := "Feed"
          Items :=
            [pilotItem,
             { Title := "Far"
               Link := "http://x/5"
               PubDate := "Wed, 01 Jan 2300 12:00:00 +0000" },
             { Title := "Last day"
               Link := "http://x/6"
               PubDate := "Fri, 31 Dec 9999 22:00:00 -0100" },
             { Title := "Undated"
               Link := "http://x/7"
               PubDate := "not a date" },
             { Title := "Named zone"
               Link := "http://x/8"
               PubDate := "Mon, 02 Jan 2006 15:04:05 GMT+3" }] } } }

/-- A video-dialect document with an entry of the year 2300 and an entry
whose date does not parse. -/
def videoFeed : SiteResponse :=
  { site := { siteType := "Anitube" }
    youTubeFeed :=
      { Title := "Videos"
        Entries :=
          [{ Title := "Far"
             Published := "2300-06-15T08:30:00+02:00"
             Link := { Href := "http://v/1" } },
           { Title := "Undated"
             Published := "yesterday"
             Link := { Href := "http://v/2" } }] } }

/-- An environment whose local location knows the abbreviation `PST`, eight
hours west of UTC. -/
def zoneEnv : Env :=
  { sampleEnv with
    lookupName := fun name _ => if name == "PST" then some (-28800) else none }

/-- A lower-case table with the entry of the `unicode` package for the Greek
capital sigma; every other character beyond ASCII is kept, as the long s and
the final sigma are in the tables of the package. -/
def sigmaTable (c : Char) : Char := if c = 'Σ' then 'σ' else c

/-! # Theorems -/

set_option maxRecDepth 100000

/-! ## C1: the title filter of the syndication dialect -/

theorem rss_fold_posts (env : Env) (items : List RssItem) (pf : SiteResponse) :
    (items.foldl
      (fun pf item =>
        let post := rssPost env item
        if goLen post.postTitle > 150 then pf
        else { pf with site := { pf.site with posts := pf.site.posts ++ [post] } })
      pf).site.posts
      = pf.site.posts ++
        (items.filter (fun item => decide (goLen item.Title ≤ 150))).map (rssPost env) := by
  induction items generalizing pf with
  | nil => simp
  | cons item items ih =>
    rw [List.foldl_cons, ih]
    by_cases h : goLen item.Title ≤ 150
    · have h' : ¬ goLen (rssPost env item).postTitle > 150 := by simpa [rssPost] using h
      simp [h, h']
    · have h' : goLen (rssPost env item).postTitle > 150 := by
        simp only [rssPost]; omega
      simp [h, h']

/-- The posts of the syndication dialect after `updateSiteData`: the posts
before, then the posts of the items that pass the length check. -/
theorem rss_posts_appended (env : Env) (parsedFeed : SiteResponse)
    (h : parsedFeed.site.siteType ≠ "Anitube") :
    (updateSiteData env parsedFeed).site.posts
      = parsedFeed.site.posts ++
        (parsedFeed.rssDoc.Channel.Items.filter
          (fun item => decide (goLen item.Title ≤ 150))).map (rssPost env) := by
  have h' : (parsedFeed.site.siteType == "Anitube") = false := by simpa using h
  unfold updateSiteData
  rw [h']
  simp only [Bool.false_eq_true, if_false]
  rw [rss_fold_posts]

/-- C1 (as stated, refuted): the single item of `accentedFeed` has a title of
76 characters, at most 150, and yet `updateSiteData` produces no post. -/
theorem updateSiteData_drops_short_multibyte_title :
    accentedFeed.site.siteType ≠ "Anitube" ∧
    (accentedFeed.rssDoc.Channel.Items.map (fun i => runeCount i.Title)) = [76] ∧
    (updateSiteData sampleEnv accentedFeed).site.posts = [] := by
  decide

/-- C1 (amended): under the syndication dialect the posts that
`updateSiteData` appends are exactly the items whose title is at most 150
bytes long (UTF-8 length, Go's `len`), each once and in document order. -/
theorem updateSiteData_rss_posts (env : Env) (parsedFeed : SiteResponse)
    (h : parsedFeed.site.siteType ≠ "Anitube") :
    (updateSiteData env parsedFeed).site.posts
      = parsedFeed.site.posts ++
        (parsedFeed.rssDoc.Channel.Items.filter
          (fun item => decide (goLen item.Title ≤ 150))).map (rssPost env) :=
  rss_posts_appended env parsedFeed h

/-- C1, at `accentedFeed`. -/
theorem updateSiteData_rss_posts_witness :
    accentedFeed.site.siteType ≠ "Anitube" ∧
    (updateSiteData sampleEnv accentedFeed).site.posts
      = accentedFeed.site.posts ++
        (accentedFeed.rssDoc.Channel.Items.filter
          (fun item => decide (goLen item.Title ≤ 150))).map (rssPost sampleEnv) :=
  ⟨by decide, updateSiteData_rss_posts sampleEnv accentedFeed (by decide)⟩

/-! ## Reading and printing dates -/

theorem numericZone_mod (sign : Char) (hour min : List Char) (off : Int)
    (h : numericZone sign hour min = some off) : off % 60 = 0 := by
  unfold numericZone at h
  split at h
  · simp at h
  · split at h
    · simp at h
    · split at h
      · simp at h
      · simp only at h
        split at h
        · injection h with h; omega
        · split at h
          · injection h with h; omega
          · simp at h

theorem parseChunk_zUTC (c : Chunk) (hc : c ≠ Chunk.stdTZ) (f f' : Fields) (v v' : List Char)
    (h : parseChunk c f v = some (f', v')) : f'.zUTC = f.zUTC := by
  cases c <;> simp only [parseChunk, Option.map_eq_some', ne_eq, not_true_eq_false] at h hc
  all_goals first
    | (obtain ⟨a, _, ha⟩ := h; injection ha with h1 h2; subst h1; rfl)
    | (split at h
       · simp at h
       · split at h
         · simp at h
         · injection h with h; injection h with h1 h2; subst h1; rfl)
    | (split_ifs at h
       rw [Option.map_eq_some'] at h
       obtain ⟨a, _, ha⟩ := h; injection ha with h1 h2; subst h1; rfl)

theorem parseChunk_numTZ (f f' : Fields) (v v' : List Char)
    (h : parseChunk Chunk.stdNumTZ f v = some (f', v')) :
    f'.zUTC = f.zUTC ∧ f'.zoneOffset % 60 = 0 := by
  simp only [parseChunk] at h
  split_ifs at h
  rw [Option.map_eq_some'] at h
  obtain ⟨a, hz, ha⟩ := h
  injection ha with h1 h2
  subst h1
  exact ⟨rfl, numericZone_mod _ _ _ _ hz⟩

theorem parseChunk_numColonTZ (f f' : Fields) (v v' : List Char)
    (h : parseChunk Chunk.stdNumColonTZ f v = some (f', v')) :
    f'.zUTC = f.zUTC ∧ f'.zoneOffset % 60 = 0 := by
  simp only [parseChunk] at h
  split_ifs at h
  rw [Option.map_eq_some'] at h
  obtain ⟨a, hz, ha⟩ := h
  injection ha with h1 h2
  subst h1
  exact ⟨rfl, numericZone_mod _ _ _ _ hz⟩

/-- A layout without a named zone that ends in a numeric zone element leaves
no location set and a zone offset of whole minutes. -/
theorem parseChunks_numeric_zone (pre : List Chunk) (last : Chunk)
    (hlast : last = Chunk.stdNumTZ ∨ last = Chunk.stdNumColonTZ)
    (hpre : Chunk.stdTZ ∉ pre) (f f' : Fields) (v : List Char)
    (hf : f.zUTC = false) (h : parseChunks (pre ++ [last]) f v = some f') :
    f'.zUTC = false ∧ f'.zoneOffset % 60 = 0 := by
  induction pre generalizing f v with
  | nil =>
    simp only [List.nil_append, parseChunks] at h
    split at h
    · simp at h
    · rename_i f1 v1 h1
      split_ifs at h
      injection h with h
      subst h
      rcases hlast with rfl | rfl
      · have := parseChunk_numTZ _ _ _ _ h1
        exact ⟨this.1.trans hf, this.2⟩
      · have := parseChunk_numColonTZ _ _ _ _ h1
        exact ⟨this.1.trans hf, this.2⟩
  | cons c cs ih =>
    simp only [List.cons_append, parseChunks] at h
    split at h
    · simp at h
    · rename_i f1 v1 h1
      have hc : c ≠ Chunk.stdTZ := fun e => hpre (by simp [e])
      have hcs : Chunk.stdTZ ∉ cs := fun e => hpre (by simp [e])
      exact ih hcs f1 v1 ((parseChunk_zUTC c hc _ _ _ _ h1).trans hf) h

theorem parseFields_numeric_zone (pre : List Chunk) (last : Chunk)
    (hlast : last = Chunk.stdNumTZ ∨ last = Chunk.stdNumColonTZ)
    (hpre : Chunk.stdTZ ∉ pre) (value : String) (f : Fields)
    (h : parseFields (pre ++ [last]) value = some f) :
    f.zUTC = false ∧ f.zoneOffset % 60 = 0 := by
  unfold parseFields at h
  split at h
  · simp at h
  · rename_i f0 h0
    have := parseChunks_numeric_zone pre last hlast hpre {} f0 _ rfl h0
    simp only at h
    split_ifs at h <;> (injection h with h; subst h; exact this)

theorem fieldsTime_numeric (lookupName : String → Int → Option Int) (f : Fields)
    (h : f.zUTC = false ∧ f.zoneOffset % 60 = 0) :
    fieldsTime lookupName f
      = ⟨(Date f.year f.month f.day f.hour f.min f.sec).unix - f.zoneOffset⟩ := by
  have h2 : f.zoneOffset ≠ -1 := by intro e; rw [e] at h; omega
  simp [fieldsTime, h.1, h2]

theorem layoutRFC1123Z_split :
    layoutRFC1123Z = layoutRFC1123Z.dropLast ++ [Chunk.stdNumTZ] := by decide

theorem layoutRFC1123ZShortDay_split :
    layoutRFC1123ZShortDay = layoutRFC1123ZShortDay.dropLast ++ [Chunk.stdNumTZ] := by decide

theorem Parse_layoutRFC1123Z (lookupName : String → Int → Option Int) (value : String)
    (f : Fields) (h : parseFields layoutRFC1123Z value = some f) :
    Parse lookupName layoutRFC1123Z value
      = some ⟨(Date f.year f.month f.day f.hour f.min f.sec).unix - f.zoneOffset⟩ := by
  have hz : f.zUTC = false ∧ f.zoneOffset % 60 = 0 := by
    rw [layoutRFC1123Z_split] at h
    exact parseFields_numeric_zone _ _ (Or.inl rfl) (by decide) value f h
  simp [Parse, h, fieldsTime_numeric lookupName f hz]

theorem Parse_layoutRFC1123ZShortDay (lookupName : String → Int → Option Int) (value : String)
    (f : Fields) (h : parseFields layoutRFC1123ZShortDay value = some f) :
    Parse lookupName layoutRFC1123ZShortDay value
      = some ⟨(Date f.year f.month f.day f.hour f.min f.sec).unix - f.zoneOffset⟩ := by
  have hz : f.zUTC = false ∧ f.zoneOffset % 60 = 0 := by
    rw [layoutRFC1123ZShortDay_split] at h
    exact parseFields_numeric_zone _ _ (Or.inl rfl) (by decide) value f h
  simp [Parse, h, fieldsTime_numeric lookupName f hz]

theorem Parse_eq_none (lookupName : String → Int → Option Int) (layout : List Chunk)
    (value : String) (h : parseFields layout value = none) :
    Parse lookupName layout value = none := by
  simp [Parse, h]


theorem isLeap_iff (year : Int) :
    isLeap year = true ↔ year % 4 = 0 ∧ (year % 100 ≠ 0 ∨ year % 400 = 0) := by
  simp [isLeap]

theorem yearDay_arith (abs d n400 d1 q100 n100 d2 n4 d3 q1 n1 yd y : Nat)
    (h0 : 9223371966548102400 ≤ abs) (h1 : abs < 9223372282117622400)
    (e1 : d = abs / 86400) (e2 : n400 = d / 146097) (e3 : d1 = d - 146097 * n400)
    (e4 : q100 = d1 / 36524) (e5 : n100 = q100 - q100 / 4) (e6 : d2 = d1 - 36524 * n100)
    (e7 : n4 = d2 / 1461) (e8 : d3 = d2 - 1461 * n4) (e9 : q1 = d3 / 365)
    (e10 : n1 = q1 - q1 / 4) (e11 : yd = d3 - 365 * n1)
    (e12 : y = 400 * n400 + 100 * n100 + 4 * n4 + n1) :
    292277022399 ≤ y ∧ y ≤ 292277022399 + 9999 ∧
    ((((y : Int) - 292277022399) % 4 = 0 ∧
        (((y : Int) - 292277022399) % 100 ≠ 0 ∨ ((y : Int) - 292277022399) % 400 = 0)) →
      yd < 366) ∧
    (¬ (((y : Int) - 292277022399) % 4 = 0 ∧
        (((y : Int) - 292277022399) % 100 ≠ 0 ∨ ((y : Int) - 292277022399) % 400 = 0)) →
      yd < 365) := by
  have hd : 730692555 * 146097 + 145731 ≤ d ∧ d < 730692580 * 146097 + 145731 := by
    clear * - h0 h1 e1; omega
  have hn400 : 730692555 ≤ n400 ∧ n400 ≤ 730692580 := by
    clear * - hd e2; omega
  have hd1 : d1 < 146097 ∧ d = 146097 * n400 + d1 := by
    clear * - e2 e3; omega
  have hd1lo : n400 = 730692555 → 145731 ≤ d1 := by
    clear * - hd hd1; omega
  have hd1hi : n400 = 730692580 → d1 < 145731 := by
    clear * - hd hd1; omega
  have hq100 : q100 ≤ 4 := by
    clear * - hd1 e4; omega
  have hn100 : n100 ≤ 3 ∧ 36524 * n100 ≤ d1 ∧ (n100 < 3 → d1 < 36524 * (n100 + 1)) := by
    clear * - hq100 e4 e5; omega
  have hd2 : d1 = 36524 * n100 + d2 ∧ d2 ≤ 36524 ∧ (n100 < 3 → d2 < 36524) := by
    clear * - hn100 hd1 e6; omega
  have hn4 : n4 ≤ 24 ∧ 1461 * n4 ≤ d2 ∧ d2 < 1461 * (n4 + 1) := by
    clear * - hd2 e7; omega
  have hd3 : d2 = 1461 * n4 + d3 ∧ d3 < 1461 := by
    clear * - hn4 e8; omega
  have hq1 : q1 ≤ 4 := by
    clear * - hd3 e9; omega
  have hn1 : n1 ≤ 3 ∧ 365 * n1 ≤ d3 ∧ (n1 < 3 → d3 < 365 * (n1 + 1)) := by
    clear * - hq1 e9 e10; omega
  have hyd : d3 = 365 * n1 + yd := by
    clear * - hn1 e11; omega
  have hlo : n400 = 730692555 → n100 = 3 ∧ n4 = 24 ∧ n1 = 3 := by
    clear * - hd1lo hn100 hd2 hn4 hd3 hn1; omega
  have hhi : n400 = 730692580 → 100 * n100 + 4 * n4 + n1 ≤ 398 := by
    clear * - hd1hi hn100 hd2 hn4 hd3 hn1; omega
  have hy : 292277022399 ≤ y ∧ y ≤ 292277022399 + 9999 := by
    clear * - hn400 hlo hhi hn100 hn4 hn1 e12; omega
  refine ⟨hy.1, hy.2, ?_, ?_⟩
  · intro hl
    clear * - hl hn1 hd3 hyd e12; omega
  · intro hl
    by_cases h3 : n1 < 3
    · clear * - h3 hn1 hyd; omega
    · have hn1' : n1 = 3 := by clear * - h3 hn1; omega
      have h100 : n4 = 24 ∧ n100 < 3 := by
        clear * - hl hn1' hn100 hn4 hn400 e12; omega
      clear * - h100 hd2 hd3 hn1' hyd; omega

theorem decimalDigits_small (n : Nat) (h : n < 10000) :
    decimalDigits 20 n [] =
      if n < 10 then [Char.ofNat (48 + n)]
      else if n < 100 then [Char.ofNat (48 + n / 10), Char.ofNat (48 + n % 10)]
      else if n < 1000 then
        [Char.ofNat (48 + n / 100), Char.ofNat (48 + n / 10 % 10), Char.ofNat (48 + n % 10)]
      else
        [Char.ofNat (48 + n / 1000), Char.ofNat (48 + n / 100 % 10),
         Char.ofNat (48 + n / 10 % 10), Char.ofNat (48 + n % 10)] := by
  have e1 : n / 10 / 10 = n / 100 := by omega
  have e2 : n / 10 / 10 / 10 = n / 1000 := by omega
  have e3 : n / 100 / 10 = n / 1000 := by omega
  by_cases h1 : n < 10
  · have : ¬ n ≥ 10 := by omega
    simp [decimalDigits, h1, this]
  · by_cases h2 : n < 100
    · have a1 : n ≥ 10 := by omega
      have a2 : ¬ n / 10 ≥ 10 := by omega
      simp [decimalDigits, h1, h2, a1, a2]
    · by_cases h3 : n < 1000
      · have a1 : n ≥ 10 := by omega
        have a2 : n / 10 ≥ 10 := by omega
        have a3 : ¬ n / 100 ≥ 10 := by omega
        simp [decimalDigits, h1, h2, h3, a1, a2, a3, e1]
      · have a1 : n ≥ 10 := by omega
        have a2 : n / 10 ≥ 10 := by omega
        have a3 : n / 100 ≥ 10 := by omega
        have a4 : ¬ n / 1000 ≥ 10 := by omega
        simp [decimalDigits, h1, h2, h3, a1, a2, a3, a4, e1, e3]

theorem appendInt_four (n : Nat) (h : n < 10000) :
    appendInt (n : Int) 4 =
      [Char.ofNat (48 + n / 1000), Char.ofNat (48 + n / 100 % 10),
       Char.ofNat (48 + n / 10 % 10), Char.ofNat (48 + n % 10)] := by
  have hs : ¬ ((n : Int) < 0) := by omega
  simp only [appendInt, hs, if_false, Int.natAbs_ofNat, decimalDigits_small n h, List.nil_append]
  by_cases h1 : n < 10
  · have : n / 1000 = 0 ∧ n / 100 % 10 = 0 ∧ n / 10 % 10 = 0 ∧ n % 10 = n := by omega
    simp [h1, this, List.replicate]
  · by_cases h2 : n < 100
    · have : n / 1000 = 0 ∧ n / 100 % 10 = 0 ∧ n / 10 % 10 = n / 10 := by omega
      simp [h1, h2, this, List.replicate]
    · by_cases h3 : n < 1000
      · have : n / 1000 = 0 ∧ n / 100 % 10 = n / 100 := by omega
        simp [h1, h2, h3, this, List.replicate]
      · simp [h1, h2, h3]

theorem appendInt_two (n : Nat) (h : n < 100) :
    appendInt (n : Int) 2 = [Char.ofNat (48 + n / 10), Char.ofNat (48 + n % 10)] := by
  have hs : ¬ ((n : Int) < 0) := by omega
  simp only [appendInt, hs, if_false, Int.natAbs_ofNat, decimalDigits_small n (by omega),
    List.nil_append]
  by_cases h1 : n < 10
  · have : n / 10 = 0 ∧ n % 10 = n := by omega
    simp [h1, this, List.replicate]
  · simp [h1, h]

theorem digit_toNat : ∀ k < 10, (Char.ofNat (48 + k)).toNat = 48 + k := by decide

theorem absDate_eq (abs : Nat) :
    absDate abs = ((yearDay abs).1, monthDay (isLeap (yearDay abs).1) (yearDay abs).2) := by
  simp only [absDate, yearDay, monthDay]
  split_ifs <;> rfl

theorem yearDay_bounds (abs : Nat) (h0 : 9223371966548102400 ≤ abs)
    (h1 : abs < 9223372282117622400) :
    0 ≤ (yearDay abs).1 ∧ (yearDay abs).1 ≤ 9999 ∧
    (yearDay abs).2 < (if isLeap (yearDay abs).1 then 366 else 365) := by
  simp only [yearDay, secondsPerDay, daysPer400Years, daysPer100Years, daysPer4Years,
    absoluteZeroYear, Nat.reduceMul, Nat.reduceAdd]
  generalize e1 : abs / 86400 = d
  generalize e2 : d / 146097 = n400
  generalize e3 : d - 146097 * n400 = d1
  generalize e4 : d1 / 36524 = q100
  generalize e5 : q100 - q100 / 4 = n100
  generalize e6 : d1 - 36524 * n100 = d2
  generalize e7 : d2 / 1461 = n4
  generalize e8 : d2 - 1461 * n4 = d3
  generalize e9 : d3 / 365 = q1
  generalize e10 : q1 - q1 / 4 = n1
  generalize e11 : d3 - 365 * n1 = yd
  generalize e12 : 400 * n400 + 100 * n100 + 4 * n4 + n1 = y
  obtain ⟨k1, k2, k3, k4⟩ := yearDay_arith abs d n400 d1 q100 n100 d2 n4 d3 q1 n1 yd y h0 h1
    e1.symm e2.symm e3.symm e4.symm e5.symm e6.symm e7.symm e8.symm e9.symm e10.symm
    e11.symm e12.symm
  have hy : y < 2 ^ 63 := by omega
  simp only [hy, if_true]
  have hyear : ((y : Int) + -292277022399) = (y : Int) - 292277022399 := by omega
  rw [hyear]
  refine ⟨by omega, by omega, ?_⟩
  by_cases hl : isLeap ((y : Int) - 292277022399) = true
  · rw [if_pos hl]
    exact k3 ((isLeap_iff _).mp hl)
  · rw [if_neg hl]
    exact k4 (fun h => hl ((isLeap_iff _).mpr h))

theorem monthDay_valid : ∀ leap : Bool, ∀ day < 366,
    day < (if leap then 366 else 365) →
    1 ≤ (monthDay leap day).1 ∧ (monthDay leap day).1 ≤ 12 ∧
    1 ≤ (monthDay leap day).2 ∧
    (monthDay leap day).2 ≤
      (if ((monthDay leap day).1 == 2 && leap) = true then 29
       else daysBefore.getD (monthDay leap day).1 0
          - daysBefore.getD ((monthDay leap day).1 - 1) 0) := by
  decide

theorem absClock_bounds (abs : Nat) :
    (absClock abs).1 < 24 ∧ (absClock abs).2.1 < 60 ∧ (absClock abs).2.2 < 60 := by
  simp only [absClock, secondsPerDay]
  omega

theorem digit_isDigit : ∀ k < 10, isDigitChar (Char.ofNat (48 + k)) = true := by decide

theorem digit_val : ∀ k < 10, digitVal (Char.ofNat (48 + k)) = k := by decide

theorem isTimestamp_of_fields (yn month day hour min sec : Nat) (hy : yn < 10000)
    (hm1 : 1 ≤ month) (hm2 : month ≤ 12) (hd1 : 1 ≤ day) (hd2 : day ≤ daysIn month (yn : Int))
    (hd3 : day < 100)
    (hh : hour < 24) (hmi : min < 60) (hs : sec < 60) :
    isTimestamp (String.mk (appendInt (yn : Int) 4 ++ ['-'] ++ appendInt (month : Int) 2
      ++ ['-'] ++ appendInt (day : Int) 2 ++ [' '] ++ appendInt (hour : Int) 2 ++ [':']
      ++ appendInt (min : Int) 2 ++ [':'] ++ appendInt (sec : Int) 2)) = true := by
  rw [appendInt_four yn hy, appendInt_two month (by omega), appendInt_two day hd3,
    appendInt_two hour (by omega), appendInt_two min (by omega), appendInt_two sec (by omega)]
  have ey : yn / 1000 * 1000 + yn / 100 % 10 * 100 + yn / 10 % 10 * 10 + yn % 10 = yn := by
    omega
  have em : month / 10 * 10 + month % 10 = month := by omega
  have ed : day / 10 * 10 + day % 10 = day := by omega
  have eh : hour / 10 * 10 + hour % 10 = hour := by omega
  have emi : min / 10 * 10 + min % 10 = min := by omega
  have es : sec / 10 * 10 + sec % 10 = sec := by omega
  simp only [isTimestamp, String.toList, List.cons_append, List.nil_append, List.append_nil,
    List.all_cons, List.all_nil,
    digit_isDigit (yn / 1000) (by omega), digit_isDigit (yn / 100 % 10) (by omega),
    digit_isDigit (yn / 10 % 10) (by omega), digit_isDigit (yn % 10) (by omega),
    digit_isDigit (month / 10) (by omega), digit_isDigit (month % 10) (by omega),
    digit_isDigit (day / 10) (by omega), digit_isDigit (day % 10) (by omega),
    digit_isDigit (hour / 10) (by omega), digit_isDigit (hour % 10) (by omega),
    digit_isDigit (min / 10) (by omega), digit_isDigit (min % 10) (by omega),
    digit_isDigit (sec / 10) (by omega), digit_isDigit (sec % 10) (by omega),
    digit_val (yn / 1000) (by omega), digit_val (yn / 100 % 10) (by omega),
    digit_val (yn / 10 % 10) (by omega), digit_val (yn % 10) (by omega),
    digit_val (month / 10) (by omega), digit_val (month % 10) (by omega),
    digit_val (day / 10) (by omega), digit_val (day % 10) (by omega),
    digit_val (hour / 10) (by omega), digit_val (hour % 10) (by omega),
    digit_val (min / 10) (by omega), digit_val (min % 10) (by omega),
    digit_val (sec / 10) (by omega), digit_val (sec % 10) (by omega),
    ey, em, ed, eh, emi, es]
  simp [hm1, hm2, hd1, hd2, hh, hmi, hs]

theorem formatUTC_isTimestamp (t : Time) (h : t.inFourDigitYears) :
    isTimestamp t.formatUTC = true := by
  obtain ⟨h0, h1⟩ := h
  have ha0 : 9223371966548102400 ≤ t.abs := by
    simp only [Time.abs, unixToAbsolute]; omega
  have ha1 : t.abs < 9223372282117622400 := by
    simp only [Time.abs, unixToAbsolute]; omega
  obtain ⟨hy0, hy1, hyd⟩ := yearDay_bounds t.abs ha0 ha1
  obtain ⟨hh, hmi, hs⟩ := absClock_bounds t.abs
  have hyd' : (yearDay t.abs).2 < 366 := by
    split_ifs at hyd <;> omega
  obtain ⟨hm1, hm2, hd1, hd2⟩ :=
    monthDay_valid (isLeap (yearDay t.abs).1) (yearDay t.abs).2 hyd' hyd
  obtain ⟨yn, hyn⟩ := Int.eq_ofNat_of_zero_le hy0
  have hd2' : (monthDay (isLeap (yearDay t.abs).1) (yearDay t.abs).2).2
      ≤ daysIn (monthDay (isLeap (yearDay t.abs).1) (yearDay t.abs).2).1 (yearDay t.abs).1 := by
    unfold daysIn
    exact hd2
  have hd3 : (monthDay (isLeap (yearDay t.abs).1) (yearDay t.abs).2).2 < 100 := by
    have : daysIn (monthDay (isLeap (yearDay t.abs).1) (yearDay t.abs).2).1 (yearDay t.abs).1
        ≤ 31 := by
      generalize (monthDay (isLeap (yearDay t.abs).1) (yearDay t.abs).2).1 = m at hm1 hm2
      unfold daysIn
      split_ifs
      · omega
      · interval_cases m <;> decide
    omega
  simp only [Time.formatUTC, absDate_eq]
  rw [hyn] at hm1 hm2 hd1 hd2' hd3 hy1 ⊢
  exact isTimestamp_of_fields yn _ _ _ _ _ (by omega) hm1 hm2 hd1 hd2' hd3 hh hmi hs

theorem youTube_fold_posts (env : Env) (entries : List YouTubeEntry) (pf : SiteResponse) :
    (entries.foldl
      (fun pf entry =>
        let post := youTubePost env entry
        { pf with site := { pf.site with posts := pf.site.posts ++ [post] } })
      pf).site.posts
      = pf.site.posts ++ entries.map (youTubePost env) := by
  induction entries generalizing pf with
  | nil => simp
  | cons entry entries ih =>
    rw [List.foldl_cons, ih]
    simp

theorem updateSiteData_youTube_posts (env : Env) (parsedFeed : SiteResponse)
    (h : parsedFeed.site.siteType = "Anitube") :
    (updateSiteData env parsedFeed).site.posts
      = parsedFeed.site.posts ++ parsedFeed.youTubeFeed.Entries.map (youTubePost env) := by
  have h' : (parsedFeed.site.siteType == "Anitube") = true := by simpa using h
  unfold updateSiteData
  rw [h']
  simp only [if_true]
  rw [youTube_fold_posts]

theorem digit_not_space : ∀ k < 10, (Char.ofNat (48 + k) != ' ') = true := by decide
theorem digit_not_sign : ∀ k < 10,
    (Char.ofNat (48 + k) == '-') = false ∧ (Char.ofNat (48 + k) == '+') = false := by decide

theorem getnum_twoDigits (n : Nat) (h : n < 100) (rest : List Char) (fixed : Bool) :
    getnum (twoDigits n ++ rest) fixed = some (n, rest) := by
  have e : n / 10 * 10 + n % 10 = n := by omega
  simp [twoDigits, getnum, digit_isDigit (n / 10) (by omega), digit_isDigit (n % 10) (by omega),
    digit_val (n / 10) (by omega), digit_val (n % 10) (by omega), e]

theorem lookup_go_append (val rest : List Char) (tab : List (List Char)) (i : Nat)
    (h : ∀ v ∈ tab, v.length ≤ val.length) :
    lookup.go (val ++ rest) tab i
      = (lookup.go val tab i).map (fun r => (r.1, r.2 ++ rest)) := by
  induction tab generalizing i with
  | nil => simp [lookup.go]
  | cons v tab ih =>
    have hv : v.length ≤ val.length := h v (List.mem_cons_self _ _)
    have ht : ∀ w ∈ tab, w.length ≤ val.length := fun w hw => h w (List.mem_cons_of_mem _ hw)
    have e1 : (val ++ rest).take v.length = val.take v.length :=
      List.take_append_of_le_length hv
    have e2 : (val ++ rest).drop v.length = val.drop v.length ++ rest :=
      List.drop_append_of_le_length hv
    have e3 : (decide ((val ++ rest).length ≥ v.length)) = true := by
      simp only [List.length_append, decide_eq_true_eq]; omega
    have e4 : (decide (val.length ≥ v.length)) = true := by
      simp only [decide_eq_true_eq]; omega
    simp only [lookup.go, e1, e2, e3, e4, Bool.true_and]
    split_ifs
    · rfl
    · exact ih (i + 1) ht

theorem lookup_dayName : ∀ i < 7, ∀ rest : List Char,
    lookup shortDayNames (shortDayNames.getD i [] ++ rest) = some (i, rest) := by
  intro i hi rest
  unfold lookup
  have hlen : ∀ i < 7, ∀ v ∈ shortDayNames, v.length ≤ (shortDayNames.getD i []).length := by
    decide
  rw [lookup_go_append _ _ _ _ (hlen i hi)]
  have hc : ∀ i < 7, lookup.go (shortDayNames.getD i []) shortDayNames 0 = some (i, []) := by
    decide
  rw [hc i hi]
  rfl

theorem lookup_monthName : ∀ i < 12, ∀ rest : List Char,
    lookup shortMonthNames (shortMonthNames.getD i [] ++ rest) = some (i, rest) := by
  intro i hi rest
  unfold lookup
  have hlen : ∀ i < 12, ∀ v ∈ shortMonthNames,
      v.length ≤ (shortMonthNames.getD i []).length := by
    decide
  rw [lookup_go_append _ _ _ _ (hlen i hi)]
  have hc : ∀ i < 12, lookup.go (shortMonthNames.getD i []) shortMonthNames 0
      = some (i, []) := by
    decide
  rw [hc i hi]
  rfl

theorem cutspace_of_startsNonSpace (l : List Char) (h : startsNonSpace l = true) :
    cutspace l = l := by
  cases l with
  | nil => rfl
  | cons c t =>
    simp only [startsNonSpace, bne_iff_ne, ne_eq] at h
    have hb : (c == ' ') = false := by simpa using h
    simp only [cutspace, List.dropWhile, hb]

theorem cutspace_space (l : List Char) (h : startsNonSpace l = true) :
    cutspace (' ' :: l) = l := by
  have := cutspace_of_startsNonSpace l h
  unfold cutspace at this ⊢
  rw [List.dropWhile_cons_of_pos (by rfl), this]

theorem skip_space (l : List Char) (h : startsNonSpace l = true) :
    skip (' ' :: l) [' '] = some l := by
  have e := cutspace_space l h
  have e2 : cutspace [' '] = [] := by rfl
  unfold skip
  simp only [List.length_singleton]
  rw [skipLoop]
  simp only [beq_self_eq_true, if_true, bne_self_eq_false, Bool.false_eq_true, if_false]
  rw [e, e2, skipLoop]

theorem parseChunk_space (f : Fields) (l : List Char) (h : startsNonSpace l = true) :
    parseChunk (.lit [' ']) f (' ' :: l) = some (f, l) := by
  simp only [parseChunk, skip_space l h, Option.map_some']

theorem parseChunk_commaSpace (f : Fields) (l : List Char) (h : startsNonSpace l = true) :
    parseChunk (.lit [',', ' ']) f (',' :: ' ' :: l) = some (f, l) := by
  have e := cutspace_space l h
  have e2 : cutspace [' '] = [] := by rfl
  have hc : (',' == ' ') = false := by decide
  simp only [parseChunk, skip, List.length_cons, List.length_nil]
  rw [skipLoop]
  simp only [hc, Bool.false_eq_true, if_false, bne_self_eq_false]
  rw [skipLoop]
  simp only [beq_self_eq_true, if_true, bne_self_eq_false, Bool.false_eq_true, if_false]
  rw [e, e2, skipLoop]
  rfl

theorem parseChunk_colon (f : Fields) (l : List Char) :
    parseChunk (.lit [':']) f (':' :: l) = some (f, l) := by
  simp [parseChunk, skip, skipLoop]

theorem startsNonSpace_twoDigits (n : Nat) (h : n < 100) (rest : List Char) :
    startsNonSpace (twoDigits n ++ rest) = true := by
  simp only [twoDigits, List.cons_append, startsNonSpace, digit_not_space (n / 10) (by omega)]

theorem startsNonSpace_fourDigits (n : Nat) (h : n < 10000) (rest : List Char) :
    startsNonSpace (fourDigits n ++ rest) = true := by
  simp only [fourDigits, List.cons_append, startsNonSpace,
    digit_not_space (n / 1000) (by omega)]

theorem startsNonSpace_monthName : ∀ i < 12, ∀ rest : List Char,
    startsNonSpace (shortMonthNames.getD i [] ++ rest) = true := by
  intro i hi rest
  have h : ∀ i < 12, startsNonSpace (shortMonthNames.getD i []) = true := by decide
  have := h i hi
  cases hn : shortMonthNames.getD i [] with
  | nil => rw [hn] at this; simp [startsNonSpace] at this
  | cons c t => rw [hn] at this; simpa [startsNonSpace] using this

theorem parseChunk_weekDay (f : Fields) (i : Nat) (hi : i < 7) (rest : List Char) :
    parseChunk .stdWeekDay f (shortDayNames.getD i [] ++ rest) = some (f, rest) := by
  simp only [parseChunk, lookup_dayName i hi rest, Option.map_some']

theorem parseChunk_month (f : Fields) (i : Nat) (hi : i < 12) (rest : List Char) :
    parseChunk .stdMonth f (shortMonthNames.getD i [] ++ rest)
      = some ({ f with month := (i : Int) + 1 }, rest) := by
  simp only [parseChunk, lookup_monthName i hi rest, Option.map_some']

theorem parseChunk_zeroDay (f : Fields) (n : Nat) (h : n < 100) (rest : List Char) :
    parseChunk .stdZeroDay f (twoDigits n ++ rest) = some ({ f with day := (n : Int) }, rest) := by
  simp [parseChunk, getnum_twoDigits n h rest]

theorem parseChunk_hour (f : Fields) (n : Nat) (h : n < 24) (rest : List Char) :
    parseChunk .stdHour f (twoDigits n ++ rest) = some ({ f with hour := (n : Int) }, rest) := by
  have : ¬ 24 ≤ n := by omega
  simp [parseChunk, getnum_twoDigits n (by omega) rest, this]

theorem parseChunk_minute (f : Fields) (n : Nat) (h : n < 60) (rest : List Char) :
    parseChunk .stdZeroMinute f (twoDigits n ++ rest)
      = some ({ f with min := (n : Int) }, rest) := by
  have : ¬ 60 ≤ n := by omega
  simp [parseChunk, getnum_twoDigits n (by omega) rest, this]

theorem parseChunk_second (f : Fields) (n : Nat) (h : n < 60) (rest : List Char) :
    parseChunk .stdZeroSecond f (twoDigits n ++ (' ' :: rest))
      = some ({ f with sec := (n : Int) }, ' ' :: rest) := by
  have : ¬ 60 ≤ n := by omega
  have e : dropFraction (' ' :: rest) = ' ' :: rest := by
    cases rest <;> simp [dropFraction]
  simp [parseChunk, getnum_twoDigits n (by omega) (' ' :: rest), this, e]

theorem leadingInt_fourDigits (y : Nat) (h : y < 10000) :
    leadingInt (fourDigits y) = some (y, []) := by
  have e : ((y / 1000 * 10 + y / 100 % 10) * 10 + y / 10 % 10) * 10 + y % 10 = y := by omega
  have b0 : ¬ (0 : Nat) > 2 ^ 63 / 10 := by decide
  have b1 : ¬ y / 1000 > 2 ^ 63 / 10 := by
    have : (2 : Nat) ^ 63 / 10 = 922337203685477580 := by norm_num
    omega
  have b2 : ¬ y / 1000 * 10 + y / 100 % 10 > 2 ^ 63 / 10 := by
    have : (2 : Nat) ^ 63 / 10 = 922337203685477580 := by norm_num
    omega
  have b3 : ¬ (y / 1000 * 10 + y / 100 % 10) * 10 + y / 10 % 10 > 2 ^ 63 / 10 := by
    have : (2 : Nat) ^ 63 / 10 = 922337203685477580 := by norm_num
    omega
  have c1 : ¬ y / 1000 > 2 ^ 63 := by
    have : (2 : Nat) ^ 63 = 9223372036854775808 := by norm_num
    omega
  have c2 : ¬ y / 1000 * 10 + y / 100 % 10 > 2 ^ 63 := by
    have : (2 : Nat) ^ 63 = 9223372036854775808 := by norm_num
    omega
  have c3 : ¬ (y / 1000 * 10 + y / 100 % 10) * 10 + y / 10 % 10 > 2 ^ 63 := by
    have : (2 : Nat) ^ 63 = 9223372036854775808 := by norm_num
    omega
  have c4 : ¬ ((y / 1000 * 10 + y / 100 % 10) * 10 + y / 10 % 10) * 10 + y % 10 > 2 ^ 63 := by
    have : (2 : Nat) ^ 63 = 9223372036854775808 := by norm_num
    omega
  have c5 : ¬ y > 2 ^ 63 := by
    have : (2 : Nat) ^ 63 = 9223372036854775808 := by norm_num
    omega
  simp only [leadingInt, fourDigits, leadingInt.go,
    digit_isDigit (y / 1000) (by omega), digit_isDigit (y / 100 % 10) (by omega),
    digit_isDigit (y / 10 % 10) (by omega), digit_isDigit (y % 10) (by omega),
    digit_val (y / 1000) (by omega), digit_val (y / 100 % 10) (by omega),
    digit_val (y / 10 % 10) (by omega), digit_val (y % 10) (by omega),
    Bool.not_true, Bool.false_eq_true, if_false, Nat.zero_mul, Nat.zero_add, b0, b1, b2, b3,
    c1, c2, c3, c4, c5, e]

theorem atoi_fourDigits (y : Nat) (h : y < 10000) : atoi (fourDigits y) = some (y : Int) := by
  have hs := digit_not_sign (y / 1000) (by omega)
  have hl := leadingInt_fourDigits y h
  have hq : y < 2 ^ 63 := by
    have : (2 : Nat) ^ 63 = 9223372036854775808 := by norm_num
    omega
  unfold atoi
  simp only [fourDigits] at hl ⊢
  simp only [hs.1, hs.2, Bool.or_self, Bool.false_eq_true, if_false, hl, hq, if_true]

theorem parseChunk_longYear (f : Fields) (y : Nat) (h : y < 10000) (rest : List Char) :
    parseChunk .stdLongYear f (fourDigits y ++ rest)
      = some ({ f with year := (y : Int) }, rest) := by
  have e1 : ¬ (fourDigits y ++ rest).length < 4 := by
    simp only [fourDigits, List.cons_append, List.nil_append, List.length_cons]; omega
  have e2 : isDigit (fourDigits y ++ rest) 0 = true := by
    simp only [fourDigits, List.cons_append, isDigit, List.get?_cons_zero,
      digit_isDigit (y / 1000) (by omega)]
  have e3 : (fourDigits y ++ rest).take 4 = fourDigits y := by
    simp only [fourDigits, List.cons_append, List.nil_append, List.take_succ_cons, List.take_zero]
  have e4 : (fourDigits y ++ rest).drop 4 = rest := by
    simp only [fourDigits, List.cons_append, List.nil_append, List.drop_succ_cons, List.drop_zero]
  simp only [parseChunk, e1, e2, e3, e4, decide_False, Bool.not_true, Bool.or_self,
    Bool.false_eq_true, if_false, atoi_fourDigits y h, Option.map_some']

theorem numericZone_digits (east : Bool) (zh zm : Nat) (h1 : zh ≤ 24) (h2 : zm ≤ 60) :
    numericZone (if east then '+' else '-') (twoDigits zh) (twoDigits zm)
      = some (if east then (((zh * 60 + zm) * 60 : Nat) : Int)
              else -(((zh * 60 + zm) * 60 : Nat) : Int)) := by
  have g1 := getnum_twoDigits zh (by omega) [] true
  have g2 := getnum_twoDigits zm (by omega) [] true
  rw [List.append_nil] at g1 g2
  have r : ¬ (zh > 24 ∨ zm > 60) := by omega
  unfold numericZone
  simp only [g1, g2, gt_iff_lt, Bool.or_eq_true, decide_eq_true_eq, r, if_false]
  cases east
  · simp
  · simp

theorem parseChunk_numTZ_digits (f : Fields) (east : Bool) (zh zm : Nat) (h1 : zh ≤ 24)
    (h2 : zm ≤ 60) :
    parseChunk .stdNumTZ f ((if east then '+' else '-') :: (twoDigits zh ++ twoDigits zm))
      = some ({ f with
                zoneOffset := if east then (((zh * 60 + zm) * 60 : Nat) : Int)
                              else -(((zh * 60 + zm) * 60 : Nat) : Int) }, []) := by
  have e1 : ¬ ((if east then '+' else '-') :: (twoDigits zh ++ twoDigits zm)).length < 5 := by
    simp [twoDigits]
  have e2 : ((if east then '+' else '-') :: (twoDigits zh ++ twoDigits zm)).headD ' '
      = (if east then '+' else '-') := rfl
  have e3 : (((if east then '+' else '-') :: (twoDigits zh ++ twoDigits zm)).drop 1).take 2
      = twoDigits zh := by simp [twoDigits]
  have e4 : (((if east then '+' else '-') :: (twoDigits zh ++ twoDigits zm)).drop 3).take 2
      = twoDigits zm := by simp [twoDigits]
  have e5 : ((if east then '+' else '-') :: (twoDigits zh ++ twoDigits zm)).drop 5 = [] := by
    simp [twoDigits]
  simp only [parseChunk, e1, if_false, e2, e3, e4, e5, numericZone_digits east zh zm h1 h2,
    Option.map_some']

theorem parseChunk_day_short (f : Fields) (n : Nat) (h : n < 10) (rest : List Char) :
    parseChunk .stdDay f (Char.ofNat (48 + n) :: ' ' :: rest)
      = some ({ f with day := (n : Int) }, ' ' :: rest) ∧
    parseChunk .stdZeroDay f (Char.ofNat (48 + n) :: ' ' :: rest) = none := by
  have hs : isDigitChar ' ' = false := by decide
  constructor
  · simp [parseChunk, getnum, digit_isDigit n h, digit_val n h, hs]
  · simp [parseChunk, getnum, digit_isDigit n h, hs]

theorem parseChunk_day_two (f : Fields) (n : Nat) (h : n < 100) (rest : List Char) :
    parseChunk .stdDay f (twoDigits n ++ rest) = some ({ f with day := (n : Int) }, rest) := by
  simp [parseChunk, getnum_twoDigits n h rest]

theorem parseChunks_tail (f : Fields) (p : DateParts) (h : p.WellFormed) :
    parseChunks (layoutMiddle ++ [.stdNumTZ]) f p.renderTail
      = some { f with
               month := (p.month : Int), year := (p.year : Int), hour := (p.hour : Int),
               min := (p.min : Int), sec := (p.sec : Int), zoneOffset := p.offsetSeconds } := by
  obtain ⟨_, hm1, hm2, _, _, hy, hH, hM, hS, hz1, hz2⟩ := h
  have hi : p.month - 1 < 12 := by omega
  have hmi : ((p.month - 1 : Nat) : Int) + 1 = (p.month : Int) := by omega
  have hsign : ∀ l : List Char, startsNonSpace ((if p.east then '+' else '-') :: l) = true := by
    intro l; cases p.east <;> rfl
  have hy' : p.year < 10000 := by omega
  have hH' : p.hour < 100 := by omega
  have s1 : ∀ (f : Fields) (rest : List Char),
      parseChunk (.lit [' ']) f (' ' :: (fourDigits p.year ++ rest))
        = some (f, fourDigits p.year ++ rest) :=
    fun f rest => parseChunk_space f _ (startsNonSpace_fourDigits p.year hy' rest)
  have s2 : ∀ (f : Fields) (rest : List Char),
      parseChunk (.lit [' ']) f (' ' :: (twoDigits p.hour ++ rest))
        = some (f, twoDigits p.hour ++ rest) :=
    fun f rest => parseChunk_space f _ (startsNonSpace_twoDigits p.hour hH' rest)
  have s3 : ∀ (f : Fields) (rest : List Char),
      parseChunk (.lit [' ']) f (' ' :: ((if p.east then '+' else '-') :: rest))
        = some (f, (if p.east then '+' else '-') :: rest) :=
    fun f rest => parseChunk_space f _ (hsign rest)
  have s4 : ∀ (f : Fields) (rest : List Char),
      parseChunk .stdMonth f (shortMonthNames.getD (p.month - 1) [] ++ rest)
        = some ({ f with month := (p.month : Int) }, rest) := by
    intro f rest
    rw [parseChunk_month f _ hi rest, hmi]
  have s5 : ∀ (f : Fields) (rest : List Char),
      parseChunk .stdLongYear f (fourDigits p.year ++ rest)
        = some ({ f with year := (p.year : Int) }, rest) :=
    fun f rest => parseChunk_longYear f _ hy' rest
  have s6 : ∀ (f : Fields) (rest : List Char),
      parseChunk .stdHour f (twoDigits p.hour ++ rest)
        = some ({ f with hour := (p.hour : Int) }, rest) :=
    fun f rest => parseChunk_hour f _ hH rest
  have s7 : ∀ (f : Fields) (rest : List Char),
      parseChunk .stdZeroMinute f (twoDigits p.min ++ rest)
        = some ({ f with min := (p.min : Int) }, rest) :=
    fun f rest => parseChunk_minute f _ hM rest
  have s8 : ∀ (f : Fields) (rest : List Char),
      parseChunk .stdZeroSecond f (twoDigits p.sec ++ (' ' :: rest))
        = some ({ f with sec := (p.sec : Int) }, ' ' :: rest) :=
    fun f rest => parseChunk_second f _ hS rest
  have s9 : ∀ (f : Fields),
      parseChunk .stdNumTZ f
          ((if p.east then '+' else '-') :: (twoDigits p.zoneHour ++ twoDigits p.zoneMin))
        = some ({ f with zoneOffset := p.offsetSeconds }, []) :=
    fun f => parseChunk_numTZ_digits f _ _ _ hz1 hz2
  simp only [layoutMiddle, List.cons_append, List.nil_append, DateParts.renderTail, parseChunks,
    s1, s2, s3, s4, s5, s6, s7, s8, s9, parseChunk_colon,
    List.length_nil, ne_eq, not_true_eq_false, if_false, bne_self_eq_false, Bool.false_eq_true]

theorem parseChunks_cons (c : Chunk) (cs : List Chunk) (f f' : Fields) (v v' : List Char)
    (h : parseChunk c f v = some (f', v')) :
    parseChunks (c :: cs) f v = parseChunks cs f' v' := by
  rw [parseChunks, h]

theorem parseChunks_cons_none (c : Chunk) (cs : List Chunk) (f : Fields) (v : List Char)
    (h : parseChunk c f v = none) : parseChunks (c :: cs) f v = none := by
  rw [parseChunks, h]

theorem norm_id (hi lo base : Int) (h0 : 0 ≤ lo) (h1 : lo < base) :
    norm hi lo base = (hi, lo) := by
  unfold norm
  have a : ¬ lo < 0 := by omega
  have b : ¬ lo ≥ base := by omega
  simp only [a, b, if_false]

theorem daysBefore_le : ∀ m < 12, daysBefore.getD m 0 ≤ 334 := by decide

theorem daysSinceEpoch_bounds (year : Nat) (hy1 : 1 ≤ year) (hy2 : year ≤ 9998) :
    106751990353932 ≤ daysSinceEpoch year ∧ daysSinceEpoch year ≤ 106751994005261 := by
  unfold daysSinceEpoch
  simp only [absoluteZeroYear, daysPer400Years, daysPer100Years, daysPer4Years]
  have e : (((year : Int) - -292277022399) % 2 ^ 64).toNat = year + 292277022399 := by omega
  rw [e]
  omega

theorem Date_eq (year month day hour min sec : Nat)
    (hm1 : 1 ≤ month) (hm2 : month ≤ 12)
    (hH : hour < 24) (hM : min < 60) (hS : sec < 60) :
    (Date year month day hour min sec).unix
      = toInt64 (toInt64 (((((daysSinceEpoch year : Nat) : Int)
            + ((daysBefore.getD (month - 1) 0 : Nat) : Int)
            + (if (isLeap year && decide ((month : Int) ≥ 3)) = true then 1 else 0)
            + ((day : Int) - 1)) % 2 ^ 64 * 86400
          + ((hour : Int) * 3600 + (min : Int) * 60 + (sec : Int))) % 2 ^ 64) - unixToAbsolute) := by
  have n1 : norm (year : Int) ((month : Int) - 1) 12 = ((year : Int), (month : Int) - 1) :=
    norm_id _ _ _ (by omega) (by omega)
  have n2 : norm (min : Int) (sec : Int) 60 = ((min : Int), (sec : Int)) :=
    norm_id _ _ _ (by omega) (by omega)
  have n3 : norm (hour : Int) (min : Int) 60 = ((hour : Int), (min : Int)) :=
    norm_id _ _ _ (by omega) (by omega)
  have n4 : norm (day : Int) (hour : Int) 24 = ((day : Int), (hour : Int)) :=
    norm_id _ _ _ (by omega) (by omega)
  have em : ((month : Int) - 1 + 1 - 1).toNat = month - 1 := by omega
  have e1 : (month : Int) - 1 + 1 = month := by omega
  unfold Date
  simp only [n1]
  simp only [n2]
  simp only [n3]
  simp only [n4, e1]
  have em2 : ((month : Int) - 1).toNat = month - 1 := by omega
  rw [em2]
  split_ifs <;> simp only [add_zero]

theorem toInt64_sub (y c : Int) (h2 : -2 ^ 63 ≤ y - c) (h3 : y - c < 2 ^ 63) :
    toInt64 (toInt64 y - c) = y - c := by
  unfold toInt64
  omega

theorem Date_bounds (year month day hour min sec : Nat) (hy1 : 1 ≤ year) (hy2 : year ≤ 9998)
    (hm1 : 1 ≤ month) (hm2 : month ≤ 12) (hd1 : 1 ≤ day) (hd2 : day ≤ 31)
    (hH : hour < 24) (hM : min < 60) (hS : sec < 60) :
    -62135596800 ≤ (Date year month day hour min sec).unix ∧
    (Date year month day hour min sec).unix < 253370764800 + 86400 := by
  obtain ⟨b1, b2⟩ := daysSinceEpoch_bounds year hy1 hy2
  have hb := daysBefore_le (month - 1) (by omega)
  rw [Date_eq year month day hour min sec hm1 hm2 hH hM hS]
  generalize daysSinceEpoch year = D at b1 b2
  generalize daysBefore.getD (month - 1) 0 = B at hb
  obtain ⟨L, hL0, hL1, hLe⟩ : ∃ L : Int, 0 ≤ L ∧ L ≤ 1 ∧
      (if (isLeap year && decide ((month : Int) ≥ 3)) = true then (1 : Int) else 0) = L := by
    split_ifs
    · exact ⟨1, by omega, by omega, rfl⟩
    · exact ⟨0, by omega, by omega, rfl⟩
  rw [hLe]
  have x1 : ((D : Int) + B + L + ((day : Int) - 1)) % 2 ^ 64
      = (D : Int) + B + L + ((day : Int) - 1) := by
    clear hLe
    omega
  rw [x1]
  have x2 : (((D : Int) + B + L + ((day : Int) - 1)) * 86400
      + ((hour : Int) * 3600 + (min : Int) * 60 + (sec : Int))) % 2 ^ 64
      = ((D : Int) + B + L + ((day : Int) - 1)) * 86400
      + ((hour : Int) * 3600 + (min : Int) * 60 + (sec : Int)) := by
    clear hLe x1
    omega
  rw [x2, toInt64_sub _ _ (by simp only [unixToAbsolute]; clear hLe x1 x2; omega)
    (by simp only [unixToAbsolute]; clear hLe x1 x2; omega)]
  simp only [unixToAbsolute]
  clear hLe x1 x2
  omega

theorem daysIn_le (m : Nat) (year : Int) (h1 : 1 ≤ m) (h2 : m ≤ 12) : daysIn m year ≤ 31 := by
  unfold daysIn
  split_ifs
  · omega
  · interval_cases m <;> decide

theorem isLeap_leapYear (y : Nat) : isLeap (y : Int) = leapYear y := by
  unfold isLeap leapYear
  have e4 : ((y : Int) % 4 == 0) = (y % 4 == 0) := by
    rw [Bool.eq_iff_iff]; simp only [beq_iff_eq]; omega
  have e100 : ((y : Int) % 100 != 0) = (y % 100 != 0) := by
    rw [Bool.eq_iff_iff]; simp only [bne_iff_ne, ne_eq]; omega
  have e400 : ((y : Int) % 400 == 0) = (y % 400 == 0) := by
    rw [Bool.eq_iff_iff]; simp only [beq_iff_eq]; omega
  rw [e4, e100, e400]
  by_cases h400 : y % 400 = 0
  · have h4 : y % 4 = 0 := by omega
    rw [h4, h400]
    simp
  · have : (y % 400 == 0) = false := by simpa using h400
    rw [this]
    simp

theorem daysSinceEpoch_civil (year : Nat) (hy : year ≤ 9999) :
    (daysSinceEpoch year : Int)
      = 365 * ((year : Int) - 1) + ((year : Int) - 1) / 4 - ((year : Int) - 1) / 100
        + ((year : Int) - 1) / 400 + 106751990353932 := by
  unfold daysSinceEpoch
  simp only [absoluteZeroYear, daysPer400Years, daysPer100Years, daysPer4Years]
  have e : (((year : Int) - -292277022399) % 2 ^ 64).toNat = year + 292277022399 := by omega
  rw [e]
  omega

theorem daysBefore_monthLengths : ∀ leap : Bool, ∀ m < 13, 1 ≤ m →
    daysBefore.getD (m - 1) 0 + (if (leap && decide ((m : Int) ≥ 3)) = true then 1 else 0)
      = ((monthLengths leap).take (m - 1)).sum := by
  decide

theorem daysIn_monthLengths : ∀ leap : Bool, ∀ m < 13, 1 ≤ m →
    (if (m == 2 && leap) = true then 29
      else daysBefore.getD m 0 - daysBefore.getD (m - 1) 0)
      = (monthLengths leap).getD (m - 1) 0 := by
  decide

theorem Date_civil (year month day hour min sec : Nat) (hy : year ≤ 9999)
    (hm1 : 1 ≤ month) (hm2 : month ≤ 12) (hd1 : 1 ≤ day) (hd2 : day ≤ 31)
    (hH : hour < 24) (hM : min < 60) (hS : sec < 60) :
    (Date year month day hour min sec).unix
      = civilDays year month day * 86400 + hour * 3600 + min * 60 + sec := by
  have hD := daysSinceEpoch_civil year hy
  have hB := daysBefore_monthLengths (isLeap year) month (by omega) hm1
  have hb := daysBefore_le (month - 1) (by omega)
  rw [Date_eq year month day hour min sec hm1 hm2 hH hM hS]
  unfold civilDays
  rw [← isLeap_leapYear, ← hB]
  generalize daysBefore.getD (month - 1) 0 = B at hb
  obtain ⟨L, hL0, hL1, hLe, hLn⟩ : ∃ L : Nat, 0 ≤ L ∧ L ≤ 1 ∧
      (if (isLeap year && decide ((month : Int) ≥ 3)) = true then (1 : Int) else 0) = L ∧
      (if (isLeap year && decide ((month : Int) ≥ 3)) = true then (1 : Nat) else 0) = L := by
    split_ifs
    · exact ⟨1, by omega, by omega, rfl, rfl⟩
    · exact ⟨0, by omega, by omega, rfl, rfl⟩
  rw [hLe, hLn]
  generalize daysSinceEpoch year = D at hD
  have x0 : 365 * ((year : Int) - 1) + ((year : Int) - 1) / 4 - ((year : Int) - 1) / 100
      + ((year : Int) - 1) / 400 + 106751990353932 ≤ 106751990353932 + 3652059 ∧
      106751990353932 - 366 ≤ 365 * ((year : Int) - 1) + ((year : Int) - 1) / 4
        - ((year : Int) - 1) / 100 + ((year : Int) - 1) / 400 + 106751990353932 := by
    clear * - hy
    omega
  generalize 365 * ((year : Int) - 1) + ((year : Int) - 1) / 4 - ((year : Int) - 1) / 100
      + ((year : Int) - 1) / 400 = C at hD x0 ⊢
  have x1 : ((D : Int) + B + L + ((day : Int) - 1)) % 2 ^ 64
      = (D : Int) + B + L + ((day : Int) - 1) := by
    clear hLe hLn hB
    omega
  rw [x1]
  have x2 : (((D : Int) + B + L + ((day : Int) - 1)) * 86400
      + ((hour : Int) * 3600 + (min : Int) * 60 + (sec : Int))) % 2 ^ 64
      = ((D : Int) + B + L + ((day : Int) - 1)) * 86400
      + ((hour : Int) * 3600 + (min : Int) * 60 + (sec : Int)) := by
    clear hLe hLn hB x1
    omega
  rw [x2, toInt64_sub _ _ (by simp only [unixToAbsolute]; clear hLe hLn hB x1 x2; omega)
    (by simp only [unixToAbsolute]; clear hLe hLn hB x1 x2; omega)]
  simp only [unixToAbsolute]
  push_cast
  clear hLe hLn hB x1 x2
  omega

theorem yearDay_inverse_arith (Y a r1 b r2 c e yd secs abs d n400 d1 q100 n100 d2 n4 d3 q1 n1
    yd2 : Nat)
    (f1 : a = Y / 400) (f2 : r1 = Y - 400 * a) (f3 : b = r1 / 100) (f4 : r2 = r1 - 100 * b)
    (f5 : c = r2 / 4) (f6 : e = r2 - 4 * c)
    (hleap : (e = 3 ∧ (c = 24 → b = 3)) → yd < 366)
    (hcommon : ¬ (e = 3 ∧ (c = 24 → b = 3)) → yd < 365)
    (hs : secs < 86400)
    (habs : abs = (146097 * a + 36524 * b + 1461 * c + 365 * e + yd) * 86400 + secs)
    (e1 : d = abs / 86400) (e2 : n400 = d / 146097) (e3 : d1 = d - 146097 * n400)
    (e4 : q100 = d1 / 36524) (e5 : n100 = q100 - q100 / 4) (e6 : d2 = d1 - 36524 * n100)
    (e7 : n4 = d2 / 1461) (e8 : d3 = d2 - 1461 * n4) (e9 : q1 = d3 / 365)
    (e10 : n1 = q1 - q1 / 4) (e11 : yd2 = d3 - 365 * n1) :
    400 * n400 + 100 * n100 + 4 * n4 + n1 = Y ∧ yd2 = yd := by
  have g1 : b ≤ 3 ∧ c ≤ 24 ∧ e ≤ 3 ∧ Y = 400 * a + 100 * b + 4 * c + e := by
    clear * - f1 f2 f3 f4 f5 f6; omega
  have gyd : yd < 366 ∧ (yd = 365 → e = 3 ∧ (c = 24 → b = 3)) := by
    clear * - hleap hcommon; omega
  have hd : d = 146097 * a + 36524 * b + 1461 * c + 365 * e + yd := by
    clear * - habs hs e1; omega
  have h400 : n400 = a := by
    clear * - hd g1 gyd e2; omega
  have hd1 : d1 = 36524 * b + 1461 * c + 365 * e + yd := by
    clear * - hd h400 e3; omega
  have hr : 1461 * c + 365 * e + yd ≤ 36524 ∧ (1461 * c + 365 * e + yd = 36524 → b = 3) := by
    clear * - g1 gyd; omega
  have hq100 : q100 = b ∨ (q100 = 4 ∧ b = 3) := by
    clear * - hd1 hr g1 e4; omega
  have h100 : n100 = b := by
    clear * - hq100 g1 e5; omega
  have hd2 : d2 = 1461 * c + 365 * e + yd := by
    clear * - hd1 h100 e6; omega
  have h4 : n4 = c := by
    clear * - hd2 g1 gyd e7; omega
  have hd3 : d3 = 365 * e + yd := by
    clear * - hd2 h4 e8; omega
  have hq1 : q1 = e ∨ (q1 = 4 ∧ e = 3) := by
    clear * - hd3 g1 gyd e9; omega
  have h1 : n1 = e := by
    clear * - hq1 g1 e10; omega
  have hy2 : yd2 = yd := by
    clear * - hd3 h1 e11; omega
  refine ⟨?_, hy2⟩
  clear * - h400 h100 h4 h1 g1
  omega

theorem yearDay_civil (year : Nat) (hy : year ≤ 9999) (yd secs : Nat)
    (hyd : yd < (if isLeap year then 366 else 365)) (hs : secs < 86400) :
    yearDay ((daysSinceEpoch year + yd) * 86400 + secs) = ((year : Int), yd) := by
  have hl := isLeap_iff (year : Int)
  simp only [yearDay, daysSinceEpoch, secondsPerDay, daysPer400Years, daysPer100Years,
    daysPer4Years, absoluteZeroYear, Nat.reduceMul, Nat.reduceAdd]
  have e : (((year : Int) - -292277022399) % 2 ^ 64).toNat = year + 292277022399 := by omega
  rw [e]
  generalize hY : year + 292277022399 = Y
  generalize f1 : Y / 400 = a
  generalize f2 : Y - 400 * a = r1
  generalize f3 : r1 / 100 = b
  generalize f4 : r1 - 100 * b = r2
  generalize f5 : r2 / 4 = c
  generalize f6 : r2 - 4 * c = e'
  generalize habs : (146097 * a + 36524 * b + 1461 * c + 365 * e' + yd) * 86400 + secs = abs
  generalize e1 : abs / 86400 = d
  generalize e2 : d / 146097 = n400
  generalize e3 : d - 146097 * n400 = d1
  generalize e4 : d1 / 36524 = q100
  generalize e5 : q100 - q100 / 4 = n100
  generalize e6 : d1 - 36524 * n100 = d2
  generalize e7 : d2 / 1461 = n4
  generalize e8 : d2 - 1461 * n4 = d3
  generalize e9 : d3 / 365 = q1
  generalize e10 : q1 - q1 / 4 = n1
  generalize e11 : d3 - 365 * n1 = yd2
  have g1 : b ≤ 3 ∧ c ≤ 24 ∧ e' ≤ 3 ∧ Y = 400 * a + 100 * b + 4 * c + e' := by
    clear * - f1 f2 f3 f4 f5 f6; omega
  have hleap : (year : Int) % 4 = 0 ∧ ((year : Int) % 100 ≠ 0 ∨ (year : Int) % 400 = 0)
      ↔ (e' = 3 ∧ (c = 24 → b = 3)) := by
    clear * - g1 hY; omega
  have k1 : (e' = 3 ∧ (c = 24 → b = 3)) → yd < 366 := by
    intro h
    split_ifs at hyd <;> omega
  have k2 : ¬ (e' = 3 ∧ (c = 24 → b = 3)) → yd < 365 := by
    intro h
    have : ¬ isLeap (year : Int) = true := fun h2 => h (hleap.mp (hl.mp h2))
    rw [if_neg this] at hyd
    exact hyd
  obtain ⟨r1, r2⟩ := yearDay_inverse_arith Y a r1 b r2 c e' yd secs abs d n400 d1 q100 n100 d2 n4
    d3 q1 n1 yd2 f1.symm f2.symm f3.symm f4.symm f5.symm f6.symm k1 k2 hs habs.symm e1.symm
    e2.symm e3.symm e4.symm e5.symm e6.symm e7.symm e8.symm e9.symm e10.symm e11.symm
  rw [r1, r2]
  have hy2 : Y < 2 ^ 63 := by omega
  simp only [hy2, if_true]
  have hyear : (Y : Int) + -292277022399 = (year : Int) := by omega
  rw [hyear]

theorem monthDay_inverse : ∀ leap : Bool, ∀ m < 13, 1 ≤ m → ∀ d < 32, 1 ≤ d →
    d ≤ (monthLengths leap).getD (m - 1) 0 →
    monthDay leap (((monthLengths leap).take (m - 1)).sum + d - 1) = (m, d) := by
  intro leap m hm h1
  interval_cases m <;> cases leap <;> decide

theorem monthLengths_sum : ∀ leap : Bool, ∀ m < 13, 1 ≤ m → ∀ d < 32, 1 ≤ d →
    d ≤ (monthLengths leap).getD (m - 1) 0 →
    ((monthLengths leap).take (m - 1)).sum + d - 1 < (if leap then 366 else 365) := by
  intro leap m hm h1
  interval_cases m <;> cases leap <;> decide

theorem monthLengths_take_le : ∀ leap : Bool, ∀ m < 13,
    ((monthLengths leap).take (m - 1)).sum ≤ 335 := by
  decide

theorem daysIn_eq (m y : Nat) (h1 : 1 ≤ m) (h2 : m ≤ 12) :
    daysIn m (y : Int) = (monthLengths (leapYear y)).getD (m - 1) 0 := by
  rw [← isLeap_leapYear]
  exact daysIn_monthLengths (isLeap y) m (by omega) h1

theorem absClock_inverse (days hour min sec : Nat) (hH : hour < 24) (hM : min < 60)
    (hS : sec < 60) :
    absClock (days * 86400 + (hour * 3600 + min * 60 + sec)) = (hour, min, sec) := by
  simp only [absClock, secondsPerDay]
  have e1 : (days * 86400 + (hour * 3600 + min * 60 + sec)) % 86400
      = hour * 3600 + min * 60 + sec := by omega
  rw [e1]
  have e2 : (hour * 3600 + min * 60 + sec) / 3600 = hour := by omega
  rw [e2]
  have e3 : hour * 3600 + min * 60 + sec - hour * 3600 = min * 60 + sec := by omega
  rw [e3]
  have e4 : (min * 60 + sec) / 60 = min := by omega
  rw [e4]
  have e5 : min * 60 + sec - min * 60 = sec := by omega
  rw [e5]

theorem formatUTC_civil (year month day hour min sec : Nat) (hy : year ≤ 9999)
    (hm1 : 1 ≤ month) (hm2 : month ≤ 12) (hd1 : 1 ≤ day)
    (hd2 : day ≤ (monthLengths (leapYear year)).getD (month - 1) 0)
    (hH : hour < 24) (hM : min < 60) (hS : sec < 60) :
    (Time.mk (civilDays year month day * 86400 + hour * 3600 + min * 60 + sec)).formatUTC
      = String.mk (fourDigits year ++ ('-' :: (twoDigits month ++ ('-' :: (twoDigits day ++
          (' ' :: (twoDigits hour ++ (':' :: (twoDigits min ++ (':' :: twoDigits sec)))))))))) := by
  have hd31 : day < 32 := by
    have := daysIn_le month year hm1 hm2
    rw [daysIn_eq month year hm1 hm2] at this
    omega
  have hD := daysSinceEpoch_civil year hy
  have habs : (Time.mk (civilDays year month day * 86400 + hour * 3600 + min * 60 + sec)).abs
      = (daysSinceEpoch year + (((monthLengths (leapYear year)).take (month - 1)).sum + day - 1))
          * 86400 + (hour * 3600 + min * 60 + sec) := by
    simp only [Time.abs, civilDays, unixToAbsolute]
    have hB := monthLengths_take_le (leapYear year) month (by omega)
    generalize ((monthLengths (leapYear year)).take (month - 1)).sum = B at hB
    generalize daysSinceEpoch year = D at hD
    have x0 : 365 * ((year : Int) - 1) + ((year : Int) - 1) / 4 - ((year : Int) - 1) / 100
        + ((year : Int) - 1) / 400 + 106751990353932 ≤ 106751990353932 + 3652059 ∧
        106751990353932 - 366 ≤ 365 * ((year : Int) - 1) + ((year : Int) - 1) / 4
          - ((year : Int) - 1) / 100 + ((year : Int) - 1) / 400 + 106751990353932 := by
      clear * - hy
      omega
    clear hd2
    generalize 365 * ((year : Int) - 1) + ((year : Int) - 1) / 4 - ((year : Int) - 1) / 100
        + ((year : Int) - 1) / 400 = C at hD x0 ⊢
    omega
  have hyd := monthLengths_sum (leapYear year) month (by omega) hm1 day hd31 hd1 hd2
  have hyd2 : ((monthLengths (leapYear year)).take (month - 1)).sum + day - 1
      < (if isLeap year then 366 else 365) := by
    rw [isLeap_leapYear]
    exact hyd
  have hyear := yearDay_civil year hy
    (((monthLengths (leapYear year)).take (month - 1)).sum + day - 1)
    (hour * 3600 + min * 60 + sec) hyd2 (by omega)
  have hmd := monthDay_inverse (leapYear year) month (by omega) hm1 day hd31 hd1 hd2
  have hclock := absClock_inverse
    (daysSinceEpoch year + (((monthLengths (leapYear year)).take (month - 1)).sum + day - 1))
    hour min sec hH hM hS
  simp only [Time.formatUTC, habs, absDate_eq, hyear, hclock, isLeap_leapYear, hmd,
    appendInt_four year (by omega), appendInt_two month (by omega),
    appendInt_two day (by omega), appendInt_two hour (by omega), appendInt_two min (by omega),
    appendInt_two sec (by omega), fourDigits, twoDigits]
  rfl

theorem parseFields_finish (layout : List Chunk) (value : String) (p : DateParts)
    (h : p.WellFormed) (hp : parseChunks layout {} value.toList = some p.fields) :
    parseFields layout value = some p.fields := by
  obtain ⟨_, hm1, hm2, hd1, hd2, _⟩ := h
  rw [← daysIn_eq p.month p.year hm1 hm2] at hd2
  unfold parseFields
  rw [hp]
  have a1 : ¬ ((p.month : Int) < 0) := by omega
  have a2 : ¬ ((p.day : Int) < 0) := by omega
  have a3 : ¬ ((p.day : Int) < 1) := by omega
  have a4 : ¬ ((p.day : Int) > ((daysIn p.month (p.year : Int) : Nat) : Int)) := by omega
  simp only [DateParts.fields, a1, a2, a3, a4, if_false, Int.toNat_ofNat, decide_False,
    Bool.or_self, Bool.false_eq_true]

theorem parseFields_render (p : DateParts) (h : p.WellFormed) :
    parseFields layoutRFC1123Z p.render = some p.fields := by
  apply parseFields_finish _ _ p h
  have hw : p.weekday < 7 := h.1
  have hd : p.day < 100 := by
    have h5 := h.2.2.2.2.1
    rw [← daysIn_eq p.month p.year h.2.1 h.2.2.1] at h5
    have := daysIn_le p.month p.year h.2.1 h.2.2.1
    omega
  have e : layoutRFC1123Z
      = .stdWeekDay :: .lit [',', ' '] :: .stdZeroDay :: .lit [' ']
          :: (layoutMiddle ++ [.stdNumTZ]) := by decide
  rw [e]
  show parseChunks _ {} (shortDayNames.getD p.weekday [] ++ (',' :: ' ' ::
    (twoDigits p.day ++ (' ' :: p.renderTail)))) = _
  rw [parseChunks_cons _ _ _ _ _ _ (parseChunk_weekDay _ _ hw _),
    parseChunks_cons _ _ _ _ _ _
      (parseChunk_commaSpace _ _ (startsNonSpace_twoDigits p.day hd _)),
    parseChunks_cons _ _ _ _ _ _ (parseChunk_zeroDay _ _ hd _),
    parseChunks_cons _ _ _ _ _ _
      (parseChunk_space _ p.renderTail (startsNonSpace_monthName (p.month - 1)
        (by have := h.2.2.1; omega) _)),
    parseChunks_tail _ p h]
  rfl

theorem parseFields_renderShortDay (p : DateParts) (h : p.WellFormed) (hd : p.day < 10) :
    parseFields layoutRFC1123Z p.renderShortDay = none ∧
    parseFields layoutRFC1123ZShortDay p.renderShortDay = some p.fields := by
  have hw : p.weekday < 7 := h.1
  have hs : ∀ rest : List Char, startsNonSpace (Char.ofNat (48 + p.day) :: rest) = true := by
    intro rest
    simp only [startsNonSpace, digit_not_space p.day hd]
  constructor
  · have e : layoutRFC1123Z
        = .stdWeekDay :: .lit [',', ' '] :: .stdZeroDay :: .lit [' ']
            :: (layoutMiddle ++ [.stdNumTZ]) := by decide
    unfold parseFields
    have : parseChunks layoutRFC1123Z {} p.renderShortDay.toList = none := by
      rw [e]
      show parseChunks _ {} (shortDayNames.getD p.weekday [] ++ (',' :: ' ' ::
        (Char.ofNat (48 + p.day) :: ' ' :: p.renderTail))) = _
      rw [parseChunks_cons _ _ _ _ _ _ (parseChunk_weekDay _ _ hw _),
        parseChunks_cons _ _ _ _ _ _ (parseChunk_commaSpace _ _ (hs _)),
        parseChunks_cons_none _ _ _ _ (parseChunk_day_short _ _ hd _).2]
    rw [this]
  · apply parseFields_finish _ _ p h
    have e : layoutRFC1123ZShortDay
        = .stdWeekDay :: .lit [',', ' '] :: .stdDay :: .lit [' ']
            :: (layoutMiddle ++ [.stdNumTZ]) := by decide
    rw [e]
    show parseChunks _ {} (shortDayNames.getD p.weekday [] ++ (',' :: ' ' ::
      (Char.ofNat (48 + p.day) :: ' ' :: p.renderTail))) = _
    rw [parseChunks_cons _ _ _ _ _ _ (parseChunk_weekDay _ _ hw _),
      parseChunks_cons _ _ _ _ _ _ (parseChunk_commaSpace _ _ (hs _)),
      parseChunks_cons _ _ _ _ _ _ (parseChunk_day_short _ _ hd _).1,
      parseChunks_cons _ _ _ _ _ _
        (parseChunk_space _ p.renderTail (startsNonSpace_monthName (p.month - 1)
          (by have := h.2.2.1; omega) _)),
      parseChunks_tail _ p h]
    rfl

theorem Date_parts (p : DateParts) (h : p.WellFormed) :
    (Date p.year p.month p.day p.hour p.min p.sec).unix = p.civilSeconds := by
  obtain ⟨_, hm1, hm2, hd1, hd2, hy, hH, hM, hS, _⟩ := h
  rw [← daysIn_eq p.month p.year hm1 hm2] at hd2
  have hd3 := daysIn_le p.month p.year hm1 hm2
  exact Date_civil p.year p.month p.day p.hour p.min p.sec hy hm1 hm2 hd1 (by omega) hH hM hS

theorem rssPubDate_render (env : Env) (p : DateParts) (h : p.WellFormed) :
    rssPubDate env p.render = p.instant := by
  have e := Parse_layoutRFC1123Z env.lookupName _ _ (parseFields_render p h)
  simp only [rssPubDate, e]
  show Time.mk ((Date p.year p.month p.day p.hour p.min p.sec).unix - p.offsetSeconds) = _
  rw [Date_parts p h]
  rfl

theorem rssPubDate_renderShortDay (env : Env) (p : DateParts) (h : p.WellFormed)
    (hd : p.day < 10) : rssPubDate env p.renderShortDay = p.instant := by
  obtain ⟨h1, h2⟩ := parseFields_renderShortDay p h hd
  have e1 := Parse_eq_none env.lookupName _ _ h1
  have e2 := Parse_layoutRFC1123ZShortDay env.lookupName _ _ h2
  simp only [rssPubDate, e1, e2]
  show Time.mk ((Date p.year p.month p.day p.hour p.min p.sec).unix - p.offsetSeconds) = _
  rw [Date_parts p h]
  rfl

theorem instant_inFourDigitYears (p : DateParts) (h : p.WellFormed) (hy1 : 1 ≤ p.year)
    (hy2 : p.year ≤ 9998) : p.instant.inFourDigitYears := by
  have hc := Date_parts p h
  obtain ⟨_, hm1, hm2, hd1, hd2, _, hH, hM, hS, hz1, hz2⟩ := h
  rw [← daysIn_eq p.month p.year hm1 hm2] at hd2
  have hd3 := daysIn_le p.month p.year hm1 hm2
  obtain ⟨b1, b2⟩ := Date_bounds p.year p.month p.day p.hour p.min p.sec hy1 hy2 hm1 hm2 hd1
    (by omega) hH hM hS
  unfold Time.inFourDigitYears DateParts.instant DateParts.offsetSeconds
  simp only
  rw [← hc]
  generalize (Date p.year p.month p.day p.hour p.min p.sec).unix = u at b1 b2
  clear hd2 hd3 hc
  split_ifs <;> constructor <;> push_cast <;> omega

/-- The text of the parts is what `Format` prints for their instant in
UTC. -/
theorem formatUTC_parts (q : DateParts) (h : q.WellFormed) :
    (Time.mk q.civilSeconds).formatUTC = q.timestamp := by
  obtain ⟨_, hm1, hm2, hd1, hd2, hy, hH, hM, hS, _⟩ := h
  exact formatUTC_civil q.year q.month q.day q.hour q.min q.sec hy hm1 hm2 hd1 hd2 hH hM hS

theorem rssPubDate_fallback (env : Env) (s : String)
    (h1 : parseFields layoutRFC1123Z s = none)
    (h2 : parseFields layoutRFC1123ZShortDay s = none)
    (h3 : parseFields layoutRFC1123 s = none) : rssPubDate env s = env.now := by
  simp only [rssPubDate, Parse_eq_none env.lookupName _ _ h1,
    Parse_eq_none env.lookupName _ _ h2, Parse_eq_none env.lookupName _ _ h3]

theorem youTubePubDate_fallback (env : Env) (s : String)
    (h : parseFields layoutYouTube s = none) : youTubePubDate env s = env.now := by
  simp only [youTubePubDate, Parse_eq_none env.lookupName _ _ h]

theorem rssPost_pubDate_render (env : Env) (item : RssItem) (p : DateParts)
    (h : p.WellFormed)
    (he : item.PubDate = p.render ∨ (p.day < 10 ∧ item.PubDate = p.renderShortDay)) :
    (rssPost env item).pubDate = p.instant.formatUTC := by
  show (rssPubDate env item.PubDate).formatUTC = p.instant.formatUTC
  rcases he with he | ⟨hd, he⟩
  · rw [he, rssPubDate_render env p h]
  · rw [he, rssPubDate_renderShortDay env p h hd]

theorem rssPost_pubDate_timestamp (env : Env) (item : RssItem) (p q : DateParts)
    (hp : p.WellFormed) (hq : q.WellFormed)
    (he : item.PubDate = p.render ∨ (p.day < 10 ∧ item.PubDate = p.renderShortDay))
    (hs : q.civilSeconds = p.civilSeconds - p.offsetSeconds) :
    (rssPost env item).pubDate = q.timestamp := by
  rw [rssPost_pubDate_render env item p hp he, ← formatUTC_parts q hq, hs]
  rfl

/-! ## C2: the form of the stored publish date -/

/-- C2 (as stated, refuted): the date `Fri, 31 Dec 9999 23:00:00 -0100` parses
under the first layout; in UTC it is the first instant of the year 10000, and
the pubDate stored is `10000-01-01 00:00:00`: twenty characters, a year of
five digits. -/
theorem updateSiteData_pubDate_five_digit_year :
    (updateSiteData sampleEnv lastHourFeed).site.posts.map (fun p => p.pubDate)
      = ["10000-01-01 00:00:00"] ∧
    "10000-01-01 00:00:00".length = 20 ∧
    isTimestamp "10000-01-01 00:00:00" = false := by
  refine ⟨by rfl, by decide, by decide⟩

/-- C2 (amended): in both dialects every post that `updateSiteData` appends
is built from an item or entry of the document, and its pubDate is a valid
timestamp of the exact form `YYYY-MM-DD HH:MM:SS` whenever the instant that is
stored for each date string of the dialect of the site (the parsed date, or
the clock when the string does not parse) lies in the years 0000 to 9999 of
the UTC calendar. The instant of a well-formed date of the pattern
`Mon, 02 Jan 2006 15:04:05 -0700`, or of its variant with a day of one digit,
lies in these years for every year from 0001 to 9998 and every zone; a string
that no layout parses is stored as the clock. -/
theorem updateSiteData_pubDate_timestamp (env : Env) (parsedFeed : SiteResponse)
    (hRss : parsedFeed.site.siteType ≠ "Anitube" →
      ∀ item ∈ parsedFeed.rssDoc.Channel.Items,
        (rssPubDate env item.PubDate).inFourDigitYears)
    (hYouTube : parsedFeed.site.siteType = "Anitube" →
      ∀ entry ∈ parsedFeed.youTubeFeed.Entries,
        (youTubePubDate env entry.Published).inFourDigitYears) :
    (∀ p ∈ (updateSiteData env parsedFeed).site.posts,
      p ∈ parsedFeed.site.posts ∨
      (((∃ item ∈ parsedFeed.rssDoc.Channel.Items, p = rssPost env item) ∨
        (∃ entry ∈ parsedFeed.youTubeFeed.Entries, p = youTubePost env entry)) ∧
       isTimestamp p.pubDate = true)) ∧
    (∀ d : DateParts, d.WellFormed → 1 ≤ d.year → d.year ≤ 9998 →
      (rssPubDate env d.render).inFourDigitYears ∧
      (d.day < 10 → (rssPubDate env d.renderShortDay).inFourDigitYears)) ∧
    (∀ s, parseFields layoutRFC1123Z s = none →
      parseFields layoutRFC1123ZShortDay s = none →
      parseFields layoutRFC1123 s = none → rssPubDate env s = env.now) ∧
    (∀ s, parseFields layoutYouTube s = none → youTubePubDate env s = env.now) := by
  refine ⟨?_, ?_, rssPubDate_fallback env, youTubePubDate_fallback env⟩
  · intro p hp
    by_cases hType : parsedFeed.site.siteType = "Anitube"
    · rw [updateSiteData_youTube_posts env parsedFeed hType] at hp
      rcases List.mem_append.mp hp with h | h
      · exact Or.inl h
      · obtain ⟨entry, he, rfl⟩ := List.mem_map.mp h
        exact Or.inr ⟨Or.inr ⟨entry, he, rfl⟩,
          formatUTC_isTimestamp _ (hYouTube hType entry he)⟩
    · rw [rss_posts_appended env parsedFeed hType] at hp
      rcases List.mem_append.mp hp with h | h
      · exact Or.inl h
      · obtain ⟨item, hi, rfl⟩ := List.mem_map.mp h
        have hi' := (List.mem_filter.mp hi).1
        exact Or.inr ⟨Or.inl ⟨item, hi', rfl⟩,
          formatUTC_isTimestamp _ (hRss hType item hi')⟩
  · intro d hd hy1 hy2
    constructor
    · rw [rssPubDate_render env d hd]
      exact instant_inFourDigitYears d hd hy1 hy2
    · intro hs
      rw [rssPubDate_renderShortDay env d hd hs]
      exact instant_inFourDigitYears d hd hy1 hy2

/-- C2, at `centuriesFeed`: dates of the years 2006, 2300 and 9999, a named
zone and a string that is no date. -/
theorem updateSiteData_pubDate_timestamp_witness :
    (∀ item ∈ centuriesFeed.rssDoc.Channel.Items,
      (rssPubDate sampleEnv item.PubDate).inFourDigitYears) ∧
    (updateSiteData sampleEnv centuriesFeed).site.posts.map (fun p => p.pubDate)
      = ["2006-01-02 15:04:05", "2300-01-01 12:00:00", "9999-12-31 23:00:00",
         "1970-01-01 00:00:00", "2006-01-02 15:04:05"] ∧
    (updateSiteData sampleEnv videoFeed).site.posts.map (fun p => p.pubDate)
      = ["2300-06-15 06:30:00", "1970-01-01 00:00:00"] ∧
    ∀ p ∈ (updateSiteData sampleEnv centuriesFeed).site.posts,
      p ∈ centuriesFeed.site.posts ∨
      (((∃ item ∈ centuriesFeed.rssDoc.Channel.Items, p = rssPost sampleEnv item) ∨
        (∃ entry ∈ centuriesFeed.youTubeFeed.Entries, p = youTubePost sampleEnv entry)) ∧
       isTimestamp p.pubDate = true) :=
  ⟨by decide, by rfl, by rfl,
   (updateSiteData_pubDate_timestamp sampleEnv centuriesFeed (fun _ => by decide)
      (fun h => absurd h (by decide))).1⟩

/-! ## C3: the publish date of the syndication dialect -/

/-- C3 (as stated, refuted): the date `Sat, 01 Jan 0000 00:00:00 +0100`
matches the offset-numeric pattern; with the offset subtracted it is the last
hour of the year before the year 0000, and the pubDate stored is
`-0001-12-31 23:00:00`: twenty characters, a year with a sign, not of the form
`YYYY-MM-DD HH:MM:SS`. -/
theorem updateSiteData_pubDate_year_before_zero :
    (updateSiteData sampleEnv firstHourFeed).site.posts.map (fun p => p.pubDate)
      = ["-0001-12-31 23:00:00"] ∧
    "-0001-12-31 23:00:00".length = 20 ∧
    isTimestamp "-0001-12-31 23:00:00" = false := by
  refine ⟨by rfl, by decide, by decide⟩

/-- C3 (amended): a kept item of a syndication-dialect document is stored as
the post `rssPost` builds. When its date string is a well-formed date written
in the pattern `Mon, 02 Jan 2006 15:04:05 -0700`, or with a day of one digit in
the pattern `Mon, 2 Jan 2006 15:04:05 -0700`, the pubDate is the instant of
that date and time of day with the numeric offset subtracted, printed in UTC:
it is the text `YYYY-MM-DD HH:MM:SS` of the date and time of day in the years
0000 to 9999 that lies as many seconds after 1 January 1970 as the date of
the item less its offset, when there is one, and there is one for every year
from 0001 to 9998. The three layouts
are tried in the order `Mon, 02 Jan 2006 15:04:05 -0700`,
`Mon, 2 Jan 2006 15:04:05 -0700`, `Mon, 02 Jan 2006 15:04:05 MST`, and the
first that parses decides the pubDate; when all three fail it is the clock.
The date `Mon, 02 Jan 2006 15:04:05 +0000` is stored as `2006-01-02 15:04:05`,
the date `Mon, 02 Jan 2006 15:04:05 -0700` as `2006-01-02 22:04:05`, the date
`Mon, 2 Jan 2006 15:04:05 +0530` as `2006-01-02 09:34:05`, and the date
`Sun, 31 Dec 2006 23:30:00 -0100` as `2007-01-01 00:30:00`. -/
theorem updateSiteData_rss_pubDate (env : Env) (parsedFeed : SiteResponse) (item : RssItem)
    (hType : parsedFeed.site.siteType ≠ "Anitube")
    (hItem : item ∈ parsedFeed.rssDoc.Channel.Items)
    (hTitle : goLen item.Title ≤ 150) :
    rssPost env item ∈ (updateSiteData env parsedFeed).site.posts ∧
    (∀ p : DateParts, p.WellFormed →
      (item.PubDate = p.render ∨ (p.day < 10 ∧ item.PubDate = p.renderShortDay)) →
      (rssPost env item).pubDate = p.instant.formatUTC ∧
      (p.instant.inFourDigitYears → isTimestamp (rssPost env item).pubDate = true) ∧
      (1 ≤ p.year → p.year ≤ 9998 → isTimestamp (rssPost env item).pubDate = true)) ∧
    (∀ p q : DateParts, p.WellFormed → q.WellFormed →
      (item.PubDate = p.render ∨ (p.day < 10 ∧ item.PubDate = p.renderShortDay)) →
      q.civilSeconds = p.civilSeconds - p.offsetSeconds →
      (rssPost env item).pubDate = q.timestamp) ∧
    (∀ f, parseFields layoutRFC1123Z item.PubDate = some f →
      (rssPost env item).pubDate
        = (Time.mk ((Date f.year f.month f.day f.hour f.min f.sec).unix
            - f.zoneOffset)).formatUTC) ∧
    (∀ f, parseFields layoutRFC1123Z item.PubDate = none →
      parseFields layoutRFC1123ZShortDay item.PubDate = some f →
      (rssPost env item).pubDate
        = (Time.mk ((Date f.year f.month f.day f.hour f.min f.sec).unix
            - f.zoneOffset)).formatUTC) ∧
    (∀ t, parseFields layoutRFC1123Z item.PubDate = none →
      parseFields layoutRFC1123ZShortDay item.PubDate = none →
      Parse env.lookupName layoutRFC1123 item.PubDate = some t →
      (rssPost env item).pubDate = t.formatUTC) ∧
    (parseFields layoutRFC1123Z item.PubDate = none →
      parseFields layoutRFC1123ZShortDay item.PubDate = none →
      parseFields layoutRFC1123 item.PubDate = none →
      (rssPost env item).pubDate = env.now.formatUTC) ∧
    ((rssPubDate env item.PubDate).inFourDigitYears →
      isTimestamp (rssPost env item).pubDate = true) ∧
    (rssPost env { item with PubDate := "Mon, 02 Jan 2006 15:04:05 +0000" }).pubDate
      = "2006-01-02 15:04:05" ∧
    (rssPost env { item with PubDate := "Mon, 02 Jan 2006 15:04:05 -0700" }).pubDate
      = "2006-01-02 22:04:05" ∧
    (rssPost env { item with PubDate := "Mon, 2 Jan 2006 15:04:05 +0530" }).pubDate
      = "2006-01-02 09:34:05" ∧
    (rssPost env { item with PubDate := "Sun, 31 Dec 2006 23:30:00 -0100" }).pubDate
      = "2007-01-01 00:30:00" := by
  refine ⟨?_, ?_, ?_, ?_, ?_, ?_, ?_, ?_, ?_, ?_, ?_, ?_⟩
  · rw [rss_posts_appended env parsedFeed hType]
    apply List.mem_append_right
    apply List.mem_map_of_mem
    exact List.mem_filter.mpr ⟨hItem, by simpa using hTitle⟩
  · intro p hp he
    have e := rssPost_pubDate_render env item p hp he
    refine ⟨e, ?_, ?_⟩
    · intro hr
      rw [e]
      exact formatUTC_isTimestamp _ hr
    · intro hy1 hy2
      rw [e]
      exact formatUTC_isTimestamp _ (instant_inFourDigitYears p hp hy1 hy2)
  · intro p q hp hq he hs
    exact rssPost_pubDate_timestamp env item p q hp hq he hs
  · intro f h
    simp [rssPost, rssPubDate, Parse_layoutRFC1123Z env.lookupName _ f h]
  · intro f h1 h2
    simp [rssPost, rssPubDate, Parse_eq_none env.lookupName _ _ h1,
      Parse_layoutRFC1123ZShortDay env.lookupName _ f h2]
  · intro t h1 h2 h3
    simp [rssPost, rssPubDate, Parse_eq_none env.lookupName _ _ h1,
      Parse_eq_none env.lookupName _ _ h2, h3]
  · intro h1 h2 h3
    simp [rssPost, rssPubDate, Parse_eq_none env.lookupName _ _ h1,
      Parse_eq_none env.lookupName _ _ h2, Parse_eq_none env.lookupName _ _ h3]
  · intro hr
    exact formatUTC_isTimestamp _ hr
  · exact (rssPost_pubDate_render env _ ⟨1, 2, 1, 2006, 15, 4, 5, true, 0, 0⟩ (by decide)
      (Or.inl (by rfl))).trans (by rfl)
  · exact (rssPost_pubDate_render env _ ⟨1, 2, 1, 2006, 15, 4, 5, false, 7, 0⟩ (by decide)
      (Or.inl (by rfl))).trans (by rfl)
  · exact (rssPost_pubDate_render env _ ⟨1, 2, 1, 2006, 15, 4, 5, true, 5, 30⟩ (by decide)
      (Or.inr ⟨by decide, by rfl⟩)).trans (by rfl)
  · exact (rssPost_pubDate_render env _ ⟨0, 31, 12, 2006, 23, 30, 0, false, 1, 0⟩ (by decide)
      (Or.inl (by rfl))).trans (by rfl)

/-- C3, at the scenario of the specification and at a date with a day of one
digit and a zone of five and a half hours; a named zone is read through the
zone table of the local location, and a zone of the form `GMT+3` leaves the
time of day as it is written. -/
theorem updateSiteData_rss_pubDate_witness :
    halfPastParts.WellFormed ∧
    halfPastItem.PubDate = halfPastParts.renderShortDay ∧
    (rssPost sampleEnv halfPastItem).pubDate = halfPastParts.instant.formatUTC ∧
    halfPastParts.instant.formatUTC = "2006-01-02 09:34:05" ∧
    halfPastUtcParts.WellFormed ∧
    halfPastUtcParts.civilSeconds
      = halfPastParts.civilSeconds - halfPastParts.offsetSeconds ∧
    halfPastUtcParts.timestamp = "2006-01-02 09:34:05" ∧
    (updateSiteData sampleEnv halfPastFeed).site.posts.map (fun p => (p.link, p.pubDate))
      = [("http://x/4", "2006-01-02 09:34:05")] ∧
    (updateSiteData sampleEnv pilotFeed).site.posts.map (fun p => (p.link, p.pubDate))
      = [("http://x/1", "2006-01-02 15:04:05")] ∧
    (rssPost zoneEnv { pilotItem with PubDate := "Mon, 02 Jan 2006 15:04:05 PST" }).pubDate
      = "2006-01-02 23:04:05" ∧
    (rssPost sampleEnv { pilotItem with PubDate := "Mon, 02 Jan 2006 15:04:05 PST" }).pubDate
      = "2006-01-02 15:04:05" ∧
    (rssPost sampleEnv { pilotItem with PubDate := "Mon, 02 Jan 2006 15:04:05 GMT+3" }).pubDate
      = "2006-01-02 15:04:05" :=
  ⟨by decide, by rfl,
   ((updateSiteData_rss_pubDate sampleEnv halfPastFeed halfPastItem (by decide) (by decide)
      (by decide)).2.1 halfPastParts (by decide) (Or.inr ⟨by decide, by rfl⟩)).1,
   by rfl, by decide, by rfl, by rfl, by rfl, by rfl, by rfl, by rfl, by rfl⟩

/-! ## C5: the ids that `matchMediaToPost` records -/

theorem stringsIndexFrom_nonneg (substr s : List Char) (i : Int) (hi : 0 ≤ i) :
    0 ≤ stringsIndexFrom substr s i ↔ substr <:+: s := by
  induction s generalizing i with
  | nil =>
    simp only [stringsIndexFrom]
    by_cases h : substr.isPrefixOf [] = true
    · simp only [h, if_true, hi, true_iff]
      exact (List.isPrefixOf_iff_prefix.mp h).isInfix
    · simp only [h, Bool.false_eq_true, if_false]
      constructor
      · intro h'; simp at h'
      · intro h'
        exfalso; apply h
        have : substr = [] := List.eq_nil_of_infix_nil h'
        subst this; rfl
  | cons c s ih =>
    simp only [stringsIndexFrom]
    by_cases h : substr.isPrefixOf (c :: s) = true
    · simp only [h, if_true, hi, true_iff]
      exact (List.isPrefixOf_iff_prefix.mp h).isInfix
    · simp only [h, Bool.false_eq_true, if_false]
      rw [ih (i + 1) (by omega), List.infix_cons_iff]
      constructor
      · intro h'; exact Or.inr h'
      · rintro (h' | h')
        · exact absurd (List.isPrefixOf_iff_prefix.mpr h') h
        · exact h'

theorem stringsContains_iff (s substr : String) :
    stringsContains s substr = true ↔ IsSubstring substr s := by
  simp only [stringsContains, IsSubstring, decide_eq_true_eq, ge_iff_le]
  exact stringsIndexFrom_nonneg _ _ 0 (le_refl 0)

theorem mapKeys_mapSet (m : MediaMap) (k : Int) (v : String) :
    mapKeys (mapSet m k v) = if k ∈ mapKeys m then mapKeys m else mapKeys m ++ [k] := by
  induction m with
  | nil => simp [mapSet, mapKeys]
  | cons e rest ih =>
    obtain ⟨k', v'⟩ := e
    simp only [mapSet]
    by_cases h : k' = k
    · subst h; simp [mapKeys]
    · have h' : ¬ k = k' := fun e => h e.symm
      simp only [h, if_false]
      simp only [mapKeys] at ih ⊢
      simp only [List.map_cons, ih, List.mem_cons, h', false_or]
      split_ifs <;> simp

theorem mem_mapKeys_mapSet (m : MediaMap) (k : Int) (v : String) (id : Int) :
    id ∈ mapKeys (mapSet m k v) ↔ id ∈ mapKeys m ∨ id = k := by
  rw [mapKeys_mapSet]
  split_ifs with h
  · constructor
    · exact Or.inl
    · rintro (h' | rfl)
      · exact h'
      · exact h
  · simp

theorem nodup_mapKeys_mapSet (m : MediaMap) (k : Int) (v : String) (h : (mapKeys m).Nodup) :
    (mapKeys (mapSet m k v)).Nodup := by
  rw [mapKeys_mapSet]
  split_ifs with hk
  · exact h
  · exact List.Nodup.append h (List.nodup_singleton k) (by simpa using hk)

theorem matchInner_eq (mediaItem : MediaItem) (strings : List String) (c : MediaMatched) :
    strings.foldl
        (fun container postString =>
          if stringsContains postString mediaItem.Title then
            { container with
              MediaItems := mapSet container.MediaItems mediaItem.MediaID mediaItem.Title }
          else container)
        c
      = { c with
          MediaItems := strings.foldl
            (fun m postString =>
              if stringsContains postString mediaItem.Title then
                mapSet m mediaItem.MediaID mediaItem.Title
              else m)
            c.MediaItems } := by
  induction strings generalizing c with
  | nil => rfl
  | cons s ss ih =>
    simp only [List.foldl_cons]
    rw [ih]
    split_ifs <;> rfl

theorem matchOuter_eq (mediaTitles : List MediaItem) (strings : List String)
    (c : MediaMatched) :
    mediaTitles.foldl
        (fun container mediaItem =>
          strings.foldl
            (fun container postString =>
              if stringsContains postString mediaItem.Title then
                { container with
                  MediaItems := mapSet container.MediaItems mediaItem.MediaID mediaItem.Title }
              else container)
            container)
        c
      = { c with MediaItems := matchItems mediaTitles strings c.MediaItems } := by
  induction mediaTitles generalizing c with
  | nil => rfl
  | cons item items ih =>
    simp only [List.foldl_cons, matchItems]
    rw [matchInner_eq, ih]
    rfl

theorem matchMediaToPost_eq (mediaTitles : List MediaItem) (c : MediaMatched) :
    matchMediaToPost mediaTitles c
      = { c with MediaItems := matchItems mediaTitles (postStrings c.Post) c.MediaItems } := by
  unfold matchMediaToPost
  exact matchOuter_eq mediaTitles (postStrings c.Post) c

theorem matchInner_keys (mediaItem : MediaItem) (strings : List String) (m : MediaMap) :
    (∀ id, id ∈ mapKeys (strings.foldl
        (fun m postString =>
          if stringsContains postString mediaItem.Title then
            mapSet m mediaItem.MediaID mediaItem.Title
          else m) m)
      ↔ id ∈ mapKeys m ∨
        (id = mediaItem.MediaID ∧ ∃ s ∈ strings, stringsContains s mediaItem.Title = true)) ∧
    ((mapKeys m).Nodup → (mapKeys (strings.foldl
        (fun m postString =>
          if stringsContains postString mediaItem.Title then
            mapSet m mediaItem.MediaID mediaItem.Title
          else m) m)).Nodup) := by
  induction strings generalizing m with
  | nil => simp
  | cons s ss ih =>
    simp only [List.foldl_cons]
    by_cases h : stringsContains s mediaItem.Title = true
    · simp only [h, if_true]
      obtain ⟨ih1, ih2⟩ := ih (mapSet m mediaItem.MediaID mediaItem.Title)
      refine ⟨?_, fun hn => ih2 (nodup_mapKeys_mapSet _ _ _ hn)⟩
      intro id
      rw [ih1, mem_mapKeys_mapSet]
      constructor
      · rintro ((h1 | h1) | ⟨h1, _⟩)
        · exact Or.inl h1
        · exact Or.inr ⟨h1, s, List.mem_cons_self _ _, h⟩
        · exact Or.inr ⟨h1, s, List.mem_cons_self _ _, h⟩
      · rintro (h1 | ⟨h1, _⟩)
        · exact Or.inl (Or.inl h1)
        · exact Or.inl (Or.inr h1)
    · simp only [h, Bool.false_eq_true, if_false]
      obtain ⟨ih1, ih2⟩ := ih m
      refine ⟨?_, ih2⟩
      intro id
      rw [ih1]
      constructor
      · rintro (h1 | ⟨h1, t, ht, hc⟩)
        · exact Or.inl h1
        · exact Or.inr ⟨h1, t, List.mem_cons_of_mem _ ht, hc⟩
      · rintro (h1 | ⟨h1, t, ht, hc⟩)
        · exact Or.inl h1
        · rcases List.mem_cons.mp ht with rfl | ht
          · exact absurd hc h
          · exact Or.inr ⟨h1, t, ht, hc⟩

theorem matchItems_keys (mediaTitles : List MediaItem) (strings : List String) (m : MediaMap) :
    (∀ id, id ∈ mapKeys (matchItems mediaTitles strings m)
      ↔ id ∈ mapKeys m ∨
        ∃ item ∈ mediaTitles, item.MediaID = id ∧
          ∃ s ∈ strings, stringsContains s item.Title = true) ∧
    ((mapKeys m).Nodup → (mapKeys (matchItems mediaTitles strings m)).Nodup) := by
  induction mediaTitles generalizing m with
  | nil => simp [matchItems]
  | cons item items ih =>
    simp only [matchItems, List.foldl_cons]
    obtain ⟨in1, in2⟩ := matchInner_keys item strings m
    obtain ⟨ih1, ih2⟩ := ih (strings.foldl
        (fun m postString =>
          if stringsContains postString item.Title then mapSet m item.MediaID item.Title
          else m) m)
    simp only [matchItems] at ih1 ih2
    refine ⟨?_, fun hn => ih2 (in2 hn)⟩
    intro id
    rw [ih1, in1]
    constructor
    · rintro ((h1 | ⟨h1, hs⟩) | ⟨it, hit, h2⟩)
      · exact Or.inl h1
      · exact Or.inr ⟨item, List.mem_cons_self _ _, h1.symm, hs⟩
      · exact Or.inr ⟨it, List.mem_cons_of_mem _ hit, h2⟩
    · rintro (h1 | ⟨it, hit, h2, hs⟩)
      · exact Or.inl (Or.inl h1)
      · rcases List.mem_cons.mp hit with rfl | hit
        · exact Or.inl (Or.inr ⟨h2.symm, hs⟩)
        · exact Or.inr ⟨it, hit, h2, hs⟩

/-- C5: from the empty map that `associateWithMedia` hands over, the keys
of the map that `matchMediaToPost` returns are exactly the ids of the catalog
items whose title occurs, character for character, in the title of the post,
in its description or in one of its categories; no id is recorded twice; the
content body has no influence; position and post are returned as received. -/
theorem matchMediaToPost_ids (mediaTitles : List MediaItem) (container : MediaMatched)
    (hEmpty : container.MediaItems = []) :
    (∀ id, id ∈ mapKeys (matchMediaToPost mediaTitles container).MediaItems ↔
      ∃ item ∈ mediaTitles, item.MediaID = id ∧
        (IsSubstring item.Title container.Post.postTitle ∨
         IsSubstring item.Title container.Post.description ∨
         ∃ category ∈ container.Post.categories, IsSubstring item.Title category)) ∧
    (mapKeys (matchMediaToPost mediaTitles container).MediaItems).Nodup ∧
    (∀ content : String,
      (matchMediaToPost mediaTitles
        { container with Post := { container.Post with content := content } }).MediaItems
        = (matchMediaToPost mediaTitles container).MediaItems) ∧
    (matchMediaToPost mediaTitles container).SiteKey = container.SiteKey ∧
    (matchMediaToPost mediaTitles container).PostKey = container.PostKey ∧
    (matchMediaToPost mediaTitles container).Post = container.Post := by
  obtain ⟨hk, hn⟩ := matchItems_keys mediaTitles (postStrings container.Post) []
  refine ⟨?_, ?_, ?_, ?_, ?_, ?_⟩
  · intro id
    rw [matchMediaToPost_eq, hEmpty]
    simp only []
    rw [hk]
    simp only [mapKeys, List.map_nil, List.not_mem_nil, false_or, postStrings,
      stringsContains_iff]
    constructor
    · rintro ⟨item, hi, he, s, hs, hc⟩
      refine ⟨item, hi, he, ?_⟩
      simp only [List.cons_append, List.nil_append, List.mem_cons] at hs
      rcases hs with rfl | rfl | hs
      · exact Or.inl hc
      · exact Or.inr (Or.inl hc)
      · exact Or.inr (Or.inr ⟨s, hs, hc⟩)
    · rintro ⟨item, hi, he, hc⟩
      refine ⟨item, hi, he, ?_⟩
      rcases hc with hc | hc | ⟨c, hcm, hc⟩
      · exact ⟨_, by simp, hc⟩
      · exact ⟨_, by simp, hc⟩
      · exact ⟨c, by simp [hcm], hc⟩
  · rw [matchMediaToPost_eq, hEmpty]
    exact hn (by simp [mapKeys])
  · intro content
    rw [matchMediaToPost_eq, matchMediaToPost_eq]
    rfl
  · rw [matchMediaToPost_eq]
  · rw [matchMediaToPost_eq]
  · rw [matchMediaToPost_eq]

/-- C5, at the scenario of the specification: id 7 is recorded, alone. -/
theorem matchMediaToPost_ids_witness :
    alphaContainer.MediaItems = [] ∧
    mapKeys (matchMediaToPost alphaCatalog alphaContainer).MediaItems = [7] ∧
    (7 ∈ mapKeys (matchMediaToPost alphaCatalog alphaContainer).MediaItems ↔
      ∃ item ∈ alphaCatalog, item.MediaID = 7 ∧
        (IsSubstring item.Title alphaContainer.Post.postTitle ∨
         IsSubstring item.Title alphaContainer.Post.description ∨
         ∃ category ∈ alphaContainer.Post.categories, IsSubstring item.Title category)) :=
  ⟨rfl, by decide, (matchMediaToPost_ids alphaCatalog alphaContainer rfl).1 7⟩

/-! ## The store: what each function does to the post rows -/

theorem call_posts (db : Db) : db.call.2.posts = db.posts := by
  unfold Db.call; split <;> rfl

theorem call_tags (db : Db) : db.call.2.tags = db.tags := by
  unfold Db.call; split <;> rfl

theorem call_nextTagId (db : Db) : db.call.2.nextTagId = db.nextTagId := by
  unfold Db.call; split <;> rfl

theorem call_noFaults (db : Db) (h : NoFaults db) :
    db.call.1 = false ∧ NoFaults db.call.2 := by
  unfold Db.call
  split
  · exact ⟨rfl, h⟩
  · rename_i failed rest hf
    refine ⟨h failed (by simp [hf]), ?_⟩
    intro b hb
    exact h b (by simp only [hf]; exact List.mem_cons_of_mem _ hb)

theorem resolveTag_posts (db : Db) (t : String) : (resolveTag db t).1.posts = db.posts := by
  unfold resolveTag
  simp only []
  split_ifs <;> simp [call_posts]

theorem resolveTag_noFaults (db : Db) (t : String) (h : NoFaults db) :
    NoFaults (resolveTag db t).1 := by
  unfold resolveTag
  simp only []
  have h1 := call_noFaults db h
  have h2 := call_noFaults _ h1.2
  have h3 := call_noFaults _ h2.2
  split_ifs
  · exact h1.2
  · exact h2.2
  · exact h3.2
  · have h4 := call_noFaults
      { db.call.2.call.2.call.2 with
        tags := db.call.2.call.2.call.2.tags ++ [(⟨db.call.2.call.2.call.2.nextTagId, t⟩ : TagRow)]
        nextTagId := db.call.2.call.2.call.2.nextTagId + 1 } h3.2
    exact h4.2
  · have h4 := call_noFaults
      { db.call.2.call.2.call.2 with
        tags := db.call.2.call.2.call.2.tags ++ [(⟨db.call.2.call.2.call.2.nextTagId, t⟩ : TagRow)]
        nextTagId := db.call.2.call.2.call.2.nextTagId + 1 } h3.2
    exact h4.2
  · exact h1.2

theorem insertPostTagsLoop_posts (table : Char → Char) (postId : Int) (cats : List String)
    (db : Db) : (insertPostTagsLoop table postId cats db).posts = db.posts := by
  induction cats generalizing db with
  | nil => rfl
  | cons c rest ih =>
    unfold insertPostTagsLoop
    have hr := resolveTag_posts db (lowerTag table c)
    rcases hres : resolveTag db (lowerTag table c) with ⟨db1, _ | tagId⟩
    · rw [hres] at hr; exact hr
    · rw [hres] at hr
      simp only [] at hr ⊢
      split_ifs
      · rw [call_posts, hr]
      · rw [call_posts, call_posts, hr]
      · rw [ih]; simp only [call_posts, hr]

theorem insertPostTagsLoop_noFaults (table : Char → Char) (postId : Int) (cats : List String)
    (db : Db) (h : NoFaults db) : NoFaults (insertPostTagsLoop table postId cats db) := by
  induction cats generalizing db with
  | nil => exact h
  | cons c rest ih =>
    unfold insertPostTagsLoop
    have hr := resolveTag_noFaults db (lowerTag table c) h
    rcases hres : resolveTag db (lowerTag table c) with ⟨db1, _ | tagId⟩
    · rw [hres] at hr; exact hr
    · rw [hres] at hr
      simp only [] at hr ⊢
      have h1 := call_noFaults db1 hr
      have h2 := call_noFaults _ h1.2
      split_ifs
      · exact h1.2
      · exact h2.2
      · apply ih
        exact h2.2

theorem insertMediaRelations_posts (postId : Int) (ids : List Int) (db : Db) :
    (insertMediaRelations db postId ids).posts = db.posts := by
  induction ids generalizing db with
  | nil => rfl
  | cons i rest ih =>
    unfold insertMediaRelations
    simp only []
    split_ifs
    · rw [call_posts]
    · rw [call_posts, call_posts]
    · rw [ih]; simp only [call_posts]

theorem insertMediaRelations_noFaults (postId : Int) (ids : List Int) (db : Db)
    (h : NoFaults db) : NoFaults (insertMediaRelations db postId ids) := by
  induction ids generalizing db with
  | nil => exact h
  | cons i rest ih =>
    unfold insertMediaRelations
    simp only []
    have h1 := call_noFaults db h
    have h2 := call_noFaults _ h1.2
    split_ifs
    · exact h1.2
    · exact h2.2
    · apply ih
      exact h2.2

theorem insertPostTags_posts (table : Char → Char) (db : Db) (post : Post) (postId : Int) :
    (insertPostTags table db post postId).posts = db.posts := by
  unfold insertPostTags
  split_ifs
  · exact insertPostTagsLoop_posts _ _ _ _
  · rfl

theorem insertPostTags_noFaults (table : Char → Char) (db : Db) (post : Post) (postId : Int)
    (h : NoFaults db) : NoFaults (insertPostTags table db post postId) := by
  unfold insertPostTags
  split_ifs
  · exact insertPostTagsLoop_noFaults _ _ _ _ h
  · exact h

theorem alreadyInsertdPost_eq (db : Db) (post : Post) :
    alreadyInsertdPost db post
      = (if db.call.1 = true then -1 else (linkCount db post.link : Int), db.call.2) := by
  unfold alreadyInsertdPost linkCount
  simp only [call_posts]
  split_ifs <;> rfl

theorem insertSitePost_eq (table : Char → Char) (db : Db) (post : Post)
    (response : SiteResponse) :
    insertSitePost table db post response =
      if db.call.1 = true then db.call.2
      else if linkCount db post.link ≠ 0 then db.call.2
      else if db.call.2.call.1 = true then db.call.2.call.2
      else if db.call.2.call.2.call.1 = true then db.call.2.call.2.call.2
      else if (withPostRow db.call.2.call.2.call.2 post response).call.1 = true then
        (withPostRow db.call.2.call.2.call.2 post response).call.2
      else
        insertMediaRelations
          (insertPostTags table (withPostRow db.call.2.call.2.call.2 post response).call.2 post
            db.call.2.call.2.call.2.nextPostId)
          db.call.2.call.2.call.2.nextPostId post.MediaIds := by
  unfold insertSitePost
  rw [alreadyInsertdPost_eq]
  simp only [withPostRow]
  by_cases hf : db.call.1 = true
  · simp [hf]
  · simp only [hf, if_false]
    by_cases hc : linkCount db post.link = 0
    · simp [hc]
    · have : ¬ ((linkCount db post.link : Int) == 0) = true := by
        simp only [beq_iff_eq]; exact_mod_cast hc
      simp [this, hc]

theorem withPostRow_posts (db : Db) (post : Post) (response : SiteResponse) :
    ∃ row : PostRow, row.link = post.link ∧
      (withPostRow db post response).posts = db.posts ++ [row] :=
  ⟨_, rfl, rfl⟩

/-- What `insertSitePost` does to the post rows: nothing, or, when the
query succeeds and no row has the link of the post, one row with that link
at the end. -/
theorem insertSitePost_posts (table : Char → Char) (db : Db) (post : Post)
    (response : SiteResponse) :
    (insertSitePost table db post response).posts = db.posts ∨
    (linkCount db post.link = 0 ∧ db.call.1 = false ∧
      ∃ row : PostRow, row.link = post.link ∧
        (insertSitePost table db post response).posts = db.posts ++ [row]) := by
  rw [insertSitePost_eq]
  obtain ⟨row, hrow, hposts⟩ := withPostRow_posts db.call.2.call.2.call.2 post response
  simp only [call_posts] at hposts
  split_ifs with h1 h2 h3 h4 h5
  · left; simp only [call_posts]
  · left; simp only [call_posts]
  · left; simp only [call_posts]
  · left; simp only [call_posts]
  · right
    refine ⟨by simpa using h2, by simpa using h1, row, hrow, ?_⟩
    rw [call_posts, hposts]
  · right
    refine ⟨by simpa using h2, by simpa using h1, row, hrow, ?_⟩
    rw [insertMediaRelations_posts, insertPostTags_posts, call_posts, hposts]

/-- With no failing call, `insertSitePost` leaves a row with the link of the
post, and no failing call to come. -/
theorem insertSitePost_noFaults (table : Char → Char) (db : Db) (post : Post)
    (response : SiteResponse) (h : NoFaults db) :
    NoFaults (insertSitePost table db post response) ∧
    ∃ row ∈ (insertSitePost table db post response).posts, row.link = post.link := by
  have h1 := call_noFaults db h
  have h2 := call_noFaults _ h1.2
  have h3 := call_noFaults _ h2.2
  have h4 := call_noFaults (withPostRow db.call.2.call.2.call.2 post response) h3.2
  obtain ⟨row, hrow, hposts⟩ := withPostRow_posts db.call.2.call.2.call.2 post response
  rw [insertSitePost_eq]
  simp only [h1.1, h2.1, h3.1, h4.1, Bool.false_eq_true, if_false]
  split_ifs with hc
  · refine ⟨h1.2, ?_⟩
    rw [call_posts]
    unfold linkCount at hc
    obtain ⟨r, hr⟩ := List.exists_mem_of_length_pos (Nat.pos_of_ne_zero hc)
    rw [List.mem_filter] at hr
    exact ⟨r, hr.1, by simpa using hr.2⟩
  · refine ⟨insertMediaRelations_noFaults _ _ _ (insertPostTags_noFaults _ _ _ _ h4.2), ?_⟩
    rw [insertMediaRelations_posts, insertPostTags_posts, call_posts, hposts]
    exact ⟨row, by simp, hrow⟩


theorem linkCount_eq_zero (db : Db) (link : String) (h : linkCount db link = 0) :
    link ∉ db.posts.map (fun row => row.link) := by
  unfold linkCount at h
  intro hm
  obtain ⟨row, hrow, hl⟩ := List.mem_map.mp hm
  have : row ∈ db.posts.filter (fun row => row.link == link) :=
    List.mem_filter.mpr ⟨hrow, by simpa using hl⟩
  rw [List.length_eq_zero.mp h] at this
  exact List.not_mem_nil _ this

theorem insertSitePost_nodup (table : Char → Char) (db : Db) (post : Post)
    (response : SiteResponse) (h : (db.posts.map (fun row => row.link)).Nodup) :
    ((insertSitePost table db post response).posts.map (fun row => row.link)).Nodup := by
  rcases insertSitePost_posts table db post response with he | ⟨hc, _, row, hrow, he⟩
  · rw [he]; exact h
  · rw [he, List.map_append, List.map_singleton, hrow]
    refine List.Nodup.append h (List.nodup_singleton _) ?_
    simpa using linkCount_eq_zero db post.link hc

theorem foldl_insertSitePost_nodup (table : Char → Char) (response : SiteResponse)
    (posts : List Post) (db : Db) (h : (db.posts.map (fun row => row.link)).Nodup) :
    ((posts.foldl (fun db post => insertSitePost table db post response) db).posts.map
      (fun row => row.link)).Nodup := by
  induction posts generalizing db with
  | nil => exact h
  | cons p ps ih => exact ih _ (insertSitePost_nodup table db p response h)

theorem insertSitePost_present (table : Char → Char) (db : Db) (post : Post)
    (response : SiteResponse) (h : ∃ row ∈ db.posts, row.link = post.link) :
    (insertSitePost table db post response).posts = db.posts := by
  rcases insertSitePost_posts table db post response with he | ⟨hc, _, _⟩
  · exact he
  · exfalso
    obtain ⟨row, hrow, hl⟩ := h
    exact linkCount_eq_zero db post.link hc (List.mem_map.mpr ⟨row, hrow, hl⟩)

theorem foldl_insertSitePost_present (table : Char → Char) (response : SiteResponse)
    (posts : List Post) (db : Db)
    (h : ∀ p ∈ posts, ∃ row ∈ db.posts, row.link = p.link) :
    (posts.foldl (fun db post => insertSitePost table db post response) db).posts
      = db.posts := by
  induction posts generalizing db with
  | nil => rfl
  | cons p ps ih =>
    have hp := insertSitePost_present table db p response (h p (List.mem_cons_self _ _))
    rw [List.foldl_cons, ih, hp]
    intro q hq
    rw [hp]
    exact h q (List.mem_cons_of_mem _ hq)

theorem insertSitePost_mono (table : Char → Char) (db : Db) (post : Post)
    (response : SiteResponse) (row : PostRow) (h : row ∈ db.posts) :
    row ∈ (insertSitePost table db post response).posts := by
  rcases insertSitePost_posts table db post response with he | ⟨_, _, r, _, he⟩
  · rw [he]; exact h
  · rw [he]; exact List.mem_append_left _ h

theorem foldl_insertSitePost_noFaults (table : Char → Char) (response : SiteResponse)
    (posts : List Post) (db : Db) (h : NoFaults db) :
    NoFaults (posts.foldl (fun db post => insertSitePost table db post response) db) ∧
    (∀ row ∈ db.posts,
      row ∈ (posts.foldl (fun db post => insertSitePost table db post response) db).posts) ∧
    ∀ p ∈ posts, ∃ row ∈
      (posts.foldl (fun db post => insertSitePost table db post response) db).posts,
      row.link = p.link := by
  induction posts generalizing db with
  | nil => exact ⟨h, fun _ hr => hr, fun p hp => absurd hp (List.not_mem_nil _)⟩
  | cons p ps ih =>
    obtain ⟨hn, row, hrow, hl⟩ := insertSitePost_noFaults table db p response h
    obtain ⟨i1, i2, i3⟩ := ih (insertSitePost table db p response) hn
    refine ⟨i1, fun r hr => i2 r (insertSitePost_mono table db p response r hr), ?_⟩
    intro q hq
    rcases List.mem_cons.mp hq with rfl | hq
    · exact ⟨row, i2 row hrow, hl⟩
    · exact i3 q hq

/-! ## C4: a second run inserts nothing -/

/-- C4: when no call to the store fails, a second run of `updateSitePosts`
on the same response inserts no post row: the post rows after two runs are
the post rows after one. The second run inserts nothing whatever its own
calls to the store do. -/
theorem updateSitePosts_idempotent (table : Char → Char) (db : Db) (response : SiteResponse)
    (h : NoFaults db) :
    (updateSitePosts table (updateSitePosts table db response) response).posts
      = (updateSitePosts table db response).posts ∧
    ∀ faults : List Bool,
      (updateSitePosts table { updateSitePosts table db response with faults := faults }
        response).posts
        = (updateSitePosts table db response).posts := by
  obtain ⟨_, _, h3⟩ := foldl_insertSitePost_noFaults table response response.site.posts db h
  constructor
  · exact foldl_insertSitePost_present table response response.site.posts
      (updateSitePosts table db response) h3
  · intro faults
    exact foldl_insertSitePost_present table response response.site.posts
      { updateSitePosts table db response with faults := faults } h3

/-- C4, at `freshDb` and `sampleResponse`: two post rows after one run and
after two. -/
theorem updateSitePosts_idempotent_witness :
    NoFaults freshDb ∧
    (updateSitePosts id freshDb sampleResponse).posts.map (fun row => row.link)
      = ["http://x/1", "http://x/2"] ∧
    (updateSitePosts id (updateSitePosts id freshDb sampleResponse) sampleResponse).posts
      = (updateSitePosts id freshDb sampleResponse).posts :=
  ⟨by decide, by rfl, (updateSitePosts_idempotent id freshDb sampleResponse (by decide)).1⟩

/-! ## C8: the links of the post rows stay distinct -/

theorem call_of_fault (db : Db) (rest : List Bool) (h : db.faults = true :: rest) :
    db.call = (true, { db with faults := rest }) := by
  unfold Db.call
  rw [h]

/-- C8: `updateSitePosts` keeps the links of the post rows pairwise distinct,
for every list of posts and whatever calls to the store fail; and when the
existence query fails, `alreadyInsertdPost` gives `-1`, `insertSitePost`
leaves every table as it was, and the loop of `associateWithMedia` passes
over the post without taking it for matching. -/
theorem updateSitePosts_unique_links (table : Char → Char) (db : Db)
    (response : SiteResponse) (h : (db.posts.map (fun row => row.link)).Nodup) :
    ((updateSitePosts table db response).posts.map (fun row => row.link)).Nodup ∧
    ∀ (db' : Db) (post : Post) (rest : List Bool), db'.faults = true :: rest →
      (alreadyInsertdPost db' post).1 = -1 ∧
      insertSitePost table db' post response = { db' with faults := rest } ∧
      ∀ (siteKey postKey : Nat) (posts : List Post) (acc : List MediaMatched),
        collectPosts siteKey (post :: posts) postKey db' acc
          = collectPosts siteKey posts (postKey + 1) { db' with faults := rest } acc := by
  refine ⟨foldl_insertSitePost_nodup table response response.site.posts db h, ?_⟩
  intro db' post rest hf
  have hc := call_of_fault db' rest hf
  have ha : alreadyInsertdPost db' post = (-1, { db' with faults := rest }) := by
    rw [alreadyInsertdPost_eq, hc]; rfl
  refine ⟨by rw [ha], ?_, ?_⟩
  · rw [insertSitePost_eq, hc]; rfl
  · intro siteKey postKey posts acc
    rw [collectPosts, ha]
    rfl

/-- C8, at `seededDb` and `sampleResponse`, where a link occurs twice in the
list and a call to the store fails. -/
theorem updateSitePosts_unique_links_witness :
    (seededDb.posts.map (fun row => row.link)).Nodup ∧
    ((updateSitePosts id seededDb sampleResponse).posts.map (fun row => row.link)).Nodup :=
  ⟨by decide, (updateSitePosts_unique_links id seededDb sampleResponse (by decide)).1⟩

/-! ## C7: tag normalisation -/

theorem ascii_upper_toNat : ∀ n : Nat, n ≤ 127 →
    (Char.ofNat n).toNat = n := by decide

theorem unicodeToLower_ascii (table : Char → Char) (c : Char) (h : c.toNat ≤ 127) :
    (unicodeToLower table c).toNat ≤ 127 ∧
    ¬ (65 ≤ (unicodeToLower table c).toNat ∧ (unicodeToLower table c).toNat ≤ 90) ∧
    (unicodeIsSpace c = true → unicodeToLower table c = c) := by
  unfold unicodeToLower
  simp only [h, if_true]
  by_cases hu : 65 ≤ c.toNat ∧ c.toNat ≤ 90
  · have e := ascii_upper_toNat (c.toNat + 32) (by omega)
    simp only [hu.1, hu.2, decide_True, Bool.and_self, if_true, e]
    refine ⟨by omega, by omega, ?_⟩
    intro hs
    exfalso
    unfold unicodeIsSpace at hs
    simp only [Bool.or_eq_true, beq_iff_eq, Bool.and_eq_true, decide_eq_true_eq] at hs
    omega
  · have : ¬ ((decide (65 ≤ c.toNat) && decide (c.toNat ≤ 90)) = true) := by
      simpa using hu
    simp only [this, if_false]
    exact ⟨h, hu, fun _ => rfl⟩

theorem unicodeToLower_idem (table : Char → Char) (ht : CaseTableOk table) (c : Char) :
    unicodeToLower table (unicodeToLower table c) = unicodeToLower table c := by
  by_cases h : c.toNat ≤ 127
  · obtain ⟨h1, h2, _⟩ := unicodeToLower_ascii table c h
    generalize unicodeToLower table c = d at h1 h2
    unfold unicodeToLower
    have : ¬ ((decide (65 ≤ d.toNat) && decide (d.toNat ≤ 90)) = true) := by simpa using h2
    simp [h1, this]
  · have e : unicodeToLower table c = table c := by
      unfold unicodeToLower; simp only [h, if_false]
    rw [e]
    exact ht.1 c (by omega)

theorem unicodeToLower_space (table : Char → Char) (ht : CaseTableOk table) (c : Char)
    (hs : unicodeIsSpace c = true) : unicodeIsSpace (unicodeToLower table c) = true := by
  by_cases h : c.toNat ≤ 127
  · rw [(unicodeToLower_ascii table c h).2.2 hs]; exact hs
  · have e : unicodeToLower table c = table c := by
      unfold unicodeToLower; simp only [h, if_false]
    rw [e]
    exact ht.2 c (by omega) hs

theorem rdropWhile_append_of_pos (p : Char → Bool) (x w : List Char) (h : ∀ c ∈ w, p c = true) :
    (x ++ w).rdropWhile p = x.rdropWhile p := by
  unfold List.rdropWhile
  rw [List.reverse_append, List.dropWhile_append_of_pos]
  intro a ha
  exact h a (List.mem_reverse.mp ha)

theorem trimList_pad (w1 u w2 : List Char) (h1 : ∀ c ∈ w1, unicodeIsSpace c = true)
    (h2 : ∀ c ∈ w2, unicodeIsSpace c = true) :
    trimList (w1 ++ u ++ w2) = trimList u := by
  unfold trimList
  rw [List.append_assoc, List.dropWhile_append_of_pos h1, List.dropWhile_append]
  split_ifs with he
  · have hu : u.dropWhile unicodeIsSpace = [] := by simpa using he
    rw [hu, (List.dropWhile_eq_nil_iff).mpr h2]
  · exact rdropWhile_append_of_pos _ _ _ h2

theorem head_of_prefix (p : Char → Bool) (y z t : List Char) (h : z ++ t = y)
    (hy : ∀ hl : 0 < y.length, ¬ p (y.get ⟨0, hl⟩) = true) :
    ∀ hl : 0 < z.length, ¬ p (z.get ⟨0, hl⟩) = true := by
  subst h
  cases z with
  | nil => intro hl; simp at hl
  | cons a z =>
    intro _
    have := hy (by simp)
    simpa using this

theorem trimList_idem (l : List Char) : trimList (trimList l) = trimList l := by
  unfold trimList
  have hd : ((l.dropWhile unicodeIsSpace).rdropWhile unicodeIsSpace).dropWhile unicodeIsSpace
      = (l.dropWhile unicodeIsSpace).rdropWhile unicodeIsSpace := by
    rw [List.dropWhile_eq_self_iff]
    obtain ⟨t, ht⟩ := List.rdropWhile_prefix unicodeIsSpace (l.dropWhile unicodeIsSpace)
    exact head_of_prefix unicodeIsSpace _ _ t ht
      (fun hl => List.dropWhile_get_zero_not unicodeIsSpace l hl)
  rw [hd, List.rdropWhile_idempotent]

theorem mem_trimList (l : List Char) (c : Char) (h : c ∈ trimList l) : c ∈ l := by
  unfold trimList at h
  exact (List.dropWhile_sublist _).subset
    ((List.rdropWhile_prefix unicodeIsSpace _).subset h)

theorem lowerTag_toList (table : Char → Char) (s : String) :
    (lowerTag table s).toList = trimList (s.toList.map (unicodeToLower table)) := rfl

theorem lowerTag_idem (table : Char → Char) (ht : CaseTableOk table) (category : String) :
    lowerTag table (lowerTag table category) = lowerTag table category := by
  apply String.ext
  show (lowerTag table (lowerTag table category)).toList = (lowerTag table category).toList
  rw [lowerTag_toList, lowerTag_toList]
  have hm : (trimList (category.toList.map (unicodeToLower table))).map (unicodeToLower table)
      = trimList (category.toList.map (unicodeToLower table)) := by
    have hc : ∀ c ∈ trimList (category.toList.map (unicodeToLower table)),
        unicodeToLower table c = id c := by
      intro c hc
      obtain ⟨d, _, rfl⟩ := List.mem_map.mp (mem_trimList _ _ hc)
      exact unicodeToLower_idem table ht d
    rw [List.map_congr_left hc, List.map_id]
  rw [hm, trimList_idem]

theorem unicodeToLower_upper (table : Char → Char) (c d : Char)
    (h1 : 65 ≤ c.toNat) (h2 : c.toNat ≤ 90) (h3 : d.toNat = c.toNat + 32) :
    unicodeToLower table c = d ∧ unicodeToLower table d = d := by
  constructor
  · unfold unicodeToLower
    have a1 : c.toNat ≤ 127 := by omega
    simp only [a1, if_true, h1, h2, decide_True, Bool.and_self]
    rw [← h3, Char.ofNat_toNat]
  · unfold unicodeToLower
    have a1 : d.toNat ≤ 127 := by omega
    have a2 : ¬ ((decide (65 ≤ d.toNat) && decide (d.toNat ≤ 90)) = true) := by
      simp only [Bool.and_eq_true, decide_eq_true_eq]; omega
    simp [a1, a2]

theorem unicodeToLower_beyond (table : Char → Char) (c : Char) (h : 127 < c.toNat) :
    unicodeToLower table c = table c := by
  unfold unicodeToLower
  have : ¬ c.toNat ≤ 127 := by omega
  simp only [this, if_false]

/-- The two characters of a case pair have one lower-case form. -/
theorem casePair_lower (table : Char → Char) (ht : CaseTableOk table) (c d : Char)
    (h : CasePair table c d) : unicodeToLower table c = unicodeToLower table d := by
  rcases h with rfl | ⟨h1, h2, h3⟩ | ⟨h1, h2, h3⟩ | ⟨h1, rfl⟩ | ⟨h1, rfl⟩
  · rfl
  · obtain ⟨e1, e2⟩ := unicodeToLower_upper table c d h1 h2 h3
    rw [e1, e2]
  · obtain ⟨e1, e2⟩ := unicodeToLower_upper table d c h1 h2 h3
    rw [e1, e2]
  · rw [unicodeToLower_beyond table c h1, ht.1 c h1]
  · rw [unicodeToLower_beyond table d h1, ht.1 d h1]

theorem casePairs_lower (table : Char → Char) (ht : CaseTableOk table) (u v : List Char)
    (h : List.Forall₂ (CasePair table) u v) :
    u.map (unicodeToLower table) = v.map (unicodeToLower table) := by
  induction h with
  | nil => rfl
  | cons hcd _ ih => rw [List.map_cons, List.map_cons, ih, casePair_lower table ht _ _ hcd]

theorem lowerTag_variants (table : Char → Char) (ht : CaseTableOk table) (a b : String)
    (h : CaseSpaceVariants table a b) : lowerTag table a = lowerTag table b := by
  obtain ⟨w1, u, w2, w3, v, w4, ha, hb, h1, h2, h3, h4, huv⟩ := h
  apply String.ext
  show (lowerTag table a).toList = (lowerTag table b).toList
  have sp : ∀ w : List Char, (∀ c ∈ w, unicodeIsSpace c = true) →
      ∀ c ∈ w.map (unicodeToLower table), unicodeIsSpace c = true := by
    intro w hw c hc
    obtain ⟨d, hd, rfl⟩ := List.mem_map.mp hc
    exact unicodeToLower_space table ht d (hw d hd)
  rw [lowerTag_toList, lowerTag_toList, ha, hb, List.map_append, List.map_append,
    List.map_append, List.map_append, trimList_pad _ _ _ (sp w1 h1) (sp w2 h2),
    trimList_pad _ _ _ (sp w3 h3) (sp w4 h4), casePairs_lower table ht u v huv]

theorem resolveTag_found (db : Db) (t : String) (row : TagRow) (hn : NoFaults db)
    (hw : TagIdsOk db) (hf : db.tags.find? (fun row => row.tag == t) = some row) :
    resolveTag db t = (db.call.2, some row.pkTagId) := by
  have hne : row.pkTagId ≠ 0 := hw.2 row (List.mem_of_find?_eq_some hf)
  have hb : (row.pkTagId == 0) = false := by simpa using hne
  unfold resolveTag
  simp only [(call_noFaults db hn).1, call_tags, hf, hb, Bool.false_eq_true, if_false]

theorem resolveTag_new (db : Db) (t : String) (hn : NoFaults db)
    (hf : db.tags.find? (fun row => row.tag == t) = none) :
    (resolveTag db t).2 = some db.nextTagId ∧
    (resolveTag db t).1.tags = db.tags ++ [(⟨db.nextTagId, t⟩ : TagRow)] ∧
    (resolveTag db t).1.nextTagId = db.nextTagId + 1 ∧
    NoFaults (resolveTag db t).1 := by
  have h1 := call_noFaults db hn
  have h2 := call_noFaults _ h1.2
  have h3 := call_noFaults _ h2.2
  have h4 := call_noFaults
    { db.call.2.call.2.call.2 with
      tags := db.call.2.call.2.call.2.tags ++ [(⟨db.call.2.call.2.call.2.nextTagId, t⟩ : TagRow)]
      nextTagId := db.call.2.call.2.call.2.nextTagId + 1 } h3.2
  have hf' : db.call.2.tags.find? (fun row => row.tag == t) = none := by
    rw [call_tags]; exact hf
  unfold resolveTag
  simp only [h1.1, h2.1, h3.1, h4.1, hf', Bool.false_eq_true, if_false,
    beq_self_eq_true, if_true]
  refine ⟨by simp only [call_nextTagId], ?_, ?_, h4.2⟩
  · simp only [call_tags, call_nextTagId]
  · simp only [call_nextTagId]

theorem caseTableOk_sigmaTable : CaseTableOk sigmaTable := by
  constructor
  · intro c hc
    by_cases h : c = 'Σ'
    · subst h
      rfl
    · have e : sigmaTable c = c := by simp only [sigmaTable, h, if_false]
      rw [e, unicodeToLower_beyond sigmaTable c hc, e]
  · intro c _ hs
    by_cases h : c = 'Σ'
    · subst h
      exact absurd hs (by decide)
    · have e : sigmaTable c = c := by simp only [sigmaTable, h, if_false]
      rw [e]
      exact hs

/-- C7 (as stated, refuted): the categories `S` and `ſ` differ only in letter
case, and so do `Σ` and `ς` (each pair is one orbit of case folding), but
`unicode.ToLower` keeps the long s and the final sigma, which are small
letters: the tag texts are `s` and `ſ`, `σ` and `ς`, and `insertPostTags`
writes two tag rows for each pair. -/
theorem insertPostTags_long_s_two_rows :
    equalFold "S" "ſ" = true ∧ equalFold "Σ" "ς" = true ∧
    lowerTag sigmaTable "S" = "s" ∧ lowerTag sigmaTable "ſ" = "ſ" ∧
    lowerTag sigmaTable "Σ" = "σ" ∧ lowerTag sigmaTable "ς" = "ς" ∧
    lowerTag sigmaTable "S" ≠ lowerTag sigmaTable "ſ" ∧
    lowerTag sigmaTable "Σ" ≠ lowerTag sigmaTable "ς" ∧
    (insertPostTags sigmaTable freshDb { categories := ["S", "ſ"] } 1).tags
      = [⟨1, "s"⟩, ⟨2, "ſ"⟩] ∧
    (insertPostTags sigmaTable freshDb { categories := ["Σ", "ς"] } 1).tags
      = [⟨1, "σ"⟩, ⟨2, "ς"⟩] := by
  refine ⟨by decide, by decide, by rfl, by rfl, by rfl, by rfl, by decide, by decide,
    by rfl, by rfl⟩

/-- C7 (amended): under the case tables of the `unicode` package, the tag
text of a category, `strings.TrimSpace(strings.ToLower(category))`, is its own
tag text; two categories that differ only in surrounding white space and in
the case of letters that `unicode.ToLower` brings together (a letter `A` to `Z`
with its small letter, a character beyond ASCII with its entry in the
lower-case table) have the same tag text; and in a store in which no call
fails the lookup-or-create of `insertPostTags` gives them the same tag row: the
second lookup finds the row of the first and adds none. The capital letters
`A` to `Z` become the small letters; `Comedy` and ` comedy ` both have the
tag text `comedy`. -/
theorem lowerTag_normal_form (table : Char → Char) (hTable : CaseTableOk table) :
    (∀ category, lowerTag table (lowerTag table category) = lowerTag table category) ∧
    (∀ a b, CaseSpaceVariants table a b →
      lowerTag table a = lowerTag table b ∧
      ∀ db : Db, NoFaults db → TagIdsOk db →
        ∃ tagId : Int,
          (resolveTag db (lowerTag table a)).2 = some tagId ∧
          (resolveTag (resolveTag db (lowerTag table a)).1 (lowerTag table b)).2 = some tagId ∧
          (resolveTag (resolveTag db (lowerTag table a)).1 (lowerTag table b)).1.tags
            = (resolveTag db (lowerTag table a)).1.tags) ∧
    lowerTag table "ABCDEFGHIJKLMNOPQRSTUVWXYZ" = "abcdefghijklmnopqrstuvwxyz" ∧
    lowerTag table "Comedy" = "comedy" ∧ lowerTag table " comedy " = "comedy" := by
  refine ⟨lowerTag_idem table hTable, ?_, by rfl, by rfl, by rfl⟩
  intro a b hab
  have hEq := lowerTag_variants table hTable a b hab
  refine ⟨hEq, ?_⟩
  intro db hn hw
  rw [← hEq]
  generalize lowerTag table a = t
  cases hf : db.tags.find? (fun row => row.tag == t) with
  | some row =>
    have e1 := resolveTag_found db t row hn hw hf
    have hn1 := (call_noFaults db hn).2
    have hw1 : TagIdsOk db.call.2 := by
      unfold TagIdsOk; rw [call_tags, call_nextTagId]; exact hw
    have hf1 : db.call.2.tags.find? (fun row => row.tag == t) = some row := by
      rw [call_tags]; exact hf
    have e2 := resolveTag_found db.call.2 t row hn1 hw1 hf1
    refine ⟨row.pkTagId, by rw [e1], by rw [e1, e2], by rw [e1, e2, call_tags]⟩
  | none =>
    obtain ⟨r1, r2, r3, r4⟩ := resolveTag_new db t hn hf
    have hw1 : TagIdsOk (resolveTag db t).1 := by
      refine ⟨by rw [r3]; have := hw.1; omega, ?_⟩
      intro row hrow
      rw [r2] at hrow
      rcases List.mem_append.mp hrow with h | h
      · exact hw.2 row h
      · have : row = ⟨db.nextTagId, t⟩ := by simpa using h
        rw [this]
        have := hw.1
        show db.nextTagId ≠ 0
        omega
    have hf1 : (resolveTag db t).1.tags.find? (fun row => row.tag == t)
        = some ⟨db.nextTagId, t⟩ := by
      rw [r2, List.find?_append, hf]
      simp
    have e2 := resolveTag_found (resolveTag db t).1 t _ r4 hw1 hf1
    refine ⟨db.nextTagId, r1, by rw [e2], by rw [e2, call_tags]⟩

theorem comedy_variants (table : Char → Char) :
    CaseSpaceVariants table "Comedy" " comedy " :=
  ⟨[], "Comedy".toList, [], [' '], "comedy".toList, [' '], by rfl, by rfl, by simp, by simp,
    by decide, by decide,
    List.Forall₂.cons (Or.inr (Or.inl (by decide)))
      (List.Forall₂.cons (Or.inl rfl) (List.Forall₂.cons (Or.inl rfl)
        (List.Forall₂.cons (Or.inl rfl) (List.Forall₂.cons (Or.inl rfl)
          (List.Forall₂.cons (Or.inl rfl) List.Forall₂.nil)))))⟩

theorem sigma_variants : CaseSpaceVariants sigmaTable "ΣΑ " "σΑ" :=
  ⟨[], "ΣΑ".toList, [' '], [], "σΑ".toList, [], by rfl, by rfl, by simp, by decide,
    by simp, by simp,
    List.Forall₂.cons (Or.inr (Or.inr (Or.inr (Or.inl ⟨by decide, by rfl⟩))))
      (List.Forall₂.cons (Or.inl rfl) List.Forall₂.nil)⟩

/-- C7, with a lower-case table that has the entry of the capital sigma: the
two categories of the specification, a pair of categories beyond ASCII, and
the rows that `insertPostTags` writes for a post that has both categories of
the specification. -/
theorem lowerTag_normal_form_witness :
    CaseTableOk sigmaTable ∧
    CaseSpaceVariants sigmaTable "Comedy" " comedy " ∧
    lowerTag sigmaTable "Comedy" = lowerTag sigmaTable " comedy " ∧
    CaseSpaceVariants sigmaTable "ΣΑ " "σΑ" ∧
    lowerTag sigmaTable "ΣΑ " = lowerTag sigmaTable "σΑ" ∧
    (insertPostTags sigmaTable freshDb { categories := ["Comedy", " comedy "] } 1).tags
      = [⟨1, "comedy"⟩] ∧
    (insertPostTags sigmaTable freshDb { categories := ["Comedy", " comedy "] } 1).postTags
      = [⟨1, 1⟩, ⟨1, 1⟩] :=
  ⟨caseTableOk_sigmaTable, comedy_variants sigmaTable,
   ((lowerTag_normal_form sigmaTable caseTableOk_sigmaTable).2.1 "Comedy" " comedy "
     (comedy_variants sigmaTable)).1,
   sigma_variants,
   ((lowerTag_normal_form sigmaTable caseTableOk_sigmaTable).2.1 "ΣΑ " "σΑ" sigma_variants).1,
   by rfl, by rfl⟩

/-! ## C6 and C10: what `getSiteFeed` does with a failed read or parse -/

theorem rss_fold_frame (env : Env) (items : List RssItem) (pf : SiteResponse) :
    (items.foldl
      (fun pf item =>
        let post := rssPost env item
        if goLen post.postTitle > 150 then pf
        else { pf with site := { pf.site with posts := pf.site.posts ++ [post] } })
      pf).hasRssDoc = pf.hasRssDoc ∧
    (items.foldl
      (fun pf item =>
        let post := rssPost env item
        if goLen post.postTitle > 150 then pf
        else { pf with site := { pf.site with posts := pf.site.posts ++ [post] } })
      pf).site.feedName = pf.site.feedName := by
  induction items generalizing pf with
  | nil => exact ⟨rfl, rfl⟩
  | cons item items ih =>
    rw [List.foldl_cons]
    obtain ⟨i1, i2⟩ := ih (if goLen (rssPost env item).postTitle > 150 then pf
        else { pf with site := { pf.site with posts := pf.site.posts ++ [rssPost env item] } })
    simp only [] at i1 i2 ⊢
    rw [i1, i2]
    split_ifs <;> exact ⟨rfl, rfl⟩

theorem youTube_fold_frame (env : Env) (entries : List YouTubeEntry) (pf : SiteResponse) :
    (entries.foldl
      (fun pf entry =>
        let post := youTubePost env entry
        { pf with site := { pf.site with posts := pf.site.posts ++ [post] } })
      pf).hasRssDoc = pf.hasRssDoc ∧
    (entries.foldl
      (fun pf entry =>
        let post := youTubePost env entry
        { pf with site := { pf.site with posts := pf.site.posts ++ [post] } })
      pf).site.feedName = pf.site.feedName := by
  induction entries generalizing pf with
  | nil => exact ⟨rfl, rfl⟩
  | cons entry entries ih =>
    rw [List.foldl_cons]
    obtain ⟨i1, i2⟩ := ih
      { pf with site := { pf.site with posts := pf.site.posts ++ [youTubePost env entry] } }
    simp only [] at i1 i2 ⊢
    rw [i1, i2]
    exact ⟨rfl, rfl⟩

/-- The function `updateSiteData` keeps the content flag and sets the feed
name to the title of the document of the dialect. -/
theorem updateSiteData_frame (env : Env) (parsedFeed : SiteResponse) :
    (updateSiteData env parsedFeed).hasRssDoc = parsedFeed.hasRssDoc ∧
    (updateSiteData env parsedFeed).site.feedName
      = (if parsedFeed.site.siteType == "Anitube" then parsedFeed.youTubeFeed.Title
         else parsedFeed.rssDoc.Channel.Title) := by
  unfold updateSiteData
  split_ifs
  · obtain ⟨h1, h2⟩ := youTube_fold_frame env parsedFeed.youTubeFeed.Entries
      { parsedFeed with site := { parsedFeed.site with feedName := parsedFeed.youTubeFeed.Title } }
    exact ⟨h1, h2⟩
  · obtain ⟨h1, h2⟩ := rss_fold_frame env parsedFeed.rssDoc.Channel.Items
      { parsedFeed with
        site := { parsedFeed.site with feedName := parsedFeed.rssDoc.Channel.Title } }
    exact ⟨h1, h2⟩

/-- A fetch that fails before a response with status 200 is read gives the
site as it came with the content flag unset, and the loop of `start` writes
nothing for it. -/
theorem getSiteFeed_failed_fetch (env : Env) (table : Char → Char) (site : Site)
    (outcome : HttpOutcome)
    (h : outcome = .requestError ∨ outcome = .doError ∨
      ∃ status body readFailed, status ≠ 200 ∧ outcome = .response status body readFailed) :
    getSiteFeed env site outcome = { site := site, hasRssDoc := false } ∧
    ∀ db : Db, persistResponse env table db (getSiteFeed env site outcome) = db := by
  have h1 : getSiteFeed env site outcome = { site := site, hasRssDoc := false } := by
    rcases h with rfl | rfl | ⟨status, body, readFailed, hs, rfl⟩
    · rfl
    · rfl
    · unfold getSiteFeed
      have : (status == 200) = false := by simpa using hs
      simp [this]
  refine ⟨h1, ?_⟩
  intro db
  rw [h1]
  rfl

/-- C6 (the code at the failing input): a response with status 200 whose
body cannot be read to the end is not content-absent. `getSiteFeed` sets the
content flag whatever `ioutil.ReadAll` reports, and the round then writes the
feed name and the time of the check of the site: with a decoder that rejects
the part that was read, the feed name `Old name` becomes the empty string. -/
theorem getSiteFeed_read_failure_has_content :
    (∀ (env : Env) (site : Site) (body : String),
      (getSiteFeed env site (.response 200 body true)).hasRssDoc = true ∧
      getSiteFeed env site (.response 200 body true)
        = getSiteFeed env site (.response 200 body false)) ∧
    freshDb.sites.map (fun row => (row.feedName, row.lastChecked))
      = [("Old name", "2005-12-31 00:00:00")] ∧
    (start sampleEnv id inOrder (fun _ => .response 200 "<rss><channel><title>Fe" true)
      freshDb).sites.map (fun row => (row.feedName, row.lastChecked))
      = [("", "1970-01-01 00:00:00")] := by
  refine ⟨?_, by rfl, by rfl⟩
  intro env site body
  refine ⟨?_, rfl⟩
  unfold getSiteFeed
  simp only [beq_self_eq_true, Nat.reduceLT, decide_True, Bool.and_self, if_true]
  rw [(updateSiteData_frame env _).1]

/-- C10 (the code at the failing input): a document that `xml.Unmarshal`
rejects is not handled like a failed fetch. `getSiteFeed` sets the content
flag whatever the decoder reports and hands what the decoder has filled to
`updateSiteData`; the round then overwrites the feed name (with the empty
string when nothing was filled) and persists the posts of the items that were
filled before the error. -/
theorem getSiteFeed_parse_failure_has_content :
    (∀ (env : Env) (site : Site) (body : String) (readFailed : Bool),
      (getSiteFeed env site (.response 200 body readFailed)).hasRssDoc = true ∧
      (getSiteFeed env site (.response 200 body readFailed)).site.feedName
        = (if site.siteType == "Anitube" then (env.unmarshalYouTube body).1.Title
           else (env.unmarshalRss body).1.Channel.Title)) ∧
    (sampleEnv.unmarshalRss "not xml").2 = true ∧
    (start sampleEnv id inOrder (fun _ => .response 200 "not xml" false)
      freshDb).sites.map (fun row => (row.feedName, row.lastChecked))
      = [("", "1970-01-01 00:00:00")] ∧
    (partialEnv.unmarshalRss truncatedBody).2 = true ∧
    (start partialEnv id inOrder (fun _ => .response 200 truncatedBody false)
      freshDb).posts.map (fun row => (row.fkSiteId, row.link, row.pubDate))
      = [(3, "http://x/1", "2006-01-02 15:04:05")] := by
  refine ⟨?_, by rfl, by rfl, by rfl, by rfl⟩
  intro env site body readFailed
  unfold getSiteFeed
  simp only [beq_self_eq_true, Nat.reduceLT, decide_True, Bool.and_self, if_true]
  rw [(updateSiteData_frame env _).1, (updateSiteData_frame env _).2]
  refine ⟨rfl, ?_⟩
  by_cases h : (site.siteType == "Anitube") = true
  · simp [h]
  · simp [h]

/-! ## C9: the merge loop of `associateWithMedia` -/

/-- The responses that `associateWithMedia` returns are the responses it
received, or the merge of the results of the matching stage in the order of
the schedule. -/
theorem associateWithMedia_sites (sched : Schedule) (db : Db) (sites : List SiteResponse) :
    (associateWithMedia sched db sites).2 = sites ∨
    ∃ (db' : Db) (mediaTitles : List MediaItem),
      (associateWithMedia sched db sites).2
        = mergeMatches sites
            (sched.matchOrder
              ((collectSites sites 0 db' []).2.map (matchMediaToPost mediaTitles))) := by
  unfold associateWithMedia
  simp only []
  split_ifs
  · exact Or.inl rfl
  · exact Or.inl rfl
  · split
    · exact Or.inl rfl
    · split_ifs
      · exact Or.inr ⟨_, _, rfl⟩
      · exact Or.inl rfl
  · exact Or.inl rfl

end AbtFeed
